import Mathlib

/-!
# orca_array: strided index mapping of array1d .. array7d

Shallow embedding of `orca_array.hpp`.

* C++ `int` is a signed 32-bit machine integer.  Values are carried as `Int`
  and every `*` and `+` of the source is followed by a reduction into
  `[-2^31, 2^31)` (`wrap`), so that overflowing products are visible.
* The two preprocessor options `ARRAY_BOUNDS_CHECK` and `FORTRAN_ORDER` are
  explicit parameters, tested with `= 1` as the `#if` lines do.
* `raise(SIGSEGV)` ends the run; it is the `error` branch of `Except`.
* `new T[n]` yields `n` cells for a count `n ≥ 0`.  For a negative count the
  new-expression throws `std::bad_array_new_length` and the constructor call
  leaves no array: that outcome is in `orca.construct`.  The constructors of
  the seven classes and `orca.new` give the object as the constructor body
  builds it, with the storage that `new` returns when it returns; heap
  exhaustion is outside the model.  `internal_array[k]` is defined only for
  `0 ≤ k < n`.
* `at()` returns a reference; the reference is represented by the computed
  subscript `k`, and reading or assigning through it acts on cell `k`.
* A caller's use of an array is a run of accesses (`orca.run`); a run stops at
  the first `raise(SIGSEGV)`, and an access outside the storage has no
  defined outcome.
-/

set_option linter.dupNamespace false
set_option linter.unnecessarySeqFocus false
set_option maxHeartbeats 1000000

namespace orca_array

/-- Smallest value of a C++ `int`. -/
def INT_MIN : Int := -2147483648

/-- Largest value of a C++ `int`. -/
def INT_MAX : Int := 2147483647

/-- Reduction of an integer into the 32-bit two's complement range. -/
def wrap (z : Int) : Int := (z + 2147483648) % 4294967296 - 2147483648

/-- C++ `a * b` on `int`. -/
def imul (a b : Int) : Int := wrap (a * b)

/-- C++ `a + b` on `int`. -/
def iadd (a b : Int) : Int := wrap (a + b)

/-- Diagnostics printed before `raise(SIGSEGV)`: which axis, the offending
value and, for an index, the extent of that axis. -/
inductive Fault where
  | invalid_extent (axis : Nat) (dim : Int)
  | index_out_of_range (axis : Nat) (x : Int) (size : Int)
  deriving DecidableEq, Repr

instance instDecidableEqExcept {ε β : Type} [DecidableEq ε] [DecidableEq β] :
    DecidableEq (Except ε β)
  | .ok a, .ok b => if h : a = b then isTrue (by rw [h]) else isFalse (by intro e; cases e; exact h rfl)
  | .error a, .error b =>
    if h : a = b then isTrue (by rw [h]) else isFalse (by intro e; cases e; exact h rfl)
  | .ok _, .error _ => isFalse (by intro e; cases e)
  | .error _, .ok _ => isFalse (by intro e; cases e)

/-- Storage that `new array_element_type[n]` returns for a count `n ≥ 0`: `n`
cells.  For a negative count the new-expression returns nothing (see
`new_throws`); the value here is then the empty list. -/
def new_array {α : Type} (n : Int) (init : α) : List α :=
  List.replicate n.toNat init

/-- Read of `internal_array[k]`; `none` when `k` is outside the storage. -/
def subscript {α : Type} (buf : List α) (k : Int) : Option α :=
  if 0 ≤ k then buf.get? k.toNat else none

/-- Assignment `internal_array[k] = v`; `none` when `k` is outside the storage. -/
def assign {α : Type} (buf : List α) (k : Int) (v : α) : Option (List α) :=
  if 0 ≤ k ∧ k.toNat < buf.length then some (buf.set k.toNat v) else none

/-! ## array1d -/

structure array1d (α : Type) where
  size1 : Int
  internal_array : List α

def array1d.length1 {α : Type} (a : array1d α) : Int := a.size1

def array1d.at {α : Type} (ARRAY_BOUNDS_CHECK : Nat) (a : array1d α)
    (x1 : Int) : Except Fault Int :=
  if ARRAY_BOUNDS_CHECK = 1 ∧ (x1 < 0 ∨ x1 ≥ a.size1) then
    .error (.index_out_of_range 1 x1 a.size1)
  else
    .ok x1

def array1d.at_const {α : Type} (ARRAY_BOUNDS_CHECK : Nat) (a : array1d α)
    (x1 : Int) : Except Fault Int :=
  if ARRAY_BOUNDS_CHECK = 1 ∧ (x1 < 0 ∨ x1 ≥ a.size1) then
    .error (.index_out_of_range 1 x1 a.size1)
  else
    .ok x1

def array1d.array1d {α : Type} (dim1 : Int) (init : α) : Except Fault (array1d α) :=
  if dim1 ≤ 0 then
    .error (.invalid_extent 1 dim1)
  else
    let size1 := dim1
    let internal_array := new_array size1 init
    .ok { size1 := size1, internal_array := internal_array }

/-! ## array2d -/

structure array2d (α : Type) where
  size1 : Int
  size2 : Int
  internal_array : List α

def array2d.length1 {α : Type} (a : array2d α) : Int := a.size1

def array2d.length2 {α : Type} (a : array2d α) : Int := a.size2

def array2d.at {α : Type} (ARRAY_BOUNDS_CHECK FORTRAN_ORDER : Nat) (a : array2d α)
    (x1 x2 : Int) : Except Fault Int :=
  if ARRAY_BOUNDS_CHECK = 1 ∧ (x1 < 0 ∨ x1 ≥ a.size1) then
    .error (.index_out_of_range 1 x1 a.size1)
  else if ARRAY_BOUNDS_CHECK = 1 ∧ (x2 < 0 ∨ x2 ≥ a.size2) then
    .error (.index_out_of_range 2 x2 a.size2)
  else if FORTRAN_ORDER = 1 then
    .ok (iadd (imul x2 a.size1) x1)
  else
    .ok (iadd (imul x1 a.size2) x2)

def array2d.at_const {α : Type} (ARRAY_BOUNDS_CHECK FORTRAN_ORDER : Nat) (a : array2d α)
    (x1 x2 : Int) : Except Fault Int :=
  if ARRAY_BOUNDS_CHECK = 1 ∧ (x1 < 0 ∨ x1 ≥ a.size1) then
    .error (.index_out_of_range 1 x1 a.size1)
  else if ARRAY_BOUNDS_CHECK = 1 ∧ (x2 < 0 ∨ x2 ≥ a.size2) then
    .error (.index_out_of_range 2 x2 a.size2)
  else if FORTRAN_ORDER = 1 then
    .ok (iadd (imul x2 a.size1) x1)
  else
    .ok (iadd (imul x1 a.size2) x2)

def array2d.array2d {α : Type} (dim1 dim2 : Int) (init : α) :
    Except Fault (array2d α) :=
  if dim1 ≤ 0 then
    .error (.invalid_extent 1 dim1)
  else if dim2 ≤ 0 then
    .error (.invalid_extent 2 dim2)
  else
    let size1 := dim1
    let size2 := dim2
    let internal_array := new_array (imul size1 size2) init
    .ok { size1 := size1, size2 := size2, internal_array := internal_array }

/-! ## array3d -/

structure array3d (α : Type) where
  size1 : Int
  size2 : Int
  size3 : Int
  internal_array : List α
  F1 : Int
  F2 : Int
  F3 : Int
  C1 : Int
  C2 : Int
  C3 : Int

def array3d.length1 {α : Type} (a : array3d α) : Int := a.size1

def array3d.length2 {α : Type} (a : array3d α) : Int := a.size2

def array3d.length3 {α : Type} (a : array3d α) : Int := a.size3

def array3d.at {α : Type} (ARRAY_BOUNDS_CHECK FORTRAN_ORDER : Nat) (a : array3d α)
    (x1 x2 x3 : Int) : Except Fault Int :=
  if ARRAY_BOUNDS_CHECK = 1 ∧ (x1 < 0 ∨ x1 ≥ a.size1) then
    .error (.index_out_of_range 1 x1 a.size1)
  else if ARRAY_BOUNDS_CHECK = 1 ∧ (x2 < 0 ∨ x2 ≥ a.size2) then
    .error (.index_out_of_range 2 x2 a.size2)
  else if ARRAY_BOUNDS_CHECK = 1 ∧ (x3 < 0 ∨ x3 ≥ a.size3) then
    .error (.index_out_of_range 3 x3 a.size3)
  else if FORTRAN_ORDER = 1 then
    .ok (iadd (iadd (imul x3 a.F3) (imul x2 a.F2)) (imul x1 a.F1))
  else
    .ok (iadd (iadd (imul x1 a.C1) (imul x2 a.C2)) (imul x3 a.C3))

def array3d.at_const {α : Type} (ARRAY_BOUNDS_CHECK FORTRAN_ORDER : Nat) (a : array3d α)
    (x1 x2 x3 : Int) : Except Fault Int :=
  if ARRAY_BOUNDS_CHECK = 1 ∧ (x1 < 0 ∨ x1 ≥ a.size1) then
    .error (.index_out_of_range 1 x1 a.size1)
  else if ARRAY_BOUNDS_CHECK = 1 ∧ (x2 < 0 ∨ x2 ≥ a.size2) then
    .error (.index_out_of_range 2 x2 a.size2)
  else if ARRAY_BOUNDS_CHECK = 1 ∧ (x3 < 0 ∨ x3 ≥ a.size3) then
    .error (.index_out_of_range 3 x3 a.size3)
  else if FORTRAN_ORDER = 1 then
    .ok (iadd (iadd (imul x3 a.F3) (imul x2 a.F2)) (imul x1 a.F1))
  else
    .ok (iadd (iadd (imul x1 a.C1) (imul x2 a.C2)) (imul x3 a.C3))

def array3d.array3d {α : Type} (dim1 dim2 dim3 : Int) (init : α) :
    Except Fault (array3d α) :=
  if dim1 ≤ 0 then
    .error (.invalid_extent 1 dim1)
  else if dim2 ≤ 0 then
    .error (.invalid_extent 2 dim2)
  else if dim3 ≤ 0 then
    .error (.invalid_extent 3 dim3)
  else
    let size1 := dim1
    let size2 := dim2
    let size3 := dim3
    let F3 := imul size2 size1
    let F2 := size1
    let F1 := 1
    let C1 := imul size2 size3
    let C2 := size3
    let C3 := 1
    let internal_array := new_array (imul (imul size1 size2) size3) init
    .ok { size1 := size1, size2 := size2, size3 := size3,
          internal_array := internal_array,
          F1 := F1, F2 := F2, F3 := F3,
          C1 := C1, C2 := C2, C3 := C3 }

/-! ## array4d -/

structure array4d (α : Type) where
  size1 : Int
  size2 : Int
  size3 : Int
  size4 : Int
  internal_array : List α
  F1 : Int
  F2 : Int
  F3 : Int
  F4 : Int
  C1 : Int
  C2 : Int
  C3 : Int
  C4 : Int

def array4d.length1 {α : Type} (a : array4d α) : Int := a.size1

def array4d.length2 {α : Type} (a : array4d α) : Int := a.size2

def array4d.length3 {α : Type} (a : array4d α) : Int := a.size3

def array4d.length4 {α : Type} (a : array4d α) : Int := a.size4

def array4d.at {α : Type} (ARRAY_BOUNDS_CHECK FORTRAN_ORDER : Nat) (a : array4d α)
    (x1 x2 x3 x4 : Int) : Except Fault Int :=
  if ARRAY_BOUNDS_CHECK = 1 ∧ (x1 < 0 ∨ x1 ≥ a.size1) then
    .error (.index_out_of_range 1 x1 a.size1)
  else if ARRAY_BOUNDS_CHECK = 1 ∧ (x2 < 0 ∨ x2 ≥ a.size2) then
    .error (.index_out_of_range 2 x2 a.size2)
  else if ARRAY_BOUNDS_CHECK = 1 ∧ (x3 < 0 ∨ x3 ≥ a.size3) then
    .error (.index_out_of_range 3 x3 a.size3)
  else if ARRAY_BOUNDS_CHECK = 1 ∧ (x4 < 0 ∨ x4 ≥ a.size4) then
    .error (.index_out_of_range 4 x4 a.size4)
  else if FORTRAN_ORDER = 1 then
    .ok (iadd (iadd (iadd (imul x4 a.F4) (imul x3 a.F3)) (imul x2 a.F2)) (imul x1 a.F1))
  else
    .ok (iadd (iadd (iadd (imul x1 a.C1) (imul x2 a.C2)) (imul x3 a.C3)) (imul x4 a.C4))

def array4d.at_const {α : Type} (ARRAY_BOUNDS_CHECK FORTRAN_ORDER : Nat) (a : array4d α)
    (x1 x2 x3 x4 : Int) : Except Fault Int :=
  if ARRAY_BOUNDS_CHECK = 1 ∧ (x1 < 0 ∨ x1 ≥ a.size1) then
    .error (.index_out_of_range 1 x1 a.size1)
  else if ARRAY_BOUNDS_CHECK = 1 ∧ (x2 < 0 ∨ x2 ≥ a.size2) then
    .error (.index_out_of_range 2 x2 a.size2)
  else if ARRAY_BOUNDS_CHECK = 1 ∧ (x3 < 0 ∨ x3 ≥ a.size3) then
    .error (.index_out_of_range 3 x3 a.size3)
  else if ARRAY_BOUNDS_CHECK = 1 ∧ (x4 < 0 ∨ x4 ≥ a.size4) then
    .error (.index_out_of_range 4 x4 a.size4)
  else if FORTRAN_ORDER = 1 then
    .ok (iadd (iadd (iadd (imul x4 a.F4) (imul x3 a.F3)) (imul x2 a.F2)) (imul x1 a.F1))
  else
    .ok (iadd (iadd (iadd (imul x1 a.C1) (imul x2 a.C2)) (imul x3 a.C3)) (imul x4 a.C4))

def array4d.array4d {α : Type} (dim1 dim2 dim3 dim4 : Int) (init : α) :
    Except Fault (array4d α) :=
  if dim1 ≤ 0 then
    .error (.invalid_extent 1 dim1)
  else if dim2 ≤ 0 then
    .error (.invalid_extent 2 dim2)
  else if dim3 ≤ 0 then
    .error (.invalid_extent 3 dim3)
  else if dim4 ≤ 0 then
    .error (.invalid_extent 4 dim4)
  else
    let size1 := dim1
    let size2 := dim2
    let size3 := dim3
    let size4 := dim4
    let F4 := imul (imul size3 size2) size1
    let F3 := imul size2 size1
    let F2 := size1
    let F1 := 1
    let C1 := imul (imul size2 size3) size4
    let C2 := imul size3 size4
    let C3 := size4
    let C4 := 1
    let internal_array := new_array (imul (imul (imul size1 size2) size3) size4) init
    .ok { size1 := size1, size2 := size2, size3 := size3, size4 := size4,
          internal_array := internal_array,
          F1 := F1, F2 := F2, F3 := F3, F4 := F4,
          C1 := C1, C2 := C2, C3 := C3, C4 := C4 }

/-! ## array5d -/

structure array5d (α : Type) where
  size1 : Int
  size2 : Int
  size3 : Int
  size4 : Int
  size5 : Int
  internal_array : List α
  F1 : Int
  F2 : Int
  F3 : Int
  F4 : Int
  F5 : Int
  C1 : Int
  C2 : Int
  C3 : Int
  C4 : Int
  C5 : Int

def array5d.length1 {α : Type} (a : array5d α) : Int := a.size1

def array5d.length2 {α : Type} (a : array5d α) : Int := a.size2

def array5d.length3 {α : Type} (a : array5d α) : Int := a.size3

def array5d.length4 {α : Type} (a : array5d α) : Int := a.size4

def array5d.length5 {α : Type} (a : array5d α) : Int := a.size5

def array5d.at {α : Type} (ARRAY_BOUNDS_CHECK FORTRAN_ORDER : Nat) (a : array5d α)
    (x1 x2 x3 x4 x5 : Int) : Except Fault Int :=
  if ARRAY_BOUNDS_CHECK = 1 ∧ (x1 < 0 ∨ x1 ≥ a.size1) then
    .error (.index_out_of_range 1 x1 a.size1)
  else if ARRAY_BOUNDS_CHECK = 1 ∧ (x2 < 0 ∨ x2 ≥ a.size2) then
    .error (.index_out_of_range 2 x2 a.size2)
  else if ARRAY_BOUNDS_CHECK = 1 ∧ (x3 < 0 ∨ x3 ≥ a.size3) then
    .error (.index_out_of_range 3 x3 a.size3)
  else if ARRAY_BOUNDS_CHECK = 1 ∧ (x4 < 0 ∨ x4 ≥ a.size4) then
    .error (.index_out_of_range 4 x4 a.size4)
  else if ARRAY_BOUNDS_CHECK = 1 ∧ (x5 < 0 ∨ x5 ≥ a.size5) then
    .error (.index_out_of_range 5 x5 a.size5)
  else if FORTRAN_ORDER = 1 then
    .ok (iadd (iadd (iadd (iadd (imul x5 a.F5) (imul x4 a.F4)) (imul x3 a.F3)) (imul x2 a.F2)) (imul x1 a.F1))
  else
    .ok (iadd (iadd (iadd (iadd (imul x1 a.C1) (imul x2 a.C2)) (imul x3 a.C3)) (imul x4 a.C4)) (imul x5 a.C5))

def array5d.at_const {α : Type} (ARRAY_BOUNDS_CHECK FORTRAN_ORDER : Nat) (a : array5d α)
    (x1 x2 x3 x4 x5 : Int) : Except Fault Int :=
  if ARRAY_BOUNDS_CHECK = 1 ∧ (x1 < 0 ∨ x1 ≥ a.size1) then
    .error (.index_out_of_range 1 x1 a.size1)
  else if ARRAY_BOUNDS_CHECK = 1 ∧ (x2 < 0 ∨ x2 ≥ a.size2) then
    .error (.index_out_of_range 2 x2 a.size2)
  else if ARRAY_BOUNDS_CHECK = 1 ∧ (x3 < 0 ∨ x3 ≥ a.size3) then
    .error (.index_out_of_range 3 x3 a.size3)
  else if ARRAY_BOUNDS_CHECK = 1 ∧ (x4 < 0 ∨ x4 ≥ a.size4) then
    .error (.index_out_of_range 4 x4 a.size4)
  else if ARRAY_BOUNDS_CHECK = 1 ∧ (x5 < 0 ∨ x5 ≥ a.size5) then
    .error (.index_out_of_range 5 x5 a.size5)
  else if FORTRAN_ORDER = 1 then
    .ok (iadd (iadd (iadd (iadd (imul x5 a.F5) (imul x4 a.F4)) (imul x3 a.F3)) (imul x2 a.F2)) (imul x1 a.F1))
  else
    .ok (iadd (iadd (iadd (iadd (imul x1 a.C1) (imul x2 a.C2)) (imul x3 a.C3)) (imul x4 a.C4)) (imul x5 a.C5))

def array5d.array5d {α : Type} (dim1 dim2 dim3 dim4 dim5 : Int) (init : α) :
    Except Fault (array5d α) :=
  if dim1 ≤ 0 then
    .error (.invalid_extent 1 dim1)
  else if dim2 ≤ 0 then
    .error (.invalid_extent 2 dim2)
  else if dim3 ≤ 0 then
    .error (.invalid_extent 3 dim3)
  else if dim4 ≤ 0 then
    .error (.invalid_extent 4 dim4)
  else if dim5 ≤ 0 then
    .error (.invalid_extent 5 dim5)
  else
    let size1 := dim1
    let size2 := dim2
    let size3 := dim3
    let size4 := dim4
    let size5 := dim5
    let F5 := imul (imul (imul size4 size3) size2) size1
    let F4 := imul (imul size3 size2) size1
    let F3 := imul size2 size1
    let F2 := size1
    let F1 := 1
    let C1 := imul (imul (imul size2 size3) size4) size5
    let C2 := imul (imul size3 size4) size5
    let C3 := imul size4 size5
    let C4 := size5
    let C5 := 1
    let internal_array := new_array (imul (imul (imul (imul size1 size2) size3) size4) size5) init
    .ok { size1 := size1, size2 := size2, size3 := size3, size4 := size4, size5 := size5,
          internal_array := internal_array,
          F1 := F1, F2 := F2, F3 := F3, F4 := F4, F5 := F5,
          C1 := C1, C2 := C2, C3 := C3, C4 := C4, C5 := C5 }

/-! ## array6d -/

structure array6d (α : Type) where
  size1 : Int
  size2 : Int
  size3 : Int
  size4 : Int
  size5 : Int
  size6 : Int
  internal_array : List α
  F1 : Int
  F2 : Int
  F3 : Int
  F4 : Int
  F5 : Int
  F6 : Int
  C1 : Int
  C2 : Int
  C3 : Int
  C4 : Int
  C5 : Int
  C6 : Int

def array6d.length1 {α : Type} (a : array6d α) : Int := a.size1

def array6d.length2 {α : Type} (a : array6d α) : Int := a.size2

def array6d.length3 {α : Type} (a : array6d α) : Int := a.size3

def array6d.length4 {α : Type} (a : array6d α) : Int := a.size4

def array6d.length5 {α : Type} (a : array6d α) : Int := a.size5

def array6d.length6 {α : Type} (a : array6d α) : Int := a.size6

def array6d.at {α : Type} (ARRAY_BOUNDS_CHECK FORTRAN_ORDER : Nat) (a : array6d α)
    (x1 x2 x3 x4 x5 x6 : Int) : Except Fault Int :=
  if ARRAY_BOUNDS_CHECK = 1 ∧ (x1 < 0 ∨ x1 ≥ a.size1) then
    .error (.index_out_of_range 1 x1 a.size1)
  else if ARRAY_BOUNDS_CHECK = 1 ∧ (x2 < 0 ∨ x2 ≥ a.size2) then
    .error (.index_out_of_range 2 x2 a.size2)
  else if ARRAY_BOUNDS_CHECK = 1 ∧ (x3 < 0 ∨ x3 ≥ a.size3) then
    .error (.index_out_of_range 3 x3 a.size3)
  else if ARRAY_BOUNDS_CHECK = 1 ∧ (x4 < 0 ∨ x4 ≥ a.size4) then
    .error (.index_out_of_range 4 x4 a.size4)
  else if ARRAY_BOUNDS_CHECK = 1 ∧ (x5 < 0 ∨ x5 ≥ a.size5) then
    .error (.index_out_of_range 5 x5 a.size5)
  else if ARRAY_BOUNDS_CHECK = 1 ∧ (x6 < 0 ∨ x6 ≥ a.size6) then
    .error (.index_out_of_range 6 x6 a.size6)
  else if FORTRAN_ORDER = 1 then
    .ok (iadd (iadd (iadd (iadd (iadd (imul x6 a.F6) (imul x5 a.F5)) (imul x4 a.F4)) (imul x3 a.F3)) (imul x2 a.F2)) (imul x1 a.F1))
  else
    .ok (iadd (iadd (iadd (iadd (iadd (imul x1 a.C1) (imul x2 a.C2)) (imul x3 a.C3)) (imul x4 a.C4)) (imul x5 a.C5)) (imul x6 a.C6))

def array6d.at_const {α : Type} (ARRAY_BOUNDS_CHECK FORTRAN_ORDER : Nat) (a : array6d α)
    (x1 x2 x3 x4 x5 x6 : Int) : Except Fault Int :=
  if ARRAY_BOUNDS_CHECK = 1 ∧ (x1 < 0 ∨ x1 ≥ a.size1) then
    .error (.index_out_of_range 1 x1 a.size1)
  else if ARRAY_BOUNDS_CHECK = 1 ∧ (x2 < 0 ∨ x2 ≥ a.size2) then
    .error (.index_out_of_range 2 x2 a.size2)
  else if ARRAY_BOUNDS_CHECK = 1 ∧ (x3 < 0 ∨ x3 ≥ a.size3) then
    .error (.index_out_of_range 3 x3 a.size3)
  else if ARRAY_BOUNDS_CHECK = 1 ∧ (x4 < 0 ∨ x4 ≥ a.size4) then
    .error (.index_out_of_range 4 x4 a.size4)
  else if ARRAY_BOUNDS_CHECK = 1 ∧ (x5 < 0 ∨ x5 ≥ a.size5) then
    .error (.index_out_of_range 5 x5 a.size5)
  else if ARRAY_BOUNDS_CHECK = 1 ∧ (x6 < 0 ∨ x6 ≥ a.size6) then
    .error (.index_out_of_range 6 x6 a.size6)
  else if FORTRAN_ORDER = 1 then
    .ok (iadd (iadd (iadd (iadd (iadd (imul x6 a.F6) (imul x5 a.F5)) (imul x4 a.F4)) (imul x3 a.F3)) (imul x2 a.F2)) (imul x1 a.F1))
  else
    .ok (iadd (iadd (iadd (iadd (iadd (imul x1 a.C1) (imul x2 a.C2)) (imul x3 a.C3)) (imul x4 a.C4)) (imul x5 a.C5)) (imul x6 a.C6))

def array6d.array6d {α : Type} (dim1 dim2 dim3 dim4 dim5 dim6 : Int) (init : α) :
    Except Fault (array6d α) :=
  if dim1 ≤ 0 then
    .error (.invalid_extent 1 dim1)
  else if dim2 ≤ 0 then
    .error (.invalid_extent 2 dim2)
  else if dim3 ≤ 0 then
    .error (.invalid_extent 3 dim3)
  else if dim4 ≤ 0 then
    .error (.invalid_extent 4 dim4)
  else if dim5 ≤ 0 then
    .error (.invalid_extent 5 dim5)
  else if dim6 ≤ 0 then
    .error (.invalid_extent 6 dim6)
  else
    let size1 := dim1
    let size2 := dim2
    let size3 := dim3
    let size4 := dim4
    let size5 := dim5
    let size6 := dim6
    let F6 := imul (imul (imul (imul size5 size4) size3) size2) size1
    let F5 := imul (imul (imul size4 size3) size2) size1
    let F4 := imul (imul size3 size2) size1
    let F3 := imul size2 size1
    let F2 := size1
    let F1 := 1
    let C1 := imul (imul (imul (imul size2 size3) size4) size5) size6
    let C2 := imul (imul (imul size3 size4) size5) size6
    let C3 := imul (imul size4 size5) size6
    let C4 := imul size5 size6
    let C5 := size6
    let C6 := 1
    let internal_array := new_array (imul (imul (imul (imul (imul size1 size2) size3) size4) size5) size6) init
    .ok { size1 := size1, size2 := size2, size3 := size3, size4 := size4, size5 := size5, size6 := size6,
          internal_array := internal_array,
          F1 := F1, F2 := F2, F3 := F3, F4 := F4, F5 := F5, F6 := F6,
          C1 := C1, C2 := C2, C3 := C3, C4 := C4, C5 := C5, C6 := C6 }

/-! ## array7d -/

structure array7d (α : Type) where
  size1 : Int
  size2 : Int
  size3 : Int
  size4 : Int
  size5 : Int
  size6 : Int
  size7 : Int
  internal_array : List α
  F1 : Int
  F2 : Int
  F3 : Int
  F4 : Int
  F5 : Int
  F6 : Int
  F7 : Int
  C1 : Int
  C2 : Int
  C3 : Int
  C4 : Int
  C5 : Int
  C6 : Int
  C7 : Int

def array7d.length1 {α : Type} (a : array7d α) : Int := a.size1

def array7d.length2 {α : Type} (a : array7d α) : Int := a.size2

def array7d.length3 {α : Type} (a : array7d α) : Int := a.size3

def array7d.length4 {α : Type} (a : array7d α) : Int := a.size4

def array7d.length5 {α : Type} (a : array7d α) : Int := a.size5

def array7d.length6 {α : Type} (a : array7d α) : Int := a.size6

def array7d.length7 {α : Type} (a : array7d α) : Int := a.size7

def array7d.at {α : Type} (ARRAY_BOUNDS_CHECK FORTRAN_ORDER : Nat) (a : array7d α)
    (x1 x2 x3 x4 x5 x6 x7 : Int) : Except Fault Int :=
  if ARRAY_BOUNDS_CHECK = 1 ∧ (x1 < 0 ∨ x1 ≥ a.size1) then
    .error (.index_out_of_range 1 x1 a.size1)
  else if ARRAY_BOUNDS_CHECK = 1 ∧ (x2 < 0 ∨ x2 ≥ a.size2) then
    .error (.index_out_of_range 2 x2 a.size2)
  else if ARRAY_BOUNDS_CHECK = 1 ∧ (x3 < 0 ∨ x3 ≥ a.size3) then
    .error (.index_out_of_range 3 x3 a.size3)
  else if ARRAY_BOUNDS_CHECK = 1 ∧ (x4 < 0 ∨ x4 ≥ a.size4) then
    .error (.index_out_of_range 4 x4 a.size4)
  else if ARRAY_BOUNDS_CHECK = 1 ∧ (x5 < 0 ∨ x5 ≥ a.size5) then
    .error (.index_out_of_range 5 x5 a.size5)
  else if ARRAY_BOUNDS_CHECK = 1 ∧ (x6 < 0 ∨ x6 ≥ a.size6) then
    .error (.index_out_of_range 6 x6 a.size6)
  else if ARRAY_BOUNDS_CHECK = 1 ∧ (x7 < 0 ∨ x7 ≥ a.size7) then
    .error (.index_out_of_range 7 x7 a.size7)
  else if FORTRAN_ORDER = 1 then
    .ok (iadd (iadd (iadd (iadd (iadd (iadd (imul x7 a.F7) (imul x6 a.F6)) (imul x5 a.F5)) (imul x4 a.F4)) (imul x3 a.F3)) (imul x2 a.F2)) (imul x1 a.F1))
  else
    .ok (iadd (iadd (iadd (iadd (iadd (iadd (imul x1 a.C1) (imul x2 a.C2)) (imul x3 a.C3)) (imul x4 a.C4)) (imul x5 a.C5)) (imul x6 a.C6)) (imul x7 a.C7))

def array7d.at_const {α : Type} (ARRAY_BOUNDS_CHECK FORTRAN_ORDER : Nat) (a : array7d α)
    (x1 x2 x3 x4 x5 x6 x7 : Int) : Except Fault Int :=
  if ARRAY_BOUNDS_CHECK = 1 ∧ (x1 < 0 ∨ x1 ≥ a.size1) then
    .error (.index_out_of_range 1 x1 a.size1)
  else if ARRAY_BOUNDS_CHECK = 1 ∧ (x2 < 0 ∨ x2 ≥ a.size2) then
    .error (.index_out_of_range 2 x2 a.size2)
  else if ARRAY_BOUNDS_CHECK = 1 ∧ (x3 < 0 ∨ x3 ≥ a.size3) then
    .error (.index_out_of_range 3 x3 a.size3)
  else if ARRAY_BOUNDS_CHECK = 1 ∧ (x4 < 0 ∨ x4 ≥ a.size4) then
    .error (.index_out_of_range 4 x4 a.size4)
  else if ARRAY_BOUNDS_CHECK = 1 ∧ (x5 < 0 ∨ x5 ≥ a.size5) then
    .error (.index_out_of_range 5 x5 a.size5)
  else if ARRAY_BOUNDS_CHECK = 1 ∧ (x6 < 0 ∨ x6 ≥ a.size6) then
    .error (.index_out_of_range 6 x6 a.size6)
  else if ARRAY_BOUNDS_CHECK = 1 ∧ (x7 < 0 ∨ x7 ≥ a.size7) then
    .error (.index_out_of_range 7 x7 a.size7)
  else if FORTRAN_ORDER = 1 then
    .ok (iadd (iadd (iadd (iadd (iadd (iadd (imul x7 a.F7) (imul x6 a.F6)) (imul x5 a.F5)) (imul x4 a.F4)) (imul x3 a.F3)) (imul x2 a.F2)) (imul x1 a.F1))
  else
    .ok (iadd (iadd (iadd (iadd (iadd (iadd (imul x1 a.C1) (imul x2 a.C2)) (imul x3 a.C3)) (imul x4 a.C4)) (imul x5 a.C5)) (imul x6 a.C6)) (imul x7 a.C7))

def array7d.array7d {α : Type} (dim1 dim2 dim3 dim4 dim5 dim6 dim7 : Int) (init : α) :
    Except Fault (array7d α) :=
  if dim1 ≤ 0 then
    .error (.invalid_extent 1 dim1)
  else if dim2 ≤ 0 then
    .error (.invalid_extent 2 dim2)
  else if dim3 ≤ 0 then
    .error (.invalid_extent 3 dim3)
  else if dim4 ≤ 0 then
    .error (.invalid_extent 4 dim4)
  else if dim5 ≤ 0 then
    .error (.invalid_extent 5 dim5)
  else if dim6 ≤ 0 then
    .error (.invalid_extent 6 dim6)
  else if dim7 ≤ 0 then
    .error (.invalid_extent 7 dim7)
  else
    let size1 := dim1
    let size2 := dim2
    let size3 := dim3
    let size4 := dim4
    let size5 := dim5
    let size6 := dim6
    let size7 := dim7
    let F7 := imul (imul (imul (imul (imul size6 size5) size4) size3) size2) size1
    let F6 := imul (imul (imul (imul size5 size4) size3) size2) size1
    let F5 := imul (imul (imul size4 size3) size2) size1
    let F4 := imul (imul size3 size2) size1
    let F3 := imul size2 size1
    let F2 := size1
    let F1 := 1
    let C1 := imul (imul (imul (imul (imul size2 size3) size4) size5) size6) size7
    let C2 := imul (imul (imul (imul size3 size4) size5) size6) size7
    let C3 := imul (imul (imul size4 size5) size6) size7
    let C4 := imul (imul size5 size6) size7
    let C5 := imul size6 size7
    let C6 := size7
    let C7 := 1
    let internal_array := new_array (imul (imul (imul (imul (imul (imul size1 size2) size3) size4) size5) size6) size7) init
    .ok { size1 := size1, size2 := size2, size3 := size3, size4 := size4, size5 := size5, size6 := size6, size7 := size7,
          internal_array := internal_array,
          F1 := F1, F2 := F2, F3 := F3, F4 := F4, F5 := F5, F6 := F6, F7 := F7,
          C1 := C1, C2 := C2, C3 := C3, C4 := C4, C5 := C5, C6 := C6, C7 := C7 }

/-! ## The seven classes behind one rank-indexed interface -/

/-- An array of any of the seven ranks. -/
inductive orca (α : Type) where
  | rank1 (a : array1d α)
  | rank2 (a : array2d α)
  | rank3 (a : array3d α)
  | rank4 (a : array4d α)
  | rank5 (a : array5d α)
  | rank6 (a : array6d α)
  | rank7 (a : array7d α)

/-- The constructor of the class whose arity is the number of extents;
`none` when no class has that arity. -/
def orca.new {α : Type} (dims : List Int) (init : α) : Option (Except Fault (orca α)) :=
  match dims with
  | [d1] => some ((array1d.array1d d1 init).map orca.rank1)
  | [d1, d2] => some ((array2d.array2d d1 d2 init).map orca.rank2)
  | [d1, d2, d3] => some ((array3d.array3d d1 d2 d3 init).map orca.rank3)
  | [d1, d2, d3, d4] => some ((array4d.array4d d1 d2 d3 d4 init).map orca.rank4)
  | [d1, d2, d3, d4, d5] => some ((array5d.array5d d1 d2 d3 d4 d5 init).map orca.rank5)
  | [d1, d2, d3, d4, d5, d6] => some ((array6d.array6d d1 d2 d3 d4 d5 d6 init).map orca.rank6)
  | [d1, d2, d3, d4, d5, d6, d7] => some ((array7d.array7d d1 d2 d3 d4 d5 d6 d7 init).map orca.rank7)
  | _ => none

/-- The member `at` of the array's class; `none` when the number of coordinates is not
the rank. -/
def orca.at {α : Type} (ARRAY_BOUNDS_CHECK FORTRAN_ORDER : Nat) (a : orca α)
    (xs : List Int) : Option (Except Fault Int) :=
  match a, xs with
  | .rank1 a, [x1] => some (array1d.at ARRAY_BOUNDS_CHECK a x1)
  | .rank2 a, [x1, x2] => some (array2d.at ARRAY_BOUNDS_CHECK FORTRAN_ORDER a x1 x2)
  | .rank3 a, [x1, x2, x3] => some (array3d.at ARRAY_BOUNDS_CHECK FORTRAN_ORDER a x1 x2 x3)
  | .rank4 a, [x1, x2, x3, x4] => some (array4d.at ARRAY_BOUNDS_CHECK FORTRAN_ORDER a x1 x2 x3 x4)
  | .rank5 a, [x1, x2, x3, x4, x5] => some (array5d.at ARRAY_BOUNDS_CHECK FORTRAN_ORDER a x1 x2 x3 x4 x5)
  | .rank6 a, [x1, x2, x3, x4, x5, x6] => some (array6d.at ARRAY_BOUNDS_CHECK FORTRAN_ORDER a x1 x2 x3 x4 x5 x6)
  | .rank7 a, [x1, x2, x3, x4, x5, x6, x7] => some (array7d.at ARRAY_BOUNDS_CHECK FORTRAN_ORDER a x1 x2 x3 x4 x5 x6 x7)
  | _, _ => none

/-- The member `at const` of the array's class; `none` when the number of coordinates is not
the rank. -/
def orca.at_const {α : Type} (ARRAY_BOUNDS_CHECK FORTRAN_ORDER : Nat) (a : orca α)
    (xs : List Int) : Option (Except Fault Int) :=
  match a, xs with
  | .rank1 a, [x1] => some (array1d.at_const ARRAY_BOUNDS_CHECK a x1)
  | .rank2 a, [x1, x2] => some (array2d.at_const ARRAY_BOUNDS_CHECK FORTRAN_ORDER a x1 x2)
  | .rank3 a, [x1, x2, x3] => some (array3d.at_const ARRAY_BOUNDS_CHECK FORTRAN_ORDER a x1 x2 x3)
  | .rank4 a, [x1, x2, x3, x4] => some (array4d.at_const ARRAY_BOUNDS_CHECK FORTRAN_ORDER a x1 x2 x3 x4)
  | .rank5 a, [x1, x2, x3, x4, x5] => some (array5d.at_const ARRAY_BOUNDS_CHECK FORTRAN_ORDER a x1 x2 x3 x4 x5)
  | .rank6 a, [x1, x2, x3, x4, x5, x6] => some (array6d.at_const ARRAY_BOUNDS_CHECK FORTRAN_ORDER a x1 x2 x3 x4 x5 x6)
  | .rank7 a, [x1, x2, x3, x4, x5, x6, x7] => some (array7d.at_const ARRAY_BOUNDS_CHECK FORTRAN_ORDER a x1 x2 x3 x4 x5 x6 x7)
  | _, _ => none

/-- The members `length1 .. lengthN`, listed in axis order. -/
def orca.lengths {α : Type} : orca α → List Int
  | .rank1 a => [a.length1]
  | .rank2 a => [a.length1, a.length2]
  | .rank3 a => [a.length1, a.length2, a.length3]
  | .rank4 a => [a.length1, a.length2, a.length3, a.length4]
  | .rank5 a => [a.length1, a.length2, a.length3, a.length4, a.length5]
  | .rank6 a => [a.length1, a.length2, a.length3, a.length4, a.length5, a.length6]
  | .rank7 a => [a.length1, a.length2, a.length3, a.length4, a.length5, a.length6, a.length7]

/-- The storage owned by the array. -/
def orca.internal_array {α : Type} : orca α → List α
  | .rank1 a => a.internal_array
  | .rank2 a => a.internal_array
  | .rank3 a => a.internal_array
  | .rank4 a => a.internal_array
  | .rank5 a => a.internal_array
  | .rank6 a => a.internal_array
  | .rank7 a => a.internal_array

/-- The same array with other storage contents; extents and factors are kept. -/
def orca.with_internal_array {α : Type} (buf : List α) : orca α → orca α
  | .rank1 a => .rank1 { a with internal_array := buf }
  | .rank2 a => .rank2 { a with internal_array := buf }
  | .rank3 a => .rank3 { a with internal_array := buf }
  | .rank4 a => .rank4 { a with internal_array := buf }
  | .rank5 a => .rank5 { a with internal_array := buf }
  | .rank6 a => .rank6 { a with internal_array := buf }
  | .rank7 a => .rank7 { a with internal_array := buf }

/-- The stored factors `F1 .. FN` (ranks 3 to 7 only; ranks 1 and 2 store none). -/
def orca.F {α : Type} : orca α → List Int
  | .rank1 _ => []
  | .rank2 _ => []
  | .rank3 a => [a.F1, a.F2, a.F3]
  | .rank4 a => [a.F1, a.F2, a.F3, a.F4]
  | .rank5 a => [a.F1, a.F2, a.F3, a.F4, a.F5]
  | .rank6 a => [a.F1, a.F2, a.F3, a.F4, a.F5, a.F6]
  | .rank7 a => [a.F1, a.F2, a.F3, a.F4, a.F5, a.F6, a.F7]

/-- The stored factors `C1 .. CN` (ranks 3 to 7 only; ranks 1 and 2 store none). -/
def orca.C {α : Type} : orca α → List Int
  | .rank1 _ => []
  | .rank2 _ => []
  | .rank3 a => [a.C1, a.C2, a.C3]
  | .rank4 a => [a.C1, a.C2, a.C3, a.C4]
  | .rank5 a => [a.C1, a.C2, a.C3, a.C4, a.C5]
  | .rank6 a => [a.C1, a.C2, a.C3, a.C4, a.C5, a.C6]
  | .rank7 a => [a.C1, a.C2, a.C3, a.C4, a.C5, a.C6, a.C7]

/-- Value read through the reference returned by `at`; `none` when the access
aborts or leaves the storage. -/
def orca.read {α : Type} (ARRAY_BOUNDS_CHECK FORTRAN_ORDER : Nat) (a : orca α)
    (xs : List Int) : Option α :=
  match orca.at ARRAY_BOUNDS_CHECK FORTRAN_ORDER a xs with
  | some (.ok k) => subscript a.internal_array k
  | _ => none

/-- Value read through the reference returned by `at const`. -/
def orca.read_const {α : Type} (ARRAY_BOUNDS_CHECK FORTRAN_ORDER : Nat) (a : orca α)
    (xs : List Int) : Option α :=
  match orca.at_const ARRAY_BOUNDS_CHECK FORTRAN_ORDER a xs with
  | some (.ok k) => subscript a.internal_array k
  | _ => none

/-- Assignment `a.at(xs) = v`; `none` when the access aborts or leaves the
storage. -/
def orca.write {α : Type} (ARRAY_BOUNDS_CHECK FORTRAN_ORDER : Nat) (a : orca α)
    (xs : List Int) (v : α) : Option (orca α) :=
  match orca.at ARRAY_BOUNDS_CHECK FORTRAN_ORDER a xs with
  | some (.ok k) => (assign a.internal_array k v).map (fun buf => a.with_internal_array buf)
  | _ => none

/-- The assignments `a.at(c) = f c` for the tuples `c` of a list, in list order. -/
def orca.write_all {α : Type} (ARRAY_BOUNDS_CHECK FORTRAN_ORDER : Nat) (f : List Int → α) :
    orca α → List (List Int) → Option (orca α)
  | a, [] => some a
  | a, c :: cs =>
    match orca.write ARRAY_BOUNDS_CHECK FORTRAN_ORDER a c (f c) with
    | some b => orca.write_all ARRAY_BOUNDS_CHECK FORTRAN_ORDER f b cs
    | none => none

/-! ## Vocabulary of the specification -/

/-- Coordinates within the extents: one coordinate per axis and
`0 ≤ x_i < extents[i]` on every axis. -/
def in_range (dims xs : List Int) : Prop :=
  List.Forall₂ (fun d x => 0 ≤ x ∧ x < d) dims xs

/-- Stride of axis `i` (axes counted from 0 here) as the specification words
it: the product of the extents before axis `i` in Fortran order, of the extents
after axis `i` in C order. -/
def stride (FORTRAN_ORDER : Nat) (dims : List Int) (i : Nat) : Int :=
  if FORTRAN_ORDER = 1 then (dims.take i).prod else (dims.drop (i + 1)).prod

/-- Offset as the specification words it: the sum over the axes of coordinate
times stride, in unbounded integers. -/
def linear_index (FORTRAN_ORDER : Nat) (dims xs : List Int) : Int :=
  ((List.range dims.length).map (fun i => xs.getD i 0 * stride FORTRAN_ORDER dims i)).sum

/-- Nested form of the C-order offset. -/
def row_major : List Int → List Int → Int
  | _ :: ds, x :: xs => x * ds.prod + row_major ds xs
  | _, _ => 0

/-- Nested form of the Fortran-order offset. -/
def col_major : List Int → List Int → Int
  | d :: ds, x :: xs => x + d * col_major ds xs
  | _, _ => 0

/-- Offset in unbounded integers, nested form, for the chosen order. -/
def offs (FORTRAN_ORDER : Nat) (ds xs : List Int) : Int :=
  if FORTRAN_ORDER = 1 then col_major ds xs else row_major ds xs

/-- The element count `size1 * size2 * ... * sizeN` handed to `new`, evaluated
left to right in `int` arithmetic. -/
def alloc_count : List Int → Int
  | [] => 1
  | d :: ds => ds.foldl imul d

/-- The new-expression `new array_element_type[n]` throws
`std::bad_array_new_length` when the `int` count `n` is negative. -/
def new_throws (n : Int) : Prop := n < 0

instance instDecidableNewThrows (n : Int) : Decidable (new_throws n) :=
  inferInstanceAs (Decidable (n < 0))

/-- Ways a constructor call ends without an array: `raise(SIGSEGV)` after the
diagnostic of a rejected extent, or the exception of the new-expression, with
the count it was given. -/
inductive ConstructionFailure where
  | raised (f : Fault)
  | bad_array_new_length (count : Int)
  deriving DecidableEq, Repr

/-- The constructor call as a whole: the extent checks, the assignments to the
sizes and factors, then `new array_element_type[size1 * ... * sizeN]`, which
throws when the count is negative. -/
def orca.construct {α : Type} (dims : List Int) (init : α) :
    Option (Except ConstructionFailure (orca α)) :=
  match orca.new dims init with
  | none => none
  | some (.error f) => some (.error (.raised f))
  | some (.ok a) =>
    if new_throws (alloc_count (orca.lengths a)) then
      some (.error (.bad_array_new_length (alloc_count (orca.lengths a))))
    else
      some (.ok a)

/-- Lexicographic order on coordinate tuples, first entry most significant. -/
def lex_lt : List Int → List Int → Prop
  | x :: xs, y :: ys => x < y ∨ (x = y ∧ lex_lt xs ys)
  | _, _ => False

/-! ## Runs of accesses -/

/-- One use of the array by a caller: a read through `at`, a read through
`at const`, or an assignment `a.at(xs) = v`. -/
inductive Access (α : Type) where
  | read (xs : List Int)
  | read_const (xs : List Int)
  | write (xs : List Int) (v : α)

/-- How an access ends: it returns, or `raise(SIGSEGV)` ends the run. Both
carry the array as it is at that point. -/
inductive Outcome (α : Type) where
  | returned (a : orca α)
  | aborted (f : Fault) (a : orca α)

/-- The array at the end of an access. -/
def Outcome.state {α : Type} : Outcome α → orca α
  | .returned a => a
  | .aborted _ a => a

/-- One access. `at` runs first; when it raises, nothing after it is executed.
A read then fetches the cell and an assignment stores into it; `none` when the
subscript is outside the storage. -/
def orca.access {α : Type} (ARRAY_BOUNDS_CHECK FORTRAN_ORDER : Nat) (a : orca α) :
    Access α → Option (Outcome α)
  | .read xs =>
    match orca.at ARRAY_BOUNDS_CHECK FORTRAN_ORDER a xs with
    | some (.ok k) => (subscript a.internal_array k).map (fun _ => Outcome.returned a)
    | some (.error f) => some (Outcome.aborted f a)
    | none => none
  | .read_const xs =>
    match orca.at_const ARRAY_BOUNDS_CHECK FORTRAN_ORDER a xs with
    | some (.ok k) => (subscript a.internal_array k).map (fun _ => Outcome.returned a)
    | some (.error f) => some (Outcome.aborted f a)
    | none => none
  | .write xs v =>
    match orca.at ARRAY_BOUNDS_CHECK FORTRAN_ORDER a xs with
    | some (.ok k) =>
      (assign a.internal_array k v).map (fun buf => Outcome.returned (a.with_internal_array buf))
    | some (.error f) => some (Outcome.aborted f a)
    | none => none

/-- A sequence of accesses, one after the other; it stops at the first access
that ends the run. -/
def orca.run {α : Type} (ARRAY_BOUNDS_CHECK FORTRAN_ORDER : Nat) :
    orca α → List (Access α) → Option (Outcome α)
  | a, [] => some (Outcome.returned a)
  | a, op :: ops =>
    match orca.access ARRAY_BOUNDS_CHECK FORTRAN_ORDER a op with
    | some (.returned b) => orca.run ARRAY_BOUNDS_CHECK FORTRAN_ORDER b ops
    | some (.aborted f b) => some (Outcome.aborted f b)
    | none => none

/-- The range checks at the head of `at`, axis after axis from axis `i`: the
report of the first coordinate that is below 0 or not below its extent. -/
def first_violation : Nat → List Int → List Int → Option Fault
  | i, d :: ds, x :: xs =>
    if x < 0 ∨ x ≥ d then some (.index_out_of_range i x d) else first_violation (i + 1) ds xs
  | _, _, _ => none

/-! ## Exact values of the arithmetic -/

/-- The multiplications of `acc * d1 * d2 * ...`, left to right: for each one
the product of its two `int` operands in unbounded integers. -/
def mul_steps : Int → List Int → List Int
  | _, [] => []
  | acc, d :: ds => (acc * d) :: mul_steps (imul acc d) ds

/-- The multiplications of `alloc_count`. -/
def chain_steps : List Int → List Int
  | [] => []
  | d :: ds => mul_steps d ds

/-- The operations of `acc + x1 * s1 + x2 * s2 + ...`, left to right: for each
term its product and the sum it is added into, in unbounded integers on the
`int` operands. -/
def sum_steps : Int → List (Int × Int) → List Int
  | _, [] => []
  | acc, (x, s) :: r => (x * s) :: (acc + imul x s) :: sum_steps (iadd acc (imul x s)) r

/-- The operations of `x1 * s1 + x2 * s2 + ...`. -/
def expr_steps : List (Int × Int) → List Int
  | [] => []
  | (x, s) :: r => (x * s) :: sum_steps (imul x s) r

/-- The `int` value of `x1 * s1 + x2 * s2 + ...`. -/
def expr_eval : List (Int × Int) → Int
  | [] => 0
  | (x, s) :: r => r.foldl (fun acc p => iadd acc (imul p.1 p.2)) (imul x s)

/-- The terms of the subscript of `at` in source order (ranks 3 to 7):
`xN * FN, ..., x1 * F1` in Fortran order and `x1 * C1, ..., xN * CN` in C
order. -/
def orca.terms {α : Type} (FORTRAN_ORDER : Nat) (a : orca α) (xs : List Int) :
    List (Int × Int) :=
  if FORTRAN_ORDER = 1 then xs.reverse.zip (orca.F a).reverse else xs.zip (orca.C a)

/-- Every product and sum the subscript of `at` computes, in unbounded integers
on the `int` operands. Rank 1 computes none; rank 2 multiplies by an extent. -/
def orca.at_steps {α : Type} (FORTRAN_ORDER : Nat) (a : orca α) (xs : List Int) : List Int :=
  match a, xs with
  | .rank1 _, _ => []
  | .rank2 a, [x1, x2] =>
    if FORTRAN_ORDER = 1 then [x2 * a.size1, imul x2 a.size1 + x1]
    else [x1 * a.size2, imul x1 a.size2 + x2]
  | .rank2 _, _ => []
  | a, xs => expr_steps (orca.terms FORTRAN_ORDER a xs)

/-- Every product the constructor of the arity of `ds` computes, in unbounded
integers on the `int` operands: the chains of `F_i`, of `C_i` (ranks 3 to 7)
and of the element count (ranks 2 to 7). -/
def orca.new_steps (ds : List Int) : List Int :=
  (if 3 ≤ ds.length then
    ((List.range ds.length).map (fun i => chain_steps ((ds.take i).reverse))).flatten ++
    ((List.range ds.length).map (fun i => chain_steps (ds.drop (i + 1)))).flatten
   else []) ++ chain_steps ds

/-! ## 32-bit arithmetic -/

theorem wrap_emod (a : Int) : wrap a % 4294967296 = a % 4294967296 := by
  unfold wrap; omega

theorem wrap_congr {a b : Int} (h : a % 4294967296 = b % 4294967296) : wrap a = wrap b := by
  unfold wrap; omega

theorem wrap_of_fits {a : Int} (h1 : INT_MIN ≤ a) (h2 : a ≤ INT_MAX) : wrap a = a := by
  unfold wrap; unfold INT_MIN at h1; unfold INT_MAX at h2; omega

theorem wrap_fits (a : Int) : INT_MIN ≤ wrap a ∧ wrap a ≤ INT_MAX := by
  unfold wrap INT_MIN INT_MAX; omega

@[simp] theorem wrap_wrap (a : Int) : wrap (wrap a) = wrap a :=
  wrap_congr (wrap_emod a)

@[simp] theorem wrap_add_left (a b : Int) : wrap (wrap a + b) = wrap (a + b) := by
  unfold wrap; omega

@[simp] theorem wrap_add_right (a b : Int) : wrap (a + wrap b) = wrap (a + b) := by
  unfold wrap; omega

@[simp] theorem wrap_mul_left (a b : Int) : wrap (wrap a * b) = wrap (a * b) := by
  apply wrap_congr
  rw [Int.mul_emod, wrap_emod, ← Int.mul_emod]

@[simp] theorem wrap_mul_right (a b : Int) : wrap (a * wrap b) = wrap (a * b) := by
  apply wrap_congr
  rw [Int.mul_emod, wrap_emod, ← Int.mul_emod]

/-! ## Mixed-radix facts about the nested offsets -/

theorem prod_pos_of_pos {ds : List Int} (h : ∀ d ∈ ds, 0 < d) : 0 < ds.prod := by
  induction ds with
  | nil => simp
  | cons d ds ih =>
    rw [List.prod_cons]
    exact Int.mul_pos (h d (List.mem_cons_self d ds))
      (ih (fun e he => h e (List.mem_cons_of_mem d he)))

theorem in_range_pos {ds xs : List Int} (h : in_range ds xs) : ∀ d ∈ ds, 0 < d := by
  unfold in_range at h
  induction h with
  | nil => simp
  | cons hx _ ih =>
    intro e he
    rcases List.mem_cons.1 he with rfl | he
    · omega
    · exact ih e he

theorem row_major_bounds {ds xs : List Int} (h : in_range ds xs) :
    0 ≤ row_major ds xs ∧ row_major ds xs < ds.prod := by
  unfold in_range at h
  induction h with
  | nil => simp [row_major]
  | @cons d x ds xs hx hr ih =>
    have hp : 0 < ds.prod := prod_pos_of_pos (in_range_pos hr)
    simp only [row_major, List.prod_cons]
    constructor
    · have := Int.mul_nonneg hx.1 (Int.le_of_lt hp)
      omega
    · have h1 : (x + 1) * ds.prod ≤ d * ds.prod :=
        Int.mul_le_mul_of_nonneg_right (by omega) (Int.le_of_lt hp)
      have h2 : (x + 1) * ds.prod = x * ds.prod + ds.prod := by ring
      omega

theorem col_major_bounds {ds xs : List Int} (h : in_range ds xs) :
    0 ≤ col_major ds xs ∧ col_major ds xs < ds.prod := by
  unfold in_range at h
  induction h with
  | nil => simp [col_major]
  | @cons d x ds xs hx hr ih =>
    simp only [col_major, List.prod_cons]
    have hd : 0 < d := by omega
    constructor
    · have := Int.mul_nonneg (Int.le_of_lt hd) ih.1
      omega
    · have h1 : d * (col_major ds xs + 1) ≤ d * ds.prod :=
        Int.mul_le_mul_of_nonneg_left (by omega) (Int.le_of_lt hd)
      have h2 : d * (col_major ds xs + 1) = d * col_major ds xs + d := by ring
      omega

theorem quot_rem_unique {P x y r t : Int} (hr : 0 ≤ r) (hrP : r < P) (ht : 0 ≤ t)
    (htP : t < P) (h : x * P + r = y * P + t) : x = y ∧ r = t := by
  have hP : 0 ≤ P := by omega
  rcases lt_trichotomy x y with hlt | heq | hgt
  · have h1 : (x + 1) * P ≤ y * P := Int.mul_le_mul_of_nonneg_right (by omega) hP
    have h2 : (x + 1) * P = x * P + P := by ring
    omega
  · subst heq
    exact ⟨rfl, by omega⟩
  · have h1 : (y + 1) * P ≤ x * P := Int.mul_le_mul_of_nonneg_right (by omega) hP
    have h2 : (y + 1) * P = y * P + P := by ring
    omega

theorem row_major_inj {ds xs ys : List Int} (hx : in_range ds xs) (hy : in_range ds ys)
    (h : row_major ds xs = row_major ds ys) : xs = ys := by
  unfold in_range at hx hy
  induction hx generalizing ys with
  | nil => cases hy; rfl
  | @cons d x ds xs hx0 hr ih =>
    cases hy with
    | @cons _ y _ ys hy0 hs =>
      simp only [row_major] at h
      have bx := row_major_bounds hr
      have bz := row_major_bounds hs
      obtain ⟨h1, h2⟩ := quot_rem_unique bx.1 bx.2 bz.1 bz.2 h
      rw [h1, ih hs h2]

theorem col_major_inj {ds xs ys : List Int} (hx : in_range ds xs) (hy : in_range ds ys)
    (h : col_major ds xs = col_major ds ys) : xs = ys := by
  unfold in_range at hx hy
  induction hx generalizing ys with
  | nil => cases hy; rfl
  | @cons d x ds xs hx0 hr ih =>
    cases hy with
    | @cons _ y _ ys hy0 hs =>
      simp only [col_major] at h
      have h3 : col_major ds xs * d + x = col_major ds ys * d + y := by
        have e1 : col_major ds xs * d = d * col_major ds xs := by ring
        have e2 : col_major ds ys * d = d * col_major ds ys := by ring
        omega
      obtain ⟨h1, h2⟩ := quot_rem_unique hx0.1 hx0.2 hy0.1 hy0.2 h3
      rw [h2, ih hs h1]

theorem row_major_surj {ds : List Int} (hpos : ∀ d ∈ ds, 0 < d) {k : Int} (h0 : 0 ≤ k)
    (h1 : k < ds.prod) : ∃ xs, in_range ds xs ∧ row_major ds xs = k := by
  induction ds generalizing k with
  | nil =>
    refine ⟨[], List.Forall₂.nil, ?_⟩
    simp at h1
    simp [row_major]; omega
  | cons d ds ih =>
    have hP : 0 < ds.prod := prod_pos_of_pos (fun e he => hpos e (List.mem_cons_of_mem d he))
    rw [List.prod_cons] at h1
    obtain ⟨xs, hxs, hrm⟩ := ih (fun e he => hpos e (List.mem_cons_of_mem d he))
      (Int.emod_nonneg k (ne_of_gt hP)) (Int.emod_lt_of_pos k hP)
    refine ⟨(k / ds.prod) :: xs, List.Forall₂.cons ⟨?_, ?_⟩ hxs, ?_⟩
    · exact Int.ediv_nonneg h0 (Int.le_of_lt hP)
    · exact Int.ediv_lt_of_lt_mul hP h1
    · simp only [row_major, hrm]
      have := Int.ediv_add_emod k ds.prod
      have e : k / ds.prod * ds.prod = ds.prod * (k / ds.prod) := by ring
      omega

theorem col_major_surj {ds : List Int} (hpos : ∀ d ∈ ds, 0 < d) {k : Int} (h0 : 0 ≤ k)
    (h1 : k < ds.prod) : ∃ xs, in_range ds xs ∧ col_major ds xs = k := by
  induction ds generalizing k with
  | nil =>
    refine ⟨[], List.Forall₂.nil, ?_⟩
    simp at h1
    simp [col_major]; omega
  | cons d ds ih =>
    have hd : 0 < d := hpos d (List.mem_cons_self d ds)
    rw [List.prod_cons] at h1
    have h2 : k < ds.prod * d := by rw [mul_comm]; exact h1
    obtain ⟨xs, hxs, hcm⟩ := ih (fun e he => hpos e (List.mem_cons_of_mem d he))
      (Int.ediv_nonneg h0 (Int.le_of_lt hd)) (Int.ediv_lt_of_lt_mul hd h2)
    refine ⟨(k % d) :: xs, List.Forall₂.cons ⟨?_, ?_⟩ hxs, ?_⟩
    · exact Int.emod_nonneg k (ne_of_gt hd)
    · exact Int.emod_lt_of_pos k hd
    · simp only [col_major, hcm]
      have := Int.emod_add_ediv k d
      omega

/-- The worded sum of coordinate times stride agrees with the nested forms. -/
theorem linear_index_c (ds xs : List Int) (h : ds.length = xs.length) :
    linear_index 0 ds xs = row_major ds xs := by
  induction ds generalizing xs with
  | nil => simp [linear_index, row_major]
  | cons d ds ih =>
    cases xs with
    | nil => simp at h
    | cons x xs =>
      have hl : ds.length = xs.length := by simpa using h
      have := ih xs hl
      unfold linear_index at this ⊢
      simp only [List.length_cons, List.range_succ_eq_map, List.map_cons, List.sum_cons,
        List.map_map, row_major]
      rw [← this]
      simp [stride, Function.comp_def]

theorem linear_index_fortran (ds xs : List Int) (h : ds.length = xs.length) :
    linear_index 1 ds xs = col_major ds xs := by
  induction ds generalizing xs with
  | nil => simp [linear_index, col_major]
  | cons d ds ih =>
    cases xs with
    | nil => simp at h
    | cons x xs =>
      have hl : ds.length = xs.length := by simpa using h
      have := ih xs hl
      unfold linear_index at this ⊢
      simp only [List.length_cons, List.range_succ_eq_map, List.map_cons, List.sum_cons,
        List.map_map, col_major]
      rw [← this]
      simp [stride, Function.comp_def, List.sum_map_mul_left, mul_left_comm]

/-! ## What the constructors build -/

theorem at_const_eq_at {α : Type} (bc fo : Nat) (a : orca α) (xs : List Int) :
    orca.at_const bc fo a xs = orca.at bc fo a xs := by
  unfold orca.at_const orca.at
  split <;> rfl

theorem new_facts {α : Type} (ds : List Int) (init : α) (hlo : 1 ≤ ds.length)
    (hhi : ds.length ≤ 7) (hpos : ∀ d ∈ ds, 0 < d) :
    ∃ a, orca.new ds init = some (.ok a) ∧ orca.lengths a = ds ∧
      orca.internal_array a = new_array (alloc_count ds) init ∧
      (∀ fo xs, xs.length = ds.length →
        orca.at 0 fo a xs = some (.ok (offs fo ds xs)) ∨
        orca.at 0 fo a xs = some (.ok (wrap (offs fo ds xs)))) ∧
      (∀ bc fo xs, in_range ds xs → orca.at bc fo a xs = orca.at 0 fo a xs) := by
  rcases ds with _ | ⟨d1, _ | ⟨d2, _ | ⟨d3, _ | ⟨d4, _ | ⟨d5, _ | ⟨d6, _ | ⟨d7, _ | ⟨d8, ds⟩⟩⟩⟩⟩⟩⟩⟩
  · simp at hlo
  · -- array1d
    have h1 : 0 < d1 := by simpa using hpos
    refine ⟨.rank1 { size1 := d1, internal_array := new_array d1 init }, ?_, rfl, rfl, ?_, ?_⟩
    · simp [orca.new, array1d.array1d, Except.map, not_le.2 h1]
    · intro fo xs hlen
      rcases xs with _ | ⟨x1, _ | ⟨x2, xs⟩⟩ <;> simp at hlen
      left
      simp [orca.at, array1d.at, offs, row_major, col_major]
    · intro bc fo xs hr
      rcases xs with _ | ⟨x1, _ | ⟨x2, xs⟩⟩ <;> simp [in_range] at hr
      have c1 : ¬ (bc = 1 ∧ (x1 < 0 ∨ x1 ≥ d1)) := by omega
      simp [orca.at, array1d.at, c1]
  · -- array2d
    obtain ⟨h1, h2⟩ : 0 < d1 ∧ 0 < d2 := by simpa using hpos
    refine ⟨.rank2 { size1 := d1, size2 := d2, internal_array := new_array (imul d1 d2) init }, ?_, rfl, rfl, ?_, ?_⟩
    · simp [orca.new, array2d.array2d, Except.map, not_le.2 h1, not_le.2 h2]
    · intro fo xs hlen
      rcases xs with _ | ⟨x1, _ | ⟨x2, _ | ⟨x3, xs⟩⟩⟩ <;> simp at hlen
      right
      by_cases hfo : fo = 1 <;>
        simp [orca.at, array2d.at, offs, row_major, col_major, imul, iadd, hfo] <;>
        apply congrArg wrap <;> ring
    · intro bc fo xs hr
      rcases xs with _ | ⟨x1, _ | ⟨x2, _ | ⟨x3, xs⟩⟩⟩ <;> simp [in_range] at hr
      obtain ⟨⟨l1, u1⟩, ⟨l2, u2⟩⟩ := hr
      have c1 : ¬ (bc = 1 ∧ (x1 < 0 ∨ x1 ≥ d1)) := by omega
      have c2 : ¬ (bc = 1 ∧ (x2 < 0 ∨ x2 ≥ d2)) := by omega
      simp [orca.at, array2d.at, c1, c2]
  · -- array3d
    obtain ⟨h1, h2, h3⟩ : 0 < d1 ∧ 0 < d2 ∧ 0 < d3 := by simpa using hpos
    refine ⟨.rank3 { size1 := d1, size2 := d2, size3 := d3, internal_array := new_array (imul (imul d1 d2) d3) init, F1 := 1, F2 := d1, F3 := imul d2 d1, C1 := imul d2 d3, C2 := d3, C3 := 1 }, ?_, rfl, rfl, ?_, ?_⟩
    · simp [orca.new, array3d.array3d, Except.map, not_le.2 h1, not_le.2 h2, not_le.2 h3]
    · intro fo xs hlen
      rcases xs with _ | ⟨x1, _ | ⟨x2, _ | ⟨x3, _ | ⟨x4, xs⟩⟩⟩⟩ <;> simp at hlen
      right
      by_cases hfo : fo = 1 <;>
        simp [orca.at, array3d.at, offs, row_major, col_major, imul, iadd, hfo] <;>
        apply congrArg wrap <;> ring
    · intro bc fo xs hr
      rcases xs with _ | ⟨x1, _ | ⟨x2, _ | ⟨x3, _ | ⟨x4, xs⟩⟩⟩⟩ <;> simp [in_range] at hr
      obtain ⟨⟨l1, u1⟩, ⟨l2, u2⟩, ⟨l3, u3⟩⟩ := hr
      have c1 : ¬ (bc = 1 ∧ (x1 < 0 ∨ x1 ≥ d1)) := by omega
      have c2 : ¬ (bc = 1 ∧ (x2 < 0 ∨ x2 ≥ d2)) := by omega
      have c3 : ¬ (bc = 1 ∧ (x3 < 0 ∨ x3 ≥ d3)) := by omega
      simp [orca.at, array3d.at, c1, c2, c3]
  · -- array4d
    obtain ⟨h1, h2, h3, h4⟩ : 0 < d1 ∧ 0 < d2 ∧ 0 < d3 ∧ 0 < d4 := by simpa using hpos
    refine ⟨.rank4 { size1 := d1, size2 := d2, size3 := d3, size4 := d4, internal_array := new_array (imul (imul (imul d1 d2) d3) d4) init, F1 := 1, F2 := d1, F3 := imul d2 d1, F4 := imul (imul d3 d2) d1, C1 := imul (imul d2 d3) d4, C2 := imul d3 d4, C3 := d4, C4 := 1 }, ?_, rfl, rfl, ?_, ?_⟩
    · simp [orca.new, array4d.array4d, Except.map, not_le.2 h1, not_le.2 h2, not_le.2 h3, not_le.2 h4]
    · intro fo xs hlen
      rcases xs with _ | ⟨x1, _ | ⟨x2, _ | ⟨x3, _ | ⟨x4, _ | ⟨x5, xs⟩⟩⟩⟩⟩ <;> simp at hlen
      right
      by_cases hfo : fo = 1 <;>
        simp [orca.at, array4d.at, offs, row_major, col_major, imul, iadd, hfo] <;>
        apply congrArg wrap <;> ring
    · intro bc fo xs hr
      rcases xs with _ | ⟨x1, _ | ⟨x2, _ | ⟨x3, _ | ⟨x4, _ | ⟨x5, xs⟩⟩⟩⟩⟩ <;> simp [in_range] at hr
      obtain ⟨⟨l1, u1⟩, ⟨l2, u2⟩, ⟨l3, u3⟩, ⟨l4, u4⟩⟩ := hr
      have c1 : ¬ (bc = 1 ∧ (x1 < 0 ∨ x1 ≥ d1)) := by omega
      have c2 : ¬ (bc = 1 ∧ (x2 < 0 ∨ x2 ≥ d2)) := by omega
      have c3 : ¬ (bc = 1 ∧ (x3 < 0 ∨ x3 ≥ d3)) := by omega
      have c4 : ¬ (bc = 1 ∧ (x4 < 0 ∨ x4 ≥ d4)) := by omega
      simp [orca.at, array4d.at, c1, c2, c3, c4]
  · -- array5d
    obtain ⟨h1, h2, h3, h4, h5⟩ : 0 < d1 ∧ 0 < d2 ∧ 0 < d3 ∧ 0 < d4 ∧ 0 < d5 := by simpa using hpos
    refine ⟨.rank5 { size1 := d1, size2 := d2, size3 := d3, size4 := d4, size5 := d5, internal_array := new_array (imul (imul (imul (imul d1 d2) d3) d4) d5) init, F1 := 1, F2 := d1, F3 := imul d2 d1, F4 := imul (imul d3 d2) d1, F5 := imul (imul (imul d4 d3) d2) d1, C1 := imul (imul (imul d2 d3) d4) d5, C2 := imul (imul d3 d4) d5, C3 := imul d4 d5, C4 := d5, C5 := 1 }, ?_, rfl, rfl, ?_, ?_⟩
    · simp [orca.new, array5d.array5d, Except.map, not_le.2 h1, not_le.2 h2, not_le.2 h3, not_le.2 h4, not_le.2 h5]
    · intro fo xs hlen
      rcases xs with _ | ⟨x1, _ | ⟨x2, _ | ⟨x3, _ | ⟨x4, _ | ⟨x5, _ | ⟨x6, xs⟩⟩⟩⟩⟩⟩ <;> simp at hlen
      right
      by_cases hfo : fo = 1 <;>
        simp [orca.at, array5d.at, offs, row_major, col_major, imul, iadd, hfo] <;>
        apply congrArg wrap <;> ring
    · intro bc fo xs hr
      rcases xs with _ | ⟨x1, _ | ⟨x2, _ | ⟨x3, _ | ⟨x4, _ | ⟨x5, _ | ⟨x6, xs⟩⟩⟩⟩⟩⟩ <;> simp [in_range] at hr
      obtain ⟨⟨l1, u1⟩, ⟨l2, u2⟩, ⟨l3, u3⟩, ⟨l4, u4⟩, ⟨l5, u5⟩⟩ := hr
      have c1 : ¬ (bc = 1 ∧ (x1 < 0 ∨ x1 ≥ d1)) := by omega
      have c2 : ¬ (bc = 1 ∧ (x2 < 0 ∨ x2 ≥ d2)) := by omega
      have c3 : ¬ (bc = 1 ∧ (x3 < 0 ∨ x3 ≥ d3)) := by omega
      have c4 : ¬ (bc = 1 ∧ (x4 < 0 ∨ x4 ≥ d4)) := by omega
      have c5 : ¬ (bc = 1 ∧ (x5 < 0 ∨ x5 ≥ d5)) := by omega
      simp [orca.at, array5d.at, c1, c2, c3, c4, c5]
  · -- array6d
    obtain ⟨h1, h2, h3, h4, h5, h6⟩ : 0 < d1 ∧ 0 < d2 ∧ 0 < d3 ∧ 0 < d4 ∧ 0 < d5 ∧ 0 < d6 := by simpa using hpos
    refine ⟨.rank6 { size1 := d1, size2 := d2, size3 := d3, size4 := d4, size5 := d5, size6 := d6, internal_array := new_array (imul (imul (imul (imul (imul d1 d2) d3) d4) d5) d6) init, F1 := 1, F2 := d1, F3 := imul d2 d1, F4 := imul (imul d3 d2) d1, F5 := imul (imul (imul d4 d3) d2) d1, F6 := imul (imul (imul (imul d5 d4) d3) d2) d1, C1 := imul (imul (imul (imul d2 d3) d4) d5) d6, C2 := imul (imul (imul d3 d4) d5) d6, C3 := imul (imul d4 d5) d6, C4 := imul d5 d6, C5 := d6, C6 := 1 }, ?_, rfl, rfl, ?_, ?_⟩
    · simp [orca.new, array6d.array6d, Except.map, not_le.2 h1, not_le.2 h2, not_le.2 h3, not_le.2 h4, not_le.2 h5, not_le.2 h6]
    · intro fo xs hlen
      rcases xs with _ | ⟨x1, _ | ⟨x2, _ | ⟨x3, _ | ⟨x4, _ | ⟨x5, _ | ⟨x6, _ | ⟨x7, xs⟩⟩⟩⟩⟩⟩⟩ <;> simp at hlen
      right
      by_cases hfo : fo = 1 <;>
        simp [orca.at, array6d.at, offs, row_major, col_major, imul, iadd, hfo] <;>
        apply congrArg wrap <;> ring
    · intro bc fo xs hr
      rcases xs with _ | ⟨x1, _ | ⟨x2, _ | ⟨x3, _ | ⟨x4, _ | ⟨x5, _ | ⟨x6, _ | ⟨x7, xs⟩⟩⟩⟩⟩⟩⟩ <;> simp [in_range] at hr
      obtain ⟨⟨l1, u1⟩, ⟨l2, u2⟩, ⟨l3, u3⟩, ⟨l4, u4⟩, ⟨l5, u5⟩, ⟨l6, u6⟩⟩ := hr
      have c1 : ¬ (bc = 1 ∧ (x1 < 0 ∨ x1 ≥ d1)) := by omega
      have c2 : ¬ (bc = 1 ∧ (x2 < 0 ∨ x2 ≥ d2)) := by omega
      have c3 : ¬ (bc = 1 ∧ (x3 < 0 ∨ x3 ≥ d3)) := by omega
      have c4 : ¬ (bc = 1 ∧ (x4 < 0 ∨ x4 ≥ d4)) := by omega
      have c5 : ¬ (bc = 1 ∧ (x5 < 0 ∨ x5 ≥ d5)) := by omega
      have c6 : ¬ (bc = 1 ∧ (x6 < 0 ∨ x6 ≥ d6)) := by omega
      simp [orca.at, array6d.at, c1, c2, c3, c4, c5, c6]
  · -- array7d
    obtain ⟨h1, h2, h3, h4, h5, h6, h7⟩ : 0 < d1 ∧ 0 < d2 ∧ 0 < d3 ∧ 0 < d4 ∧ 0 < d5 ∧ 0 < d6 ∧ 0 < d7 := by simpa using hpos
    refine ⟨.rank7 { size1 := d1, size2 := d2, size3 := d3, size4 := d4, size5 := d5, size6 := d6, size7 := d7, internal_array := new_array (imul (imul (imul (imul (imul (imul d1 d2) d3) d4) d5) d6) d7) init, F1 := 1, F2 := d1, F3 := imul d2 d1, F4 := imul (imul d3 d2) d1, F5 := imul (imul (imul d4 d3) d2) d1, F6 := imul (imul (imul (imul d5 d4) d3) d2) d1, F7 := imul (imul (imul (imul (imul d6 d5) d4) d3) d2) d1, C1 := imul (imul (imul (imul (imul d2 d3) d4) d5) d6) d7, C2 := imul (imul (imul (imul d3 d4) d5) d6) d7, C3 := imul (imul (imul d4 d5) d6) d7, C4 := imul (imul d5 d6) d7, C5 := imul d6 d7, C6 := d7, C7 := 1 }, ?_, rfl, rfl, ?_, ?_⟩
    · simp [orca.new, array7d.array7d, Except.map, not_le.2 h1, not_le.2 h2, not_le.2 h3, not_le.2 h4, not_le.2 h5, not_le.2 h6, not_le.2 h7]
    · intro fo xs hlen
      rcases xs with _ | ⟨x1, _ | ⟨x2, _ | ⟨x3, _ | ⟨x4, _ | ⟨x5, _ | ⟨x6, _ | ⟨x7, _ | ⟨x8, xs⟩⟩⟩⟩⟩⟩⟩⟩ <;> simp at hlen
      right
      by_cases hfo : fo = 1 <;>
        simp [orca.at, array7d.at, offs, row_major, col_major, imul, iadd, hfo] <;>
        apply congrArg wrap <;> ring
    · intro bc fo xs hr
      rcases xs with _ | ⟨x1, _ | ⟨x2, _ | ⟨x3, _ | ⟨x4, _ | ⟨x5, _ | ⟨x6, _ | ⟨x7, _ | ⟨x8, xs⟩⟩⟩⟩⟩⟩⟩⟩ <;> simp [in_range] at hr
      obtain ⟨⟨l1, u1⟩, ⟨l2, u2⟩, ⟨l3, u3⟩, ⟨l4, u4⟩, ⟨l5, u5⟩, ⟨l6, u6⟩, ⟨l7, u7⟩⟩ := hr
      have c1 : ¬ (bc = 1 ∧ (x1 < 0 ∨ x1 ≥ d1)) := by omega
      have c2 : ¬ (bc = 1 ∧ (x2 < 0 ∨ x2 ≥ d2)) := by omega
      have c3 : ¬ (bc = 1 ∧ (x3 < 0 ∨ x3 ≥ d3)) := by omega
      have c4 : ¬ (bc = 1 ∧ (x4 < 0 ∨ x4 ≥ d4)) := by omega
      have c5 : ¬ (bc = 1 ∧ (x5 < 0 ∨ x5 ≥ d5)) := by omega
      have c6 : ¬ (bc = 1 ∧ (x6 < 0 ∨ x6 ≥ d6)) := by omega
      have c7 : ¬ (bc = 1 ∧ (x7 < 0 ∨ x7 ≥ d7)) := by omega
      simp [orca.at, array7d.at, c1, c2, c3, c4, c5, c6, c7]
  · simp at hhi

theorem linear_index_eq_offs (fo : Nat) (ds xs : List Int) (h : ds.length = xs.length) :
    linear_index fo ds xs = offs fo ds xs := by
  by_cases hfo : fo = 1
  · subst hfo
    simpa [offs] using linear_index_fortran ds xs h
  · have e : linear_index fo ds xs = linear_index 0 ds xs := by
      simp [linear_index, stride, hfo]
    rw [e, linear_index_c ds xs h]
    simp [offs, hfo]

theorem offs_bounds (fo : Nat) {ds xs : List Int} (h : in_range ds xs) :
    0 ≤ offs fo ds xs ∧ offs fo ds xs < ds.prod := by
  unfold offs
  split
  · exact col_major_bounds h
  · exact row_major_bounds h

theorem offs_inj (fo : Nat) {ds xs ys : List Int} (hx : in_range ds xs) (hy : in_range ds ys)
    (h : offs fo ds xs = offs fo ds ys) : xs = ys := by
  unfold offs at h
  split at h
  · exact col_major_inj hx hy h
  · exact row_major_inj hx hy h

theorem offs_surj (fo : Nat) {ds : List Int} (hpos : ∀ d ∈ ds, 0 < d) {k : Int} (h0 : 0 ≤ k)
    (h1 : k < ds.prod) : ∃ xs, in_range ds xs ∧ offs fo ds xs = k := by
  unfold offs
  split
  · exact col_major_surj hpos h0 h1
  · exact row_major_surj hpos h0 h1

theorem in_range_length {ds xs : List Int} (h : in_range ds xs) : xs.length = ds.length :=
  (List.Forall₂.length_eq h).symm

theorem foldl_imul_eq (ds : List Int) (d : Int) (hd : 0 < d) (hpos : ∀ e ∈ ds, 0 < e)
    (hP : d * ds.prod ≤ INT_MAX) : ds.foldl imul d = d * ds.prod := by
  induction ds generalizing d with
  | nil => simp
  | cons e ds ih =>
    have he : 0 < e := hpos e (List.mem_cons_self e ds)
    have hrest : ∀ c ∈ ds, 0 < c := fun c hc => hpos c (List.mem_cons_of_mem e hc)
    have hp : 0 < ds.prod := prod_pos_of_pos hrest
    have hde : 0 < d * e := Int.mul_pos hd he
    rw [List.prod_cons] at hP
    have hle : d * e ≤ d * e * ds.prod := by
      have := Int.mul_le_mul_of_nonneg_left (show 1 ≤ ds.prod by omega) (Int.le_of_lt hde)
      simpa using this
    have hassoc : d * e * ds.prod = d * (e * ds.prod) := by ring
    have hw : imul d e = d * e := by
      unfold imul
      apply wrap_of_fits
      · unfold INT_MIN; omega
      · omega
    rw [List.foldl_cons, hw, ih (d * e) hde hrest (by omega), List.prod_cons]
    ring

theorem alloc_count_eq {ds : List Int} (hpos : ∀ d ∈ ds, 0 < d)
    (hP : ds.prod ≤ INT_MAX) : alloc_count ds = ds.prod := by
  cases ds with
  | nil => simp [alloc_count]
  | cons d ds =>
    rw [List.prod_cons] at hP
    simp only [alloc_count, List.prod_cons]
    exact foldl_imul_eq ds d (hpos d (List.mem_cons_self d ds))
      (fun c hc => hpos c (List.mem_cons_of_mem d hc)) hP

/-- On coordinates within the extents of an array whose element count fits in
an `int`, both modes of `at` and `at const` return the nested offset. -/
theorem new_at_in_range {α : Type} (ds : List Int) (init : α) (hlo : 1 ≤ ds.length)
    (hhi : ds.length ≤ 7) (hpos : ∀ d ∈ ds, 0 < d) (hP : ds.prod ≤ INT_MAX) :
    ∃ a, orca.new ds init = some (.ok a) ∧ orca.lengths a = ds ∧
      orca.internal_array a = List.replicate ds.prod.toNat init ∧
      ∀ bc fo xs, in_range ds xs →
        orca.at bc fo a xs = some (.ok (offs fo ds xs)) ∧
        orca.at_const bc fo a xs = some (.ok (offs fo ds xs)) := by
  obtain ⟨a, hnew, hlen, hbuf, hat, hchk⟩ := new_facts ds init hlo hhi hpos
  refine ⟨a, hnew, hlen, ?_, ?_⟩
  · rw [hbuf, alloc_count_eq hpos hP]; rfl
  · intro bc fo xs hr
    have hb := offs_bounds fo hr
    have hw : wrap (offs fo ds xs) = offs fo ds xs :=
      wrap_of_fits (by unfold INT_MIN; omega) (by omega)
    have h0 : orca.at 0 fo a xs = some (.ok (offs fo ds xs)) := by
      rcases hat fo xs (in_range_length hr) with h | h
      · exact h
      · rw [h, hw]
    rw [at_const_eq_at, hchk bc fo xs hr]
    exact ⟨h0, h0⟩

theorem prod_take_le {ds : List Int} (hpos : ∀ d ∈ ds, 0 < d) (i : Nat) :
    0 < (ds.take i).prod ∧ (ds.take i).prod ≤ ds.prod := by
  have h1 : 0 < (ds.take i).prod := prod_pos_of_pos (fun e he => hpos e (List.mem_of_mem_take he))
  have h2 : 0 < (ds.drop i).prod := prod_pos_of_pos (fun e he => hpos e (List.mem_of_mem_drop he))
  have h3 := List.prod_take_mul_prod_drop ds i
  have h4 := Int.mul_le_mul_of_nonneg_left (show 1 ≤ (ds.drop i).prod by omega) (Int.le_of_lt h1)
  refine ⟨h1, ?_⟩
  rw [← h3]
  simpa using h4

theorem prod_drop_le {ds : List Int} (hpos : ∀ d ∈ ds, 0 < d) (i : Nat) :
    0 < (ds.drop i).prod ∧ (ds.drop i).prod ≤ ds.prod := by
  have h1 : 0 < (ds.take i).prod := prod_pos_of_pos (fun e he => hpos e (List.mem_of_mem_take he))
  have h2 : 0 < (ds.drop i).prod := prod_pos_of_pos (fun e he => hpos e (List.mem_of_mem_drop he))
  have h3 := List.prod_take_mul_prod_drop ds i
  have h4 := Int.mul_le_mul_of_nonneg_right (show 1 ≤ (ds.take i).prod by omega) (Int.le_of_lt h2)
  refine ⟨h2, ?_⟩
  rw [← h3]
  simpa using h4

theorem stride_bounds (fo : Nat) {ds : List Int} (hpos : ∀ d ∈ ds, 0 < d) (i : Nat) :
    0 < stride fo ds i ∧ stride fo ds i ≤ ds.prod := by
  unfold stride
  split
  · exact prod_take_le hpos i
  · exact prod_drop_le hpos (i + 1)

theorem alloc_count_take {ds : List Int} (hpos : ∀ d ∈ ds, 0 < d) (hP : ds.prod ≤ INT_MAX)
    (i : Nat) : alloc_count ((ds.take i).reverse) = stride 1 ds i := by
  have hb := prod_take_le hpos i
  rw [alloc_count_eq (fun e he => hpos e (List.mem_of_mem_take (List.mem_reverse.1 he)))
    (by rw [List.prod_reverse]; omega), List.prod_reverse]
  simp [stride]

theorem alloc_count_drop {ds : List Int} (hpos : ∀ d ∈ ds, 0 < d) (hP : ds.prod ≤ INT_MAX)
    (i : Nat) : alloc_count (ds.drop (i + 1)) = stride 0 ds i := by
  have hb := prod_drop_le hpos (i + 1)
  rw [alloc_count_eq (fun e he => hpos e (List.mem_of_mem_drop he)) (by omega)]
  simp [stride]

/-- The factors the constructors of ranks 3 to 7 store, each as the `int`
product the source writes: `F_i = size_(i-1) * ... * size_1` and
`C_i = size_(i+1) * ... * size_N`. -/
theorem new_factors {α : Type} (ds : List Int) (init : α) (hlo : 3 ≤ ds.length)
    (hhi : ds.length ≤ 7) (hpos : ∀ d ∈ ds, 0 < d) :
    ∃ a, orca.new ds init = some (.ok a) ∧
      orca.F a = (List.range ds.length).map (fun i => alloc_count ((ds.take i).reverse)) ∧
      orca.C a = (List.range ds.length).map (fun i => alloc_count (ds.drop (i + 1))) := by
  rcases ds with _ | ⟨d1, _ | ⟨d2, _ | ⟨d3, _ | ⟨d4, _ | ⟨d5, _ | ⟨d6, _ | ⟨d7, _ | ⟨d8, ds⟩⟩⟩⟩⟩⟩⟩⟩
  · simp at hlo
  · simp at hlo
  · simp at hlo
  · obtain ⟨h1, h2, h3⟩ : 0 < d1 ∧ 0 < d2 ∧ 0 < d3 := by simpa using hpos
    refine ⟨.rank3 { size1 := d1, size2 := d2, size3 := d3, internal_array := new_array (imul (imul d1 d2) d3) init, F1 := 1, F2 := d1, F3 := imul d2 d1, C1 := imul d2 d3, C2 := d3, C3 := 1 }, ?_, rfl, rfl⟩
    simp [orca.new, array3d.array3d, Except.map, not_le.2 h1, not_le.2 h2, not_le.2 h3]
  · obtain ⟨h1, h2, h3, h4⟩ : 0 < d1 ∧ 0 < d2 ∧ 0 < d3 ∧ 0 < d4 := by simpa using hpos
    refine ⟨.rank4 { size1 := d1, size2 := d2, size3 := d3, size4 := d4, internal_array := new_array (imul (imul (imul d1 d2) d3) d4) init, F1 := 1, F2 := d1, F3 := imul d2 d1, F4 := imul (imul d3 d2) d1, C1 := imul (imul d2 d3) d4, C2 := imul d3 d4, C3 := d4, C4 := 1 }, ?_, rfl, rfl⟩
    simp [orca.new, array4d.array4d, Except.map, not_le.2 h1, not_le.2 h2, not_le.2 h3, not_le.2 h4]
  · obtain ⟨h1, h2, h3, h4, h5⟩ : 0 < d1 ∧ 0 < d2 ∧ 0 < d3 ∧ 0 < d4 ∧ 0 < d5 := by simpa using hpos
    refine ⟨.rank5 { size1 := d1, size2 := d2, size3 := d3, size4 := d4, size5 := d5, internal_array := new_array (imul (imul (imul (imul d1 d2) d3) d4) d5) init, F1 := 1, F2 := d1, F3 := imul d2 d1, F4 := imul (imul d3 d2) d1, F5 := imul (imul (imul d4 d3) d2) d1, C1 := imul (imul (imul d2 d3) d4) d5, C2 := imul (imul d3 d4) d5, C3 := imul d4 d5, C4 := d5, C5 := 1 }, ?_, rfl, rfl⟩
    simp [orca.new, array5d.array5d, Except.map, not_le.2 h1, not_le.2 h2, not_le.2 h3, not_le.2 h4, not_le.2 h5]
  · obtain ⟨h1, h2, h3, h4, h5, h6⟩ : 0 < d1 ∧ 0 < d2 ∧ 0 < d3 ∧ 0 < d4 ∧ 0 < d5 ∧ 0 < d6 := by simpa using hpos
    refine ⟨.rank6 { size1 := d1, size2 := d2, size3 := d3, size4 := d4, size5 := d5, size6 := d6, internal_array := new_array (imul (imul (imul (imul (imul d1 d2) d3) d4) d5) d6) init, F1 := 1, F2 := d1, F3 := imul d2 d1, F4 := imul (imul d3 d2) d1, F5 := imul (imul (imul d4 d3) d2) d1, F6 := imul (imul (imul (imul d5 d4) d3) d2) d1, C1 := imul (imul (imul (imul d2 d3) d4) d5) d6, C2 := imul (imul (imul d3 d4) d5) d6, C3 := imul (imul d4 d5) d6, C4 := imul d5 d6, C5 := d6, C6 := 1 }, ?_, rfl, rfl⟩
    simp [orca.new, array6d.array6d, Except.map, not_le.2 h1, not_le.2 h2, not_le.2 h3, not_le.2 h4, not_le.2 h5, not_le.2 h6]
  · obtain ⟨h1, h2, h3, h4, h5, h6, h7⟩ : 0 < d1 ∧ 0 < d2 ∧ 0 < d3 ∧ 0 < d4 ∧ 0 < d5 ∧ 0 < d6 ∧ 0 < d7 := by simpa using hpos
    refine ⟨.rank7 { size1 := d1, size2 := d2, size3 := d3, size4 := d4, size5 := d5, size6 := d6, size7 := d7, internal_array := new_array (imul (imul (imul (imul (imul (imul d1 d2) d3) d4) d5) d6) d7) init, F1 := 1, F2 := d1, F3 := imul d2 d1, F4 := imul (imul d3 d2) d1, F5 := imul (imul (imul d4 d3) d2) d1, F6 := imul (imul (imul (imul d5 d4) d3) d2) d1, F7 := imul (imul (imul (imul (imul d6 d5) d4) d3) d2) d1, C1 := imul (imul (imul (imul (imul d2 d3) d4) d5) d6) d7, C2 := imul (imul (imul (imul d3 d4) d5) d6) d7, C3 := imul (imul (imul d4 d5) d6) d7, C4 := imul (imul d5 d6) d7, C5 := imul d6 d7, C6 := d7, C7 := 1 }, ?_, rfl, rfl⟩
    simp [orca.new, array7d.array7d, Except.map, not_le.2 h1, not_le.2 h2, not_le.2 h3, not_le.2 h4, not_le.2 h5, not_le.2 h6, not_le.2 h7]
  · simp at hhi

/-! ## Rejected extents -/

/-- The constructor reports the first axis whose extent is not positive, with
that extent, whatever the later extents are. -/
theorem new_error_first {α : Type} (pre : List Int) (d : Int) (post : List Int) (init : α)
    (hlen : (pre ++ d :: post).length ≤ 7) (hpre : ∀ e ∈ pre, 0 < e) (hd : d ≤ 0) :
    orca.new (pre ++ d :: post) init = some (.error (.invalid_extent (pre.length + 1) d)) := by
  rcases pre with _ | ⟨d1, _ | ⟨d2, _ | ⟨d3, _ | ⟨d4, _ | ⟨d5, _ | ⟨d6, _ | ⟨d7, pre⟩⟩⟩⟩⟩⟩⟩ <;>
    rcases post with _ | ⟨p1, _ | ⟨p2, _ | ⟨p3, _ | ⟨p4, _ | ⟨p5, _ | ⟨p6, _ | ⟨p7, post⟩⟩⟩⟩⟩⟩⟩
  all_goals first
    | (simp at hlen; done)
    | (simp at hlen; omega)
    | skip
  all_goals try simp at hpre
  all_goals
    simp only [orca.new, array1d.array1d, array2d.array2d, array3d.array3d, array4d.array4d,
      array5d.array5d, array6d.array6d, array7d.array7d, List.cons_append, List.nil_append,
      List.length_cons, List.length_nil]
    split_ifs <;> first | omega | rfl

theorem first_nonpositive {ds : List Int} (h : ∃ d ∈ ds, d ≤ 0) :
    ∃ pre d post, ds = pre ++ d :: post ∧ (∀ e ∈ pre, 0 < e) ∧ d ≤ 0 := by
  induction ds with
  | nil => simp at h
  | cons c ds ih =>
    by_cases hc : c ≤ 0
    · exact ⟨[], c, ds, rfl, by simp, hc⟩
    · have h2 : ∃ d ∈ ds, d ≤ 0 := by
        obtain ⟨d, hd, hd0⟩ := h
        rcases List.mem_cons.1 hd with rfl | hd
        · exact absurd hd0 hc
        · exact ⟨d, hd, hd0⟩
      obtain ⟨pre, d, post, e, hp, hd⟩ := ih h2
      refine ⟨c :: pre, d, post, by rw [e]; rfl, ?_, hd⟩
      intro x hx
      rcases List.mem_cons.1 hx with rfl | hx
      · omega
      · exact hp x hx

/-! ## Reading and writing through the returned reference -/

theorem with_internal_array_at {α : Type} (bc fo : Nat) (a : orca α) (buf : List α)
    (xs : List Int) :
    orca.at bc fo (orca.with_internal_array buf a) xs = orca.at bc fo a xs := by
  cases a <;>
    rcases xs with _ | ⟨x1, _ | ⟨x2, _ | ⟨x3, _ | ⟨x4, _ | ⟨x5, _ | ⟨x6, _ | ⟨x7, _ | ⟨x8, xs⟩⟩⟩⟩⟩⟩⟩⟩ <;>
    rfl

theorem with_internal_array_buf {α : Type} (a : orca α) (buf : List α) :
    orca.internal_array (orca.with_internal_array buf a) = buf := by
  cases a <;> rfl

theorem with_internal_array_twice {α : Type} (a : orca α) (buf buf2 : List α) :
    orca.with_internal_array buf2 (orca.with_internal_array buf a) =
      orca.with_internal_array buf2 a := by
  cases a <;> rfl

theorem with_internal_array_self {α : Type} (a : orca α) :
    orca.with_internal_array (orca.internal_array a) a = a := by
  cases a <;> rfl

theorem subscript_set_same {α : Type} (buf : List α) (k : Int) (v : α) (h0 : 0 ≤ k)
    (hk : k.toNat < buf.length) : subscript (buf.set k.toNat v) k = some v := by
  simp [subscript, h0, List.getElem?_set, hk]

theorem subscript_set_other {α : Type} (buf : List α) (k j : Int) (v : α) (h0 : 0 ≤ k)
    (hj : 0 ≤ j) (hne : j ≠ k) : subscript (buf.set k.toNat v) j = subscript buf j := by
  have : k.toNat ≠ j.toNat := by omega
  simp [subscript, hj, List.getElem?_set, this]

/-- Effect of a run of assignments at tuples within the extents, on storage of
the right size: it is defined, keeps the size, leaves the value `f c` at every
tuple of the run and leaves every other tuple's cell as it was. -/
theorem write_all_spec {α : Type} (bc fo : Nat) (f : List Int → α) (ds : List Int)
    (a : orca α)
    (hat : ∀ xs, in_range ds xs → orca.at bc fo a xs = some (.ok (offs fo ds xs)))
    (cs : List (List Int)) (hcs : ∀ c ∈ cs, in_range ds c) (buf : List α)
    (hbuf : buf.length = ds.prod.toNat) :
    ∃ buf2, orca.write_all bc fo f (orca.with_internal_array buf a) cs =
        some (orca.with_internal_array buf2 a) ∧ buf2.length = ds.prod.toNat ∧
      ∀ c, in_range ds c →
        (c ∈ cs → subscript buf2 (offs fo ds c) = some (f c)) ∧
        (c ∉ cs → subscript buf2 (offs fo ds c) = subscript buf (offs fo ds c)) := by
  induction cs generalizing buf with
  | nil =>
    exact ⟨buf, rfl, hbuf, fun c _ => ⟨fun h => absurd h (List.not_mem_nil c), fun _ => rfl⟩⟩
  | cons c cs ih =>
    have hc : in_range ds c := hcs c (List.mem_cons_self c cs)
    have hb := offs_bounds fo hc
    have hlt : (offs fo ds c).toNat < buf.length := by rw [hbuf]; omega
    have hw : orca.write bc fo (orca.with_internal_array buf a) c (f c) =
        some (orca.with_internal_array (buf.set (offs fo ds c).toNat (f c)) a) := by
      simp [orca.write, with_internal_array_at, hat c hc, with_internal_array_buf, assign,
        hb.1, hlt, with_internal_array_twice]
    obtain ⟨buf2, h1, h2, h3⟩ := ih (fun e he => hcs e (List.mem_cons_of_mem c he))
      (buf.set (offs fo ds c).toNat (f c)) (by rw [List.length_set, hbuf])
    refine ⟨buf2, ?_, h2, ?_⟩
    · simp only [orca.write_all, hw]
      exact h1
    · intro e he
      have hbe := offs_bounds fo he
      constructor
      · intro hmem
        by_cases hin : e ∈ cs
        · exact (h3 e he).1 hin
        · have hec : e = c := by
            rcases List.mem_cons.1 hmem with h | h
            · exact h
            · exact absurd h hin
          subst hec
          rw [(h3 e he).2 hin]
          exact subscript_set_same buf _ _ hb.1 hlt
      · intro hnot
        have hne : e ≠ c := fun h => hnot (h ▸ List.mem_cons_self c cs)
        have hin : e ∉ cs := fun h => hnot (List.mem_cons_of_mem c h)
        rw [(h3 e he).2 hin]
        apply subscript_set_other buf _ _ _ hb.1 hbe.1
        intro hoff
        exact hne (offs_inj fo he hc hoff)

/-! ## Claims -/

/-- C1 (as amended). For every rank 1..7, positive extents and integer
coordinates (in range or not), unchecked `at` performs no validation (it
returns a reference, never a fault) and addresses the buffer index
`Σ x_i * s_i` (with `s_i` the product of the extents before axis `i` in
Fortran order, after axis `i` in C order) whenever that sum is representable
as a 32-bit `int`. -/
theorem unchecked_at_linear_index {α : Type} (FORTRAN_ORDER : Nat) (ds xs : List Int)
    (init : α) (hlo : 1 ≤ ds.length) (hhi : ds.length ≤ 7) (hpos : ∀ d ∈ ds, 0 < d)
    (hlen : xs.length = ds.length) :
    ∃ a, orca.new ds init = some (.ok a) ∧
      (∃ k, orca.at 0 FORTRAN_ORDER a xs = some (.ok k)) ∧
      (INT_MIN ≤ linear_index FORTRAN_ORDER ds xs →
        linear_index FORTRAN_ORDER ds xs ≤ INT_MAX →
        orca.at 0 FORTRAN_ORDER a xs = some (.ok (linear_index FORTRAN_ORDER ds xs))) := by
  obtain ⟨a, hnew, _, _, hat, _⟩ := new_facts ds init hlo hhi hpos
  refine ⟨a, hnew, ?_, ?_⟩
  · rcases hat FORTRAN_ORDER xs hlen with h | h
    · exact ⟨_, h⟩
    · exact ⟨_, h⟩
  · rw [linear_index_eq_offs FORTRAN_ORDER ds xs hlen.symm]
    intro h1 h2
    rcases hat FORTRAN_ORDER xs hlen with h | h
    · exact h
    · rw [h, wrap_of_fits h1 h2]

theorem unchecked_at_linear_index_witness :
    ∃ a, orca.new [2, 3] (0 : Nat) = some (.ok a) ∧
      (∃ k, orca.at 0 0 a [7, -2] = some (.ok k)) ∧
      (INT_MIN ≤ linear_index 0 [2, 3] [7, -2] →
        linear_index 0 [2, 3] [7, -2] ≤ INT_MAX →
        orca.at 0 0 a [7, -2] = some (.ok (linear_index 0 [2, 3] [7, -2]))) :=
  unchecked_at_linear_index 0 [2, 3] [7, -2] 0 (by decide) (by decide) (by decide) (by decide)

/-- C1 refuted as stated: in the 1 x 2 array the C-order subscript computed for
the coordinates (2^30, 0) is -2^31, while the sum `Σ x_i * s_i` is 2^31. -/
theorem unchecked_at_linear_index_overflow :
    ∃ a, orca.new [1, 2] (0 : Nat) = some (.ok a) ∧
      orca.at 0 0 a [1073741824, 0] = some (.ok (-2147483648)) ∧
      linear_index 0 [1, 2] [1073741824, 0] = 2147483648 ∧
      orca.at 0 0 a [1073741824, 0] ≠ some (.ok (linear_index 0 [1, 2] [1073741824, 0])) := by
  refine ⟨_, rfl, by decide, by decide, by decide⟩

/-- C2 (as amended). For every rank 1..7, both layouts, both access modes,
positive extents whose product is at most 2^31 - 1, and coordinates with
`0 ≤ x_i < extents[i]` on every axis, the offset computed by `at` lies in
`[0, product of extents)` and is inside the allocated buffer, whose element
count is that product: the subscript finds a cell. -/
theorem at_offset_in_buffer {α : Type} (ARRAY_BOUNDS_CHECK FORTRAN_ORDER : Nat)
    (ds xs : List Int) (init : α) (hlo : 1 ≤ ds.length) (hhi : ds.length ≤ 7)
    (hr : in_range ds xs) (hP : ds.prod ≤ INT_MAX) :
    ∃ a k, orca.new ds init = some (.ok a) ∧
      orca.at ARRAY_BOUNDS_CHECK FORTRAN_ORDER a xs = some (.ok k) ∧
      0 ≤ k ∧ k < ds.prod ∧
      ((orca.internal_array a).length : Int) = ds.prod ∧
      k.toNat < (orca.internal_array a).length ∧
      (subscript (orca.internal_array a) k).isSome := by
  have hpos := in_range_pos hr
  obtain ⟨a, hnew, _, hbuf, hat⟩ := new_at_in_range ds init hlo hhi hpos hP
  have hb := offs_bounds FORTRAN_ORDER hr
  have hp := prod_pos_of_pos hpos
  have hlt : (offs FORTRAN_ORDER ds xs).toNat < (orca.internal_array a).length := by
    rw [hbuf, List.length_replicate]; omega
  refine ⟨a, offs FORTRAN_ORDER ds xs, hnew,
    (hat ARRAY_BOUNDS_CHECK FORTRAN_ORDER xs hr).1, hb.1, hb.2, ?_, hlt, ?_⟩
  · rw [hbuf, List.length_replicate]; omega
  · simp only [subscript, hb.1, if_true, List.get?_eq_getElem?]
    rw [List.getElem?_eq_getElem hlt]
    rfl

theorem at_offset_in_buffer_witness :
    ∃ a k, orca.new [2, 3] (0 : Nat) = some (.ok a) ∧
      orca.at 1 1 a [1, 2] = some (.ok k) ∧
      0 ≤ k ∧ k < [2, 3].prod ∧
      ((orca.internal_array a).length : Int) = [2, 3].prod ∧
      k.toNat < (orca.internal_array a).length ∧
      (subscript (orca.internal_array a) k).isSome :=
  at_offset_in_buffer 1 1 [2, 3] [1, 2] 0 (by decide) (by decide)
    (List.Forall₂.cons (by decide) (List.Forall₂.cons (by decide) List.Forall₂.nil))
    (by decide)

/-- C2 refuted as stated: in the 65536 x 65536 array the in-range coordinates
(32768, 0) give the C-order offset -2^31, which is below 0 and outside the
storage. -/
theorem at_offset_in_buffer_overflow :
    ∃ a, orca.new [65536, 65536] (0 : Nat) = some (.ok a) ∧
      in_range [65536, 65536] [32768, 0] ∧
      orca.at 0 0 a [32768, 0] = some (.ok (-2147483648)) ∧
      ¬ (0 ≤ (-2147483648 : Int)) ∧
      subscript (orca.internal_array a) (-2147483648) = none :=
  ⟨_, rfl, List.Forall₂.cons (by decide) (List.Forall₂.cons (by decide) List.Forall₂.nil),
    by decide, by decide, by decide⟩

/-- C3 (as amended). For every rank 1..7, both layouts, both access modes and
positive extents whose product is at most 2^31 - 1, the offset map is injective
on valid coordinates: two tuples within the extents for which `at` computes
the same offset are equal. -/
theorem at_injective {α : Type} (ARRAY_BOUNDS_CHECK FORTRAN_ORDER : Nat)
    (ds xs ys : List Int) (init : α) (hlo : 1 ≤ ds.length) (hhi : ds.length ≤ 7)
    (hP : ds.prod ≤ INT_MAX) (hx : in_range ds xs) (hy : in_range ds ys) :
    ∃ a, orca.new ds init = some (.ok a) ∧
      (orca.at ARRAY_BOUNDS_CHECK FORTRAN_ORDER a xs =
        orca.at ARRAY_BOUNDS_CHECK FORTRAN_ORDER a ys → xs = ys) := by
  obtain ⟨a, hnew, _, _, hat⟩ := new_at_in_range ds init hlo hhi (in_range_pos hx) hP
  refine ⟨a, hnew, fun h => ?_⟩
  rw [(hat ARRAY_BOUNDS_CHECK FORTRAN_ORDER xs hx).1,
    (hat ARRAY_BOUNDS_CHECK FORTRAN_ORDER ys hy).1] at h
  have h2 : offs FORTRAN_ORDER ds xs = offs FORTRAN_ORDER ds ys := by
    injection h with h; injection h
  exact offs_inj FORTRAN_ORDER hx hy h2

theorem at_injective_witness :
    ∃ a, orca.new [2, 3] (0 : Nat) = some (.ok a) ∧
      (orca.at 0 0 a [1, 2] = orca.at 0 0 a [0, 1] → [1, 2] = [(0 : Int), 1]) :=
  at_injective 0 0 [2, 3] [1, 2] [0, 1] 0 (by decide) (by decide) (by decide)
    (List.Forall₂.cons (by decide) (List.Forall₂.cons (by decide) List.Forall₂.nil))
    (List.Forall₂.cons (by decide) (List.Forall₂.cons (by decide) List.Forall₂.nil))

/-- C3 refuted as stated: in the 65536 x 65536 x 2 array the distinct in-range
tuples (0,0,0) and (32768,0,0) both get the C-order offset 0. -/
theorem at_injective_overflow :
    ∃ a, orca.new [65536, 65536, 2] (0 : Nat) = some (.ok a) ∧
      in_range [65536, 65536, 2] [0, 0, 0] ∧ in_range [65536, 65536, 2] [32768, 0, 0] ∧
      orca.at 0 0 a [0, 0, 0] = some (.ok 0) ∧ orca.at 0 0 a [32768, 0, 0] = some (.ok 0) ∧
      [(0 : Int), 0, 0] ≠ [32768, 0, 0] :=
  ⟨_, rfl,
    List.Forall₂.cons (by decide) (List.Forall₂.cons (by decide)
      (List.Forall₂.cons (by decide) List.Forall₂.nil)),
    List.Forall₂.cons (by decide) (List.Forall₂.cons (by decide)
      (List.Forall₂.cons (by decide) List.Forall₂.nil)),
    by decide, by decide, by decide⟩

/-- C4 (as amended). For every rank 1..7, both layouts, both access modes and
positive extents whose product is at most 2^31 - 1, the offset map is
surjective onto the buffer: every `k` with `0 ≤ k < product of extents` is the
offset `at` computes for some tuple within the extents. -/
theorem at_surjective {α : Type} (ARRAY_BOUNDS_CHECK FORTRAN_ORDER : Nat)
    (ds : List Int) (init : α) (k : Int) (hlo : 1 ≤ ds.length) (hhi : ds.length ≤ 7)
    (hpos : ∀ d ∈ ds, 0 < d) (hP : ds.prod ≤ INT_MAX) (h0 : 0 ≤ k) (h1 : k < ds.prod) :
    ∃ a, orca.new ds init = some (.ok a) ∧
      ∃ xs, in_range ds xs ∧ orca.at ARRAY_BOUNDS_CHECK FORTRAN_ORDER a xs = some (.ok k) := by
  obtain ⟨a, hnew, _, _, hat⟩ := new_at_in_range ds init hlo hhi hpos hP
  obtain ⟨xs, hr, hk⟩ := offs_surj FORTRAN_ORDER hpos h0 h1
  refine ⟨a, hnew, xs, hr, ?_⟩
  rw [(hat ARRAY_BOUNDS_CHECK FORTRAN_ORDER xs hr).1, hk]

theorem at_surjective_witness :
    ∃ a, orca.new [2, 3] (0 : Nat) = some (.ok a) ∧
      ∃ xs, in_range [2, 3] xs ∧ orca.at 0 1 a xs = some (.ok 4) :=
  at_surjective 0 1 [2, 3] 0 4 (by decide) (by decide) (by decide) (by decide) (by decide)
    (by decide)

/-- C4 refuted as stated: in the 65536 x 65536 array the number 2^31 is below
the product of the extents, yet no coordinate tuple at all gets it as offset. -/
theorem at_surjective_overflow :
    ∃ a, orca.new [65536, 65536] (0 : Nat) = some (.ok a) ∧
      (0 : Int) ≤ 2147483648 ∧ (2147483648 : Int) < [65536, 65536].prod ∧
      ∀ xs, orca.at 0 0 a xs ≠ some (.ok 2147483648) := by
  refine ⟨_, rfl, by decide, by decide, ?_⟩
  intro xs h
  rcases xs with _ | ⟨x1, _ | ⟨x2, _ | ⟨x3, xs⟩⟩⟩ <;> simp [orca.at] at h
  simp only [array2d.at, iadd] at h
  have hf := (wrap_fits (imul x1 65536 + x2)).2
  simp at h
  rw [h] at hf
  exact absurd hf (by decide)

/-- C5 (as amended). Round trip: for every rank 1..7, both layouts, both
access modes, positive extents whose product is at most 2^31 - 1 and every
assignment `f` of values to coordinate tuples, after writing `f c` through `at`
at the tuples of any list `cs` that holds valid tuples only and every valid
tuple at least once (any order), every write having found its cell, reading
`at(c)` through the writable or the const variant returns exactly `f c` for
every valid tuple `c`. -/
theorem write_read_round_trip {α : Type} (ARRAY_BOUNDS_CHECK FORTRAN_ORDER : Nat)
    (f : List Int → α) (ds : List Int) (init : α) (cs : List (List Int))
    (hlo : 1 ≤ ds.length) (hhi : ds.length ≤ 7) (hpos : ∀ d ∈ ds, 0 < d)
    (hP : ds.prod ≤ INT_MAX) (hvalid : ∀ c ∈ cs, in_range ds c)
    (hall : ∀ c, in_range ds c → c ∈ cs) :
    ∃ a b, orca.new ds init = some (.ok a) ∧
      orca.write_all ARRAY_BOUNDS_CHECK FORTRAN_ORDER f a cs = some b ∧
      ∀ c, in_range ds c →
        orca.read ARRAY_BOUNDS_CHECK FORTRAN_ORDER b c = some (f c) ∧
        orca.read_const ARRAY_BOUNDS_CHECK FORTRAN_ORDER b c = some (f c) := by
  obtain ⟨a, hnew, _, hbuf, hat⟩ := new_at_in_range ds init hlo hhi hpos hP
  obtain ⟨buf2, h1, _, h3⟩ := write_all_spec ARRAY_BOUNDS_CHECK FORTRAN_ORDER f ds a
    (fun xs hr => (hat ARRAY_BOUNDS_CHECK FORTRAN_ORDER xs hr).1) cs hvalid
    (orca.internal_array a) (by rw [hbuf, List.length_replicate])
  rw [with_internal_array_self] at h1
  refine ⟨a, _, hnew, h1, fun c hc => ?_⟩
  have hv := (h3 c hc).1 (hall c hc)
  have hatc := hat ARRAY_BOUNDS_CHECK FORTRAN_ORDER c hc
  constructor
  · simp [orca.read, with_internal_array_at, hatc.1, with_internal_array_buf, hv]
  · simp [orca.read_const, at_const_eq_at, with_internal_array_at, hatc.1,
      with_internal_array_buf, hv]

theorem write_read_round_trip_witness :
    ∃ a b, orca.new [2] (0 : Int) = some (.ok a) ∧
      orca.write_all 1 0 (fun c => c.sum + 10) a [[1], [0]] = some b ∧
      ∀ c, in_range [2] c →
        orca.read 1 0 b c = some ((fun c => c.sum + 10) c) ∧
        orca.read_const 1 0 b c = some ((fun c => c.sum + 10) c) :=
  write_read_round_trip 1 0 (fun c => c.sum + 10) [2] 0 [[1], [0]] (by decide) (by decide)
    (by decide) (by decide)
    (by
      intro c hc
      simp at hc
      rcases hc with rfl | rfl <;>
        exact List.Forall₂.cons (by decide) List.Forall₂.nil)
    (by
      intro c hc
      cases hc with
      | cons h hr =>
        cases hr
        rename_i x
        have : x = 0 ∨ x = 1 := by omega
        rcases this with rfl | rfl <;> simp)

/-- C5 refuted as stated: the 65536 x 65536 array is built with positive
extents, but its element count `65536 * 65536` is 0 in `int` arithmetic, so no
write through `at` finds a cell (no non-empty run of writes is defined) and a
read at the valid tuple (0,0) finds none either. -/
theorem write_read_round_trip_overflow :
    ∃ a, orca.new [65536, 65536] (0 : Int) = some (.ok a) ∧
      in_range [65536, 65536] [0, 0] ∧
      (∀ (f : List Int → Int) cs, cs ≠ [] → orca.write_all 0 0 f a cs = none) ∧
      orca.read 0 0 a [0, 0] = none := by
  refine ⟨_, rfl,
    List.Forall₂.cons (by decide) (List.Forall₂.cons (by decide) List.Forall₂.nil), ?_, rfl⟩
  intro f cs hcs
  cases cs with
  | nil => exact absurd rfl hcs
  | cons c cs =>
    have hw : ∀ v, orca.write 0 0 (orca.rank2
        { size1 := 65536, size2 := 65536,
          internal_array := new_array (imul 65536 65536) (0 : Int) }) c v = none := by
      intro v
      have hb : new_array (imul 65536 65536) (0 : Int) = [] := by decide
      unfold orca.write
      split
      · simp [orca.internal_array, hb, assign]
      · rfl
    simp only [orca.write_all]
    rw [hw]

/-- C6 (as amended). For every rank 3..7 and positive extents whose product is
at most 2^31 - 1, the constructor stores both stride tables with
`F_i = product of size_j for j < i` (so `F1 = 1`) and
`C_i = product of size_j for j > i` (so `C_N = 1`), for every axis `i`. -/
theorem constructor_stride_tables {α : Type} (ds : List Int) (init : α)
    (hlo : 3 ≤ ds.length) (hhi : ds.length ≤ 7) (hpos : ∀ d ∈ ds, 0 < d)
    (hP : ds.prod ≤ INT_MAX) :
    ∃ a, orca.new ds init = some (.ok a) ∧
      orca.F a = (List.range ds.length).map (fun i => (ds.take i).prod) ∧
      orca.C a = (List.range ds.length).map (fun i => (ds.drop (i + 1)).prod) ∧
      (orca.F a).head? = some 1 ∧ (orca.C a).getLast? = some 1 := by
  obtain ⟨a, hnew, hF, hC⟩ := new_factors ds init hlo hhi hpos
  have eF : orca.F a = (List.range ds.length).map (fun i => (ds.take i).prod) := by
    rw [hF]
    apply List.map_congr_left
    intro i _
    simpa [stride] using alloc_count_take hpos hP i
  have eC : orca.C a = (List.range ds.length).map (fun i => (ds.drop (i + 1)).prod) := by
    rw [hC]
    apply List.map_congr_left
    intro i _
    simpa [stride] using alloc_count_drop hpos hP i
  refine ⟨a, hnew, eF, eC, ?_, ?_⟩
  · rw [eF]
    obtain ⟨n, hn⟩ : ∃ n, ds.length = n + 1 := ⟨ds.length - 1, by omega⟩
    rw [hn, List.range_succ_eq_map]
    simp
  · rw [eC]
    obtain ⟨n, hn⟩ : ∃ n, ds.length = n + 1 := ⟨ds.length - 1, by omega⟩
    rw [hn, List.range_succ]
    simp [← hn]

theorem constructor_stride_tables_witness :
    ∃ a, orca.new [2, 3, 4] (0 : Nat) = some (.ok a) ∧
      orca.F a = (List.range [2, 3, 4].length).map (fun i => ([2, 3, 4].take i).prod) ∧
      orca.C a = (List.range [2, 3, 4].length).map (fun i => ([2, 3, 4].drop (i + 1)).prod) ∧
      (orca.F a).head? = some 1 ∧ (orca.C a).getLast? = some 1 :=
  constructor_stride_tables [2, 3, 4] 0 (by decide) (by decide) (by decide) (by decide)

/-- C6 refuted as stated: for the positive extents (65536, 65536, 1) the stored
factor `F3 = size2 * size1` is 0, while the product of the extents before axis
3 is 2^32. -/
theorem constructor_stride_tables_overflow :
    ∃ a, orca.new [65536, 65536, 1] (0 : Nat) = some (.ok a) ∧
      orca.F a = [1, 65536, 0] ∧ ([65536, 65536, 1].take 2).prod = (4294967296 : Int) ∧
      orca.F a ≠ (List.range 3).map (fun i => (([65536, 65536, 1] : List Int).take i).prod) :=
  ⟨_, rfl, by decide, by decide, by decide⟩

/-- C7 (as amended). For every rank-2 array with positive extents `(d1, d2)`
and all coordinates, the column-major offset is `x2 * d1 + x1` and the
row-major offset is `x1 * d2 + x2`, each whenever that value is representable
as a 32-bit `int` (the witness gives the figures for extents (2,3)). -/
theorem array2d_offset_formulas {α : Type} (d1 d2 x1 x2 : Int) (init : α) (h1 : 0 < d1)
    (h2 : 0 < d2) :
    ∃ a, array2d.array2d d1 d2 init = .ok a ∧
      (INT_MIN ≤ x2 * d1 + x1 → x2 * d1 + x1 ≤ INT_MAX →
        array2d.at 0 1 a x1 x2 = .ok (x2 * d1 + x1)) ∧
      (INT_MIN ≤ x1 * d2 + x2 → x1 * d2 + x2 ≤ INT_MAX →
        array2d.at 0 0 a x1 x2 = .ok (x1 * d2 + x2)) := by
  refine ⟨{ size1 := d1, size2 := d2, internal_array := new_array (imul d1 d2) init }, ?_, ?_, ?_⟩
  · simp [array2d.array2d, not_le.2 h1, not_le.2 h2]
  · intro hl hu
    simp [array2d.at, imul, iadd, wrap_of_fits hl hu]
  · intro hl hu
    simp [array2d.at, imul, iadd, wrap_of_fits hl hu]

theorem array2d_offset_formulas_witness :
    (∃ a, array2d.array2d 2 3 (0 : Nat) = .ok a ∧
      ((INT_MIN ≤ 2 * 2 + 1 → 2 * 2 + 1 ≤ INT_MAX → array2d.at 0 1 a 1 2 = .ok (2 * 2 + 1)) ∧
       (INT_MIN ≤ 1 * 3 + 2 → 1 * 3 + 2 ≤ INT_MAX → array2d.at 0 0 a 1 2 = .ok (1 * 3 + 2)))) ∧
    (∃ a, array2d.array2d 2 3 (0 : Nat) = .ok a ∧
      ((INT_MIN ≤ 2 * 2 + 0 → 2 * 2 + 0 ≤ INT_MAX → array2d.at 0 1 a 0 2 = .ok (2 * 2 + 0)) ∧
       (INT_MIN ≤ 0 * 3 + 2 → 0 * 3 + 2 ≤ INT_MAX → array2d.at 0 0 a 0 2 = .ok (0 * 3 + 2)))) :=
  ⟨array2d_offset_formulas 2 3 1 2 0 (by decide) (by decide),
    array2d_offset_formulas 2 3 0 2 0 (by decide) (by decide)⟩

/-- C7 refuted as stated: in the 2 x 3 array the column-major subscript
computed for the coordinates (0, 2^30) is -2^31, while `x2 * d1 + x1` is 2^31. -/
theorem array2d_offset_formulas_overflow :
    ∃ a, array2d.array2d 2 3 (0 : Nat) = .ok a ∧
      array2d.at 0 1 a 0 1073741824 = .ok (-2147483648) ∧
      (1073741824 * 2 + 0 : Int) = 2147483648 ∧
      array2d.at 0 1 a 0 1073741824 ≠ .ok (1073741824 * 2 + 0) :=
  ⟨_, rfl, by decide, by decide, by decide⟩

/-- C8. For every rank 1..7 and positive extents `(d1..dN)`, the array is
constructed and `length_i()` returns exactly `d_i` for every axis `i`. -/
theorem lengths_after_construction {α : Type} (ds : List Int) (init : α)
    (hlo : 1 ≤ ds.length) (hhi : ds.length ≤ 7) (hpos : ∀ d ∈ ds, 0 < d) :
    ∃ a, orca.new ds init = some (.ok a) ∧ orca.lengths a = ds := by
  obtain ⟨a, hnew, hlen, _⟩ := new_facts ds init hlo hhi hpos
  exact ⟨a, hnew, hlen⟩

theorem lengths_after_construction_witness :
    ∃ a, orca.new [2, 3, 4, 5, 6, 7, 8] (0 : Nat) = some (.ok a) ∧
      orca.lengths a = [2, 3, 4, 5, 6, 7, 8] :=
  lengths_after_construction [2, 3, 4, 5, 6, 7, 8] 0 (by decide) (by decide) (by decide)

theorem new_error_iff {α : Type} (ds : List Int) (init : α) (hlo : 1 ≤ ds.length)
    (hhi : ds.length ≤ 7) :
    ((∃ i v, orca.new ds init = some (.error (Fault.invalid_extent i v))) ↔
      ∃ d ∈ ds, d ≤ 0) ∧
    (∀ e, orca.new ds init = some (.error e) → ∃ i v, e = Fault.invalid_extent i v) := by
  have hbad : (∃ d ∈ ds, d ≤ 0) →
      ∃ i v, orca.new ds init = some (.error (Fault.invalid_extent i v)) := by
    intro h
    obtain ⟨pre, d, post, e, hp, hd⟩ := first_nonpositive h
    subst e
    exact ⟨pre.length + 1, d, new_error_first pre d post init hhi hp hd⟩
  have hgood : ∀ e, orca.new ds init = some (.error e) → ∃ d ∈ ds, d ≤ 0 := by
    intro e he
    by_contra hno
    have hpos : ∀ d ∈ ds, 0 < d := by
      intro d hd
      by_contra hneg
      exact hno ⟨d, hd, by omega⟩
    obtain ⟨a, ha, _⟩ := new_facts ds init hlo hhi hpos
    rw [he] at ha
    cases ha
  refine ⟨⟨?_, hbad⟩, ?_⟩
  · rintro ⟨i, v, he⟩
    exact hgood _ he
  · intro e he
    obtain ⟨i, v, hiv⟩ := hbad (hgood e he)
    rw [he] at hiv
    injection hiv with hiv
    injection hiv with hiv
    exact ⟨i, v, hiv⟩

theorem construct_of_new_error {α : Type} (ds : List Int) (init : α) (f : Fault)
    (h : orca.new ds init = some (.error f)) :
    orca.construct ds init = some (.error (.raised f)) := by
  simp only [orca.construct, h]

theorem construct_of_new_ok {α : Type} (ds : List Int) (init : α) (a : orca α)
    (h : orca.new ds init = some (.ok a)) (hl : orca.lengths a = ds) :
    orca.construct ds init =
      if alloc_count ds < 0 then some (.error (.bad_array_new_length (alloc_count ds)))
      else some (.ok a) := by
  simp only [orca.construct, h, hl, new_throws]

theorem construct_raised_inv {α : Type} (ds : List Int) (init : α) (f : Fault)
    (h : orca.construct ds init = some (.error (.raised f))) :
    orca.new ds init = some (.error f) := by
  unfold orca.construct at h
  split at h
  · cases h
  · rename_i g hg
    injection h with h
    injection h with h
    injection h with h
    rw [hg, h]
  · split at h
    · injection h with h
      injection h with h
      cases h
    · injection h with h
      cases h

/-- C9 (as amended). For every rank 1..7 and integer extents, construction
fails with an invalid-extent report if and only if some extent is `≤ 0`, and
construction with all extents `≥ 1` whose product is at most 2^31 - 1 never
fails: it yields the array with those extents.  With all extents `≥ 1` the one
way construction can fail is the exception of `new`, for a negative element
count, which needs a product above 2^31 - 1. -/
theorem construction_fails_iff {α : Type} (ds : List Int) (init : α) (hlo : 1 ≤ ds.length)
    (hhi : ds.length ≤ 7) :
    ((∃ i v, orca.construct ds init =
        some (.error (.raised (Fault.invalid_extent i v)))) ↔ ∃ d ∈ ds, d ≤ 0) ∧
    (∀ f, orca.construct ds init = some (.error (.raised f)) →
      ∃ i v, f = Fault.invalid_extent i v) ∧
    ((∀ d ∈ ds, 1 ≤ d) → ds.prod ≤ INT_MAX →
      ∃ a, orca.construct ds init = some (.ok a) ∧ orca.lengths a = ds) ∧
    ((∀ d ∈ ds, 1 ≤ d) → ∀ e, orca.construct ds init = some (.error e) →
      e = .bad_array_new_length (alloc_count ds) ∧ alloc_count ds < 0 ∧
        INT_MAX < ds.prod) := by
  obtain ⟨hiff, hshape⟩ := new_error_iff ds init hlo hhi
  refine ⟨⟨?_, ?_⟩, ?_, ?_, ?_⟩
  · rintro ⟨i, v, h⟩
    exact hiff.1 ⟨i, v, construct_raised_inv ds init _ h⟩
  · intro h
    obtain ⟨i, v, hiv⟩ := hiff.2 h
    exact ⟨i, v, construct_of_new_error ds init _ hiv⟩
  · intro f h
    exact hshape f (construct_raised_inv ds init f h)
  · intro h1 hP
    have hpos : ∀ d ∈ ds, 0 < d := fun d hd => by have := h1 d hd; omega
    obtain ⟨a, hnew, hl, _⟩ := new_facts ds init hlo hhi hpos
    have hc := alloc_count_eq hpos hP
    have hp := prod_pos_of_pos hpos
    refine ⟨a, ?_, hl⟩
    rw [construct_of_new_ok ds init a hnew hl, if_neg (by omega)]
  · intro h1 e he
    have hpos : ∀ d ∈ ds, 0 < d := fun d hd => by have := h1 d hd; omega
    obtain ⟨a, hnew, hl, _⟩ := new_facts ds init hlo hhi hpos
    rw [construct_of_new_ok ds init a hnew hl] at he
    by_cases hneg : alloc_count ds < 0
    · rw [if_pos hneg] at he
      injection he with he
      injection he with he
      refine ⟨he.symm, hneg, ?_⟩
      by_contra hle
      have hc := alloc_count_eq hpos (by omega : ds.prod ≤ INT_MAX)
      have hp := prod_pos_of_pos hpos
      omega
    · rw [if_neg hneg] at he
      injection he with he
      cases he

theorem construction_fails_iff_witness :
    (((∃ i v, orca.construct [2, 3] (0 : Nat) =
        some (.error (.raised (Fault.invalid_extent i v)))) ↔
        ∃ d ∈ [(2 : Int), 3], d ≤ 0) ∧
      (∀ f, orca.construct [2, 3] (0 : Nat) = some (.error (.raised f)) →
        ∃ i v, f = Fault.invalid_extent i v) ∧
      ((∀ d ∈ [(2 : Int), 3], 1 ≤ d) → ([2, 3] : List Int).prod ≤ INT_MAX →
        ∃ a, orca.construct [2, 3] (0 : Nat) = some (.ok a) ∧ orca.lengths a = [2, 3]) ∧
      ((∀ d ∈ [(2 : Int), 3], 1 ≤ d) →
        ∀ e, orca.construct [2, 3] (0 : Nat) = some (.error e) →
        e = .bad_array_new_length (alloc_count [2, 3]) ∧ alloc_count [2, 3] < 0 ∧
          INT_MAX < ([2, 3] : List Int).prod)) ∧
    ∃ a, orca.construct [2, 3] (0 : Nat) = some (.ok a) ∧ orca.lengths a = [2, 3] :=
  ⟨construction_fails_iff [2, 3] 0 (by decide) (by decide),
    (construction_fails_iff [2, 3] 0 (by decide) (by decide)).2.2.1 (by decide) (by decide)⟩

/-- C9 refuted as stated: the extents 65536 x 32768 are both `≥ 1`, the
element count `size1 * size2` is -2^31 in `int` arithmetic, and the
construction fails with the exception of `new`. -/
theorem construction_fails_iff_overflow :
    (∀ d ∈ [(65536 : Int), 32768], 1 ≤ d) ∧
      alloc_count [65536, 32768] = -2147483648 ∧
      orca.construct [65536, 32768] (0 : Nat) =
        some (.error (.bad_array_new_length (-2147483648))) ∧
      ¬ ∃ a, orca.construct [65536, 32768] (0 : Nat) = some (.ok a) :=
  ⟨by decide, by decide, rfl, by rintro ⟨a, h⟩; cases h⟩

/-- C10. For every rank 1..7 and extents with at least one extent `≤ 0`, the
construction error names the lowest-numbered axis whose extent is `≤ 0`
together with that extent: with the extents before that axis positive, the
report is for that axis whatever the later extents are, so a later violation
is never the one reported. -/
theorem construction_error_names_first_axis {α : Type} (pre : List Int) (d : Int)
    (post : List Int) (init : α) (hlen : (pre ++ d :: post).length ≤ 7)
    (hpre : ∀ e ∈ pre, 0 < e) (hd : d ≤ 0) :
    orca.new (pre ++ d :: post) init =
      some (.error (Fault.invalid_extent (pre.length + 1) d)) :=
  new_error_first pre d post init hlen hpre hd

theorem construction_error_names_first_axis_witness :
    orca.new ([4, 5] ++ (-3) :: [0, 6]) (0 : Nat) =
      some (.error (Fault.invalid_extent ([4, 5].length + 1) (-3))) :=
  construction_error_names_first_axis [4, 5] (-3) [0, 6] 0 (by decide) (by decide) (by decide)

/-! ## The range checks of `at` -/

theorem at_unchecked_of_ne {α : Type} (bc fo : Nat) (a : orca α) (xs : List Int) (h : bc ≠ 1) :
    orca.at bc fo a xs = orca.at 0 fo a xs := by
  cases a <;>
    rcases xs with _ | ⟨x1, _ | ⟨x2, _ | ⟨x3, _ | ⟨x4, _ | ⟨x5, _ | ⟨x6, _ | ⟨x7, _ | ⟨x8, xs⟩⟩⟩⟩⟩⟩⟩⟩ <;>
    simp [orca.at, array1d.at, array2d.at, array3d.at, array4d.at, array5d.at, array6d.at,
      array7d.at, h]

theorem at_checked {α : Type} (fo : Nat) (a : orca α) (xs : List Int)
    (hlen : xs.length = (orca.lengths a).length) :
    orca.at 1 fo a xs =
      match first_violation 1 (orca.lengths a) xs with
      | some f => some (.error f)
      | none => orca.at 0 fo a xs := by
  cases a <;>
    rcases xs with _ | ⟨x1, _ | ⟨x2, _ | ⟨x3, _ | ⟨x4, _ | ⟨x5, _ | ⟨x6, _ | ⟨x7, _ | ⟨x8, xs⟩⟩⟩⟩⟩⟩⟩⟩ <;>
    simp [orca.lengths] at hlen
  all_goals
    simp only [orca.at, array1d.at, array2d.at, array3d.at, array4d.at, array5d.at, array6d.at,
      array7d.at, orca.lengths, first_violation, array1d.length1, array2d.length1,
      array2d.length2, array3d.length1, array3d.length2, array3d.length3, array4d.length1,
      array4d.length2, array4d.length3, array4d.length4, array5d.length1, array5d.length2,
      array5d.length3, array5d.length4, array5d.length5, array6d.length1, array6d.length2,
      array6d.length3, array6d.length4, array6d.length5, array6d.length6, array7d.length1,
      array7d.length2, array7d.length3, array7d.length4, array7d.length5, array7d.length6,
      array7d.length7, zero_ne_one, true_and, false_and, ite_false, if_false]
    split_ifs <;> rfl

theorem at_unchecked_ok {α : Type} (fo : Nat) (a : orca α) (xs : List Int)
    (hlen : xs.length = (orca.lengths a).length) : ∃ k, orca.at 0 fo a xs = some (.ok k) := by
  cases a <;>
    rcases xs with _ | ⟨x1, _ | ⟨x2, _ | ⟨x3, _ | ⟨x4, _ | ⟨x5, _ | ⟨x6, _ | ⟨x7, _ | ⟨x8, xs⟩⟩⟩⟩⟩⟩⟩⟩ <;>
    simp [orca.lengths] at hlen
  all_goals
    simp only [orca.at, array1d.at, array2d.at, array3d.at, array4d.at, array5d.at, array6d.at,
      array7d.at, zero_ne_one, false_and, ite_false, if_false]
    first
      | exact ⟨_, rfl⟩
      | (split_ifs <;> exact ⟨_, rfl⟩)

theorem first_violation_none_iff (i : Nat) (ds xs : List Int) (hlen : xs.length = ds.length) :
    first_violation i ds xs = none ↔ in_range ds xs := by
  induction ds generalizing xs i with
  | nil =>
    cases xs with
    | nil => simp [first_violation, in_range]
    | cons x xs => simp at hlen
  | cons d ds ih =>
    cases xs with
    | nil => simp at hlen
    | cons x xs =>
      have hl : xs.length = ds.length := by simpa using hlen
      simp only [first_violation, in_range, List.forall₂_cons]
      split_ifs with h
      · constructor
        · intro h2; cases h2
        · intro h2; omega
      · rw [ih (i + 1) xs hl]
        unfold in_range
        constructor
        · intro h2; exact ⟨by omega, h2⟩
        · intro h2; exact h2.2

theorem first_violation_first (i : Nat) (dpre xpre : List Int) (d x : Int)
    (dpost xpost : List Int) (hpre : in_range dpre xpre) (hx : x < 0 ∨ x ≥ d) :
    first_violation i (dpre ++ d :: dpost) (xpre ++ x :: xpost) =
      some (.index_out_of_range (i + dpre.length) x d) := by
  unfold in_range at hpre
  induction hpre generalizing i with
  | nil => simp [first_violation, hx]
  | @cons e y ds ys hy _ ih =>
    have hn : ¬ (y < 0 ∨ y ≥ e) := by omega
    simp only [List.cons_append, first_violation, hn, if_false, List.length_cons]
    have := ih (i + 1)
    simp only [List.append_eq] at this ⊢
    rw [this]
    congr 2
    omega

theorem first_violation_shape (i : Nat) (ds xs : List Int) (f : Fault)
    (h : first_violation i ds xs = some f) : ∃ j x s, f = Fault.index_out_of_range j x s := by
  induction ds generalizing xs i with
  | nil => simp [first_violation] at h
  | cons d ds ih =>
    cases xs with
    | nil => simp [first_violation] at h
    | cons x xs =>
      simp only [first_violation] at h
      split_ifs at h with hc
      · injection h with h
        exact ⟨i, x, d, h.symm⟩
      · exact ih (i + 1) xs h

/-- With one coordinate per axis, the coordinates are outside the extents
exactly when some axis has its coordinate below 0 or not below its extent. -/
theorem not_in_range_iff (ds xs : List Int) (hlen : xs.length = ds.length) :
    ¬ in_range ds xs ↔
      ∃ j, j < ds.length ∧ (xs.getD j 0 < 0 ∨ xs.getD j 0 ≥ ds.getD j 0) := by
  induction ds generalizing xs with
  | nil =>
    cases xs with
    | nil => simp [in_range]
    | cons x xs => simp at hlen
  | cons d ds ih =>
    cases xs with
    | nil => simp at hlen
    | cons x xs =>
      have hl : xs.length = ds.length := by simpa using hlen
      have hih := ih xs hl
      unfold in_range at hih ⊢
      rw [List.forall₂_cons, not_and_or, hih]
      constructor
      · rintro (h | ⟨j, hj, h⟩)
        · exact ⟨0, by simp, by simp; omega⟩
        · exact ⟨j + 1, by simpa using hj, by simpa using h⟩
      · rintro ⟨j, hj, h⟩
        cases j with
        | zero => left; simp at h; omega
        | succ j => right; exact ⟨j, by simpa using hj, by simpa using h⟩

/-- Outcome of checked `at` on an array with the extents `ds`: the report of
the first axis in violation, or the unchecked result when there is none. -/
theorem checked_at_cases {α : Type} (fo : Nat) (a : orca α) (xs : List Int)
    (hlen : xs.length = (orca.lengths a).length) :
    (in_range (orca.lengths a) xs ∧ orca.at 1 fo a xs = orca.at 0 fo a xs) ∨
    (¬ in_range (orca.lengths a) xs ∧
      ∃ j x s, orca.at 1 fo a xs = some (.error (Fault.index_out_of_range j x s))) := by
  have h := at_checked fo a xs hlen
  cases hv : first_violation 1 (orca.lengths a) xs with
  | none =>
    left
    rw [hv] at h
    exact ⟨(first_violation_none_iff 1 _ xs hlen).1 hv, h⟩
  | some f =>
    right
    rw [hv] at h
    refine ⟨fun hr => ?_, ?_⟩
    · rw [(first_violation_none_iff 1 _ xs hlen).2 hr] at hv
      cases hv
    · obtain ⟨j, x, s, e⟩ := first_violation_shape 1 _ xs f hv
      exact ⟨j, x, s, by rw [h, e]⟩

/-- C11. In checked mode, for every rank 1..7, positive extents and integer
coordinates (one per axis), `at` fails with an index-out-of-range report if
and only if some axis `i` has `x_i < 0` or `x_i ≥ extents[i]`; so `-1` and
`extents[i]` fail on any axis, and `extents[i] - 1` with the other
coordinates in range succeeds, like every tuple within the extents. -/
theorem checked_at_fails_iff {α : Type} (FORTRAN_ORDER : Nat) (ds xs : List Int) (init : α)
    (hlo : 1 ≤ ds.length) (hhi : ds.length ≤ 7) (hpos : ∀ d ∈ ds, 0 < d)
    (hlen : xs.length = ds.length) :
    ∃ a, orca.new ds init = some (.ok a) ∧
      ((∃ f, orca.at 1 FORTRAN_ORDER a xs = some (.error f)) ↔
        ∃ i, i < ds.length ∧ (xs.getD i 0 < 0 ∨ xs.getD i 0 ≥ ds.getD i 0)) ∧
      (∀ f, orca.at 1 FORTRAN_ORDER a xs = some (.error f) →
        ∃ i x s, f = Fault.index_out_of_range i x s) ∧
      ((∀ i, i < ds.length → 0 ≤ xs.getD i 0 ∧ xs.getD i 0 < ds.getD i 0) →
        ∃ k, orca.at 1 FORTRAN_ORDER a xs = some (.ok k)) := by
  obtain ⟨a, hnew, hl, _⟩ := new_facts ds init hlo hhi hpos
  have hlen2 : xs.length = (orca.lengths a).length := by rw [hl]; exact hlen
  have hc := checked_at_cases FORTRAN_ORDER a xs hlen2
  rw [hl] at hc
  obtain ⟨k, hk⟩ := at_unchecked_ok FORTRAN_ORDER a xs hlen2
  have hiff := not_in_range_iff ds xs hlen
  refine ⟨a, hnew, ⟨?_, ?_⟩, ?_, ?_⟩
  · rintro ⟨f, hf⟩
    rcases hc with ⟨_, h1⟩ | ⟨h0, _⟩
    · rw [h1, hk] at hf
      cases hf
    · exact hiff.1 h0
  · intro hex
    rcases hc with ⟨h0, _⟩ | ⟨_, j, x, s, h1⟩
    · exact absurd h0 (hiff.2 hex)
    · exact ⟨_, h1⟩
  · intro f hf
    rcases hc with ⟨_, h1⟩ | ⟨_, j, x, s, h1⟩
    · rw [h1, hk] at hf
      cases hf
    · rw [h1] at hf
      injection hf with hf
      injection hf with hf
      exact ⟨j, x, s, hf.symm⟩
  · intro hall
    rcases hc with ⟨_, h1⟩ | ⟨h0, _⟩
    · exact ⟨k, by rw [h1, hk]⟩
    · obtain ⟨j, hj, hv⟩ := hiff.1 h0
      have := hall j hj
      omega

theorem checked_at_fails_iff_witness :
    ∃ a, orca.new [2, 3] (0 : Nat) = some (.ok a) ∧
      ((∃ f, orca.at 1 0 a [1, 3] = some (.error f)) ↔
        ∃ i, i < [2, 3].length ∧
          (([1, 3] : List Int).getD i 0 < 0 ∨
            ([1, 3] : List Int).getD i 0 ≥ ([2, 3] : List Int).getD i 0)) ∧
      (∀ f, orca.at 1 0 a [1, 3] = some (.error f) →
        ∃ i x s, f = Fault.index_out_of_range i x s) ∧
      ((∀ i, i < [2, 3].length →
          0 ≤ ([1, 3] : List Int).getD i 0 ∧
            ([1, 3] : List Int).getD i 0 < ([2, 3] : List Int).getD i 0) →
        ∃ k, orca.at 1 0 a [1, 3] = some (.ok k)) :=
  checked_at_fails_iff 0 [2, 3] [1, 3] 0 (by decide) (by decide) (by decide) (by decide)

/-- C12. In checked mode, for every rank 1..7 and a coordinate tuple with an
out-of-range coordinate, the report of `at` names the lowest-numbered axis in
violation together with the offending coordinate and that axis's extent: with
the coordinates before axis `i` in range and `x_i` out of range, axis `i`,
`x_i` and `size_i` are reported whatever the later coordinates are. -/
theorem checked_at_reports_first_axis {α : Type} (FORTRAN_ORDER : Nat)
    (dpre xpre : List Int) (d x : Int) (dpost xpost : List Int) (init : α)
    (hhi : (dpre ++ d :: dpost).length ≤ 7) (hpos : ∀ e ∈ dpre ++ d :: dpost, 0 < e)
    (hpre : in_range dpre xpre) (hx : x < 0 ∨ x ≥ d) (hpost : xpost.length = dpost.length) :
    ∃ a, orca.new (dpre ++ d :: dpost) init = some (.ok a) ∧
      orca.at 1 FORTRAN_ORDER a (xpre ++ x :: xpost) =
        some (.error (Fault.index_out_of_range (dpre.length + 1) x d)) := by
  obtain ⟨a, hnew, hl, _⟩ := new_facts (dpre ++ d :: dpost) init (by simp; omega) hhi hpos
  refine ⟨a, hnew, ?_⟩
  have hlen : (xpre ++ x :: xpost).length = (orca.lengths a).length := by
    rw [hl]
    simp [in_range_length hpre, hpost]
  rw [at_checked FORTRAN_ORDER a _ hlen, hl,
    first_violation_first 1 dpre xpre d x dpost xpost hpre hx, Nat.add_comm]

theorem checked_at_reports_first_axis_witness :
    ∃ a, orca.new ([2, 3] ++ 4 :: [5]) (0 : Nat) = some (.ok a) ∧
      orca.at 1 1 a ([1, 2] ++ 4 :: [-9]) =
        some (.error (Fault.index_out_of_range ([2, 3].length + 1) 4 4)) :=
  checked_at_reports_first_axis 1 [2, 3] [1, 2] 4 4 [5] [-9] 0 (by decide) (by decide)
    (List.Forall₂.cons (by decide) (List.Forall₂.cons (by decide) List.Forall₂.nil))
    (by decide) (by decide)

/-- C13. In checked mode, for every rank 1..7, an access through `at` or
`at const` with an out-of-range coordinate yields the report and no subscript,
so the read or write ends the run before the buffer is used: the array at that
point is the array before the access, with every buffer element and every
extent as it was. -/
theorem checked_violation_touches_nothing {α : Type} (FORTRAN_ORDER : Nat)
    (ds xs : List Int) (init : α) (buf : List α) (v : α) (hlo : 1 ≤ ds.length)
    (hhi : ds.length ≤ 7) (hpos : ∀ d ∈ ds, 0 < d) (hlen : xs.length = ds.length)
    (hout : ∃ i, i < ds.length ∧ (xs.getD i 0 < 0 ∨ xs.getD i 0 ≥ ds.getD i 0)) :
    ∃ a f, orca.new ds init = some (.ok a) ∧
      orca.at 1 FORTRAN_ORDER (orca.with_internal_array buf a) xs = some (.error f) ∧
      orca.at_const 1 FORTRAN_ORDER (orca.with_internal_array buf a) xs = some (.error f) ∧
      (∀ op ∈ [Access.read xs, Access.read_const xs, Access.write xs v],
        ∃ o, orca.access 1 FORTRAN_ORDER (orca.with_internal_array buf a) op = some o ∧
          o = Outcome.aborted f (orca.with_internal_array buf a) ∧
          orca.internal_array o.state = buf ∧ orca.lengths o.state = ds) := by
  obtain ⟨a, hnew, hl, _⟩ := new_facts ds init hlo hhi hpos
  have hlen2 : xs.length = (orca.lengths a).length := by rw [hl]; exact hlen
  have hno : ¬ in_range (orca.lengths a) xs := by
    rw [hl]; exact (not_in_range_iff ds xs hlen).2 hout
  have hls : orca.lengths (orca.with_internal_array buf a) = ds := by
    rw [← hl]; cases a <;> rfl
  rcases checked_at_cases FORTRAN_ORDER a xs hlen2 with ⟨h0, _⟩ | ⟨_, j, x, s, h1⟩
  · exact absurd h0 hno
  · have hat : orca.at 1 FORTRAN_ORDER (orca.with_internal_array buf a) xs =
        some (.error (Fault.index_out_of_range j x s)) := by
      rw [with_internal_array_at, h1]
    refine ⟨a, _, hnew, hat, by rw [at_const_eq_at, hat], ?_⟩
    intro op hop
    simp only [List.mem_cons, List.mem_singleton, List.not_mem_nil, or_false] at hop
    rcases hop with rfl | rfl | rfl
    · exact ⟨_, by simp [orca.access, hat], rfl, with_internal_array_buf a buf, hls⟩
    · exact ⟨_, by simp [orca.access, at_const_eq_at, hat], rfl,
        with_internal_array_buf a buf, hls⟩
    · exact ⟨_, by simp [orca.access, hat], rfl, with_internal_array_buf a buf, hls⟩

theorem checked_violation_touches_nothing_witness :
    ∃ a f, orca.new [2, 3] (0 : Nat) = some (.ok a) ∧
      orca.at 1 0 (orca.with_internal_array [1, 2, 3, 4, 5, 6] a) [2, 0] = some (.error f) ∧
      orca.at_const 1 0 (orca.with_internal_array [1, 2, 3, 4, 5, 6] a) [2, 0] =
        some (.error f) ∧
      (∀ op ∈ [Access.read [2, 0], Access.read_const [2, 0], Access.write [2, 0] 9],
        ∃ o, orca.access 1 0 (orca.with_internal_array [1, 2, 3, 4, 5, 6] a) op = some o ∧
          o = Outcome.aborted f (orca.with_internal_array [1, 2, 3, 4, 5, 6] a) ∧
          orca.internal_array o.state = [1, 2, 3, 4, 5, 6] ∧ orca.lengths o.state = [2, 3]) :=
  checked_violation_touches_nothing 0 [2, 3] [2, 0] 0 [1, 2, 3, 4, 5, 6] 9 (by decide)
    (by decide) (by decide) (by decide) ⟨0, by decide, by decide⟩

/-! ## What a run of accesses keeps -/

theorem new_ok_inv {α : Type} (ds : List Int) (init : α) (a : orca α)
    (h : orca.new ds init = some (.ok a)) :
    1 ≤ ds.length ∧ ds.length ≤ 7 ∧ ∀ d ∈ ds, 0 < d := by
  have hlen : 1 ≤ ds.length ∧ ds.length ≤ 7 := by
    rcases ds with _ | ⟨d1, _ | ⟨d2, _ | ⟨d3, _ | ⟨d4, _ | ⟨d5, _ | ⟨d6, _ | ⟨d7, _ | ⟨d8, ds⟩⟩⟩⟩⟩⟩⟩⟩ <;>
      first
        | (simp [orca.new] at h; done)
        | (constructor <;> simp)
  refine ⟨hlen.1, hlen.2, ?_⟩
  by_contra hno
  have hex : ∃ d ∈ ds, d ≤ 0 := by
    by_contra hne
    apply hno
    intro d hd
    by_contra hd0
    exact hne ⟨d, hd, by omega⟩
  obtain ⟨pre, d, post, e, hp, hd⟩ := first_nonpositive hex
  subst e
  rw [new_error_first pre d post init hlen.2 hp hd] at h
  cases h

/-- An array comes out of the constructor call exactly when the constructor
body builds it and the element count handed to `new` is not negative. -/
theorem construct_ok_iff {α : Type} (ds : List Int) (init : α) (a : orca α) :
    orca.construct ds init = some (.ok a) ↔
      orca.new ds init = some (.ok a) ∧ 0 ≤ alloc_count ds := by
  constructor
  · intro h
    unfold orca.construct at h
    split at h
    · cases h
    · injection h with h
      cases h
    · rename_i b hb
      obtain ⟨hlo, hhi, hpos⟩ := new_ok_inv ds init b hb
      obtain ⟨c, hc, hl, _⟩ := new_facts ds init hlo hhi hpos
      have hbc : b = c := by
        rw [hb] at hc
        injection hc with hc
        injection hc
      subst hbc
      rw [hl] at h
      unfold new_throws at h
      split at h
      · injection h with h
        cases h
      · rename_i hneg
        injection h with h
        injection h with h
        subst h
        exact ⟨hb, by omega⟩
  · rintro ⟨hnew, hc⟩
    obtain ⟨hlo, hhi, hpos⟩ := new_ok_inv ds init a hnew
    obtain ⟨c, hc2, hl, _⟩ := new_facts ds init hlo hhi hpos
    have hac : a = c := by
      rw [hnew] at hc2
      injection hc2 with hc2
      injection hc2
    subst hac
    rw [construct_of_new_ok ds init a hnew hl, if_neg (by omega)]

theorem with_internal_array_fields {α : Type} (a : orca α) (buf : List α) :
    orca.lengths (orca.with_internal_array buf a) = orca.lengths a ∧
    orca.F (orca.with_internal_array buf a) = orca.F a ∧
    orca.C (orca.with_internal_array buf a) = orca.C a := by
  cases a <;> exact ⟨rfl, rfl, rfl⟩

theorem access_state {α : Type} (bc fo : Nat) (a : orca α) (op : Access α) (o : Outcome α)
    (h : orca.access bc fo a op = some o) :
    ∃ buf, o.state = orca.with_internal_array buf a ∧
      buf.length = (orca.internal_array a).length := by
  have hself : ∀ f, (Outcome.aborted f a).state = orca.with_internal_array (orca.internal_array a) a ∧
      (Outcome.returned a).state = orca.with_internal_array (orca.internal_array a) a := by
    intro f
    rw [with_internal_array_self]
    exact ⟨rfl, rfl⟩
  cases op with
  | read xs =>
    simp only [orca.access] at h
    split at h
    · cases hs : subscript (orca.internal_array a) _ with
      | none => rw [hs] at h; cases h
      | some w =>
        rw [hs] at h
        injection h with h
        subst h
        exact ⟨_, (hself (Fault.invalid_extent 0 0)).2, rfl⟩
    · injection h with h
      subst h
      exact ⟨_, (hself _).1, rfl⟩
    · cases h
  | read_const xs =>
    simp only [orca.access] at h
    split at h
    · cases hs : subscript (orca.internal_array a) _ with
      | none => rw [hs] at h; cases h
      | some w =>
        rw [hs] at h
        injection h with h
        subst h
        exact ⟨_, (hself (Fault.invalid_extent 0 0)).2, rfl⟩
    · injection h with h
      subst h
      exact ⟨_, (hself _).1, rfl⟩
    · cases h
  | write xs v =>
    simp only [orca.access] at h
    split at h
    · rename_i k _
      unfold assign at h
      split_ifs at h with hk
      · injection h with h
        subst h
        exact ⟨_, rfl, List.length_set _ _ _⟩
      · cases h
    · injection h with h
      subst h
      exact ⟨_, (hself _).1, rfl⟩
    · cases h

theorem run_state {α : Type} (bc fo : Nat) (a : orca α) (ops : List (Access α))
    (o : Outcome α) (h : orca.run bc fo a ops = some o) :
    ∃ buf, o.state = orca.with_internal_array buf a ∧
      buf.length = (orca.internal_array a).length := by
  induction ops generalizing a with
  | nil =>
    simp only [orca.run] at h
    injection h with h
    subst h
    exact ⟨orca.internal_array a, by rw [with_internal_array_self]; rfl, rfl⟩
  | cons op ops ih =>
    simp only [orca.run] at h
    cases hacc : orca.access bc fo a op with
    | none => rw [hacc] at h; cases h
    | some r =>
      obtain ⟨buf, hb, hl⟩ := access_state bc fo a op r hacc
      rw [hacc] at h
      cases r with
      | returned b =>
        simp only at h
        have hb2 : b = orca.with_internal_array buf a := hb
        obtain ⟨buf2, h2, hl2⟩ := ih b h
        refine ⟨buf2, ?_, ?_⟩
        · rw [h2, hb2, with_internal_array_twice]
        · rw [hl2, hb2, with_internal_array_buf, hl]
      | aborted f b =>
        simp only at h
        injection h with h
        subst h
        exact ⟨buf, hb, hl⟩

/-- C14 (as amended). For every rank 1..7 and positive extents whose product
is at most 2^31 - 1, the element count of the buffer the constructor
allocates, the expression `size1 * ... * sizeN` in `int` arithmetic, equals the
product of the extents, and the buffer keeps that many elements after any
sequence of reads and writes through `at`, in both modes and layouts. -/
theorem element_count_is_product {α : Type} (ARRAY_BOUNDS_CHECK FORTRAN_ORDER : Nat)
    (ds : List Int) (init : α) (hlo : 1 ≤ ds.length) (hhi : ds.length ≤ 7)
    (hpos : ∀ d ∈ ds, 0 < d) (hP : ds.prod ≤ INT_MAX) :
    ∃ a, orca.new ds init = some (.ok a) ∧
      orca.internal_array a = new_array (alloc_count ds) init ∧
      alloc_count ds = ds.prod ∧
      ((orca.internal_array a).length : Int) = ds.prod ∧
      ∀ ops o, orca.run ARRAY_BOUNDS_CHECK FORTRAN_ORDER a ops = some o →
        ((orca.internal_array o.state).length : Int) = ds.prod := by
  obtain ⟨a, hnew, _, hbuf, _⟩ := new_facts ds init hlo hhi hpos
  have hc := alloc_count_eq hpos hP
  have hp := prod_pos_of_pos hpos
  have hl : ((orca.internal_array a).length : Int) = ds.prod := by
    rw [hbuf, hc, new_array, List.length_replicate]
    omega
  refine ⟨a, hnew, hbuf, hc, hl, ?_⟩
  intro ops o hrun
  obtain ⟨buf, hs, hb⟩ := run_state ARRAY_BOUNDS_CHECK FORTRAN_ORDER a ops o hrun
  rw [hs, with_internal_array_buf, hb, hl]

theorem element_count_is_product_witness :
    ∃ a, orca.new [2, 3, 4] (0 : Nat) = some (.ok a) ∧
      orca.internal_array a = new_array (alloc_count [2, 3, 4]) 0 ∧
      alloc_count [2, 3, 4] = [2, 3, 4].prod ∧
      ((orca.internal_array a).length : Int) = [2, 3, 4].prod ∧
      ∀ ops o, orca.run 1 0 a ops = some o →
        ((orca.internal_array o.state).length : Int) = [2, 3, 4].prod :=
  element_count_is_product 1 0 [2, 3, 4] 0 (by decide) (by decide) (by decide) (by decide)

/-- C14 refuted as stated: for the positive extents (65536, 65536) the element
count `size1 * size2` is 0 in `int` arithmetic and the buffer has no element,
while the product of the extents is 2^32. -/
theorem element_count_is_product_overflow :
    ∃ a, orca.new [65536, 65536] (0 : Nat) = some (.ok a) ∧
      orca.internal_array a = new_array (alloc_count [65536, 65536]) 0 ∧
      alloc_count [65536, 65536] = 0 ∧ ([65536, 65536] : List Int).prod = 4294967296 ∧
      (orca.internal_array a).length = 0 :=
  ⟨_, rfl, rfl, by decide, by decide, by decide⟩

/-- C18. State invariant: for every rank 1..7, an array that the constructor
produced has every extent `≥ 1` (`length_i() ≥ 1` on every axis), and so has
every state a sequence of reads and writes through `at` leads to. -/
theorem extents_stay_positive {α : Type} (ds : List Int) (init : α) (a : orca α)
    (hnew : orca.new ds init = some (.ok a)) :
    (∀ l ∈ orca.lengths a, 1 ≤ l) ∧
      ∀ (ARRAY_BOUNDS_CHECK FORTRAN_ORDER : Nat) (ops : List (Access α)) (o : Outcome α),
        orca.run ARRAY_BOUNDS_CHECK FORTRAN_ORDER a ops = some o →
        ∀ l ∈ orca.lengths o.state, 1 ≤ l := by
  obtain ⟨hlo, hhi, hpos⟩ := new_ok_inv ds init a hnew
  obtain ⟨b, hb, hl, _⟩ := new_facts ds init hlo hhi hpos
  have hab : a = b := by
    rw [hnew] at hb
    injection hb with hb
    injection hb
  have h1 : ∀ l ∈ orca.lengths a, 1 ≤ l := by
    intro l hmem
    rw [hab, hl] at hmem
    have := hpos l hmem
    omega
  refine ⟨h1, ?_⟩
  intro bc fo ops o hrun
  obtain ⟨buf, hs, _⟩ := run_state bc fo a ops o hrun
  rw [hs, (with_internal_array_fields a buf).1]
  exact h1

theorem extents_stay_positive_witness :
    (∀ l ∈ orca.lengths
        (orca.rank2 { size1 := 2, size2 := 3, internal_array := new_array (imul 2 3) 0 } :
          orca Nat), 1 ≤ l) ∧
      ∀ (ARRAY_BOUNDS_CHECK FORTRAN_ORDER : Nat) (ops : List (Access Nat)) (o : Outcome Nat),
        orca.run ARRAY_BOUNDS_CHECK FORTRAN_ORDER
          (orca.rank2 { size1 := 2, size2 := 3, internal_array := new_array (imul 2 3) 0 } :
            orca Nat) ops = some o →
        ∀ l ∈ orca.lengths o.state, 1 ≤ l :=
  extents_stay_positive [2, 3] 0 _ rfl

/-- C19. For every rank 1..7, a construction call with some extent `≤ 0` ends
in the invalid-extent report and yields no array: the result carries no buffer,
no extent and no factor, so there is no object for `length_i()` or `at()`. -/
theorem failed_construction_yields_no_array {α : Type} (ds : List Int) (init : α)
    (hhi : ds.length ≤ 7) (hbad : ∃ d ∈ ds, d ≤ 0) :
    (∃ i v, orca.new ds init = some (.error (Fault.invalid_extent i v))) ∧
      (∀ a, orca.new ds init ≠ some (.ok a)) ∧
      (∀ r, orca.new ds init = some r → r.toOption = none) := by
  obtain ⟨pre, d, post, e, hp, hd⟩ := first_nonpositive hbad
  subst e
  have h := new_error_first pre d post init hhi hp hd
  refine ⟨⟨_, _, h⟩, ?_, ?_⟩
  · intro a ha
    rw [h] at ha
    cases ha
  · intro r hr
    rw [h] at hr
    injection hr with hr
    subst hr
    rfl

theorem failed_construction_yields_no_array_witness :
    (∃ i v, orca.new [3, 0, 5] (0 : Nat) = some (.error (Fault.invalid_extent i v))) ∧
      (∀ a, orca.new [3, 0, 5] (0 : Nat) ≠ some (.ok a)) ∧
      (∀ r, orca.new [3, 0, 5] (0 : Nat) = some r → r.toOption = none) :=
  failed_construction_yields_no_array [3, 0, 5] 0 (by decide) (by decide)

/-- C16 (as amended). For every rank 1..7, both layouts, both access modes,
positive extents whose product is at most 2^31 - 1, every state of the buffer,
every valid coordinate tuple `c` and every value `v`: after writing `v` through
the writable `at(c)`, a read through `at(c)` (writable or const variant)
returns `v`, and a read at every other valid tuple returns the value it held
before the write. -/
theorem write_changes_one_cell {α : Type} (ARRAY_BOUNDS_CHECK FORTRAN_ORDER : Nat)
    (ds c : List Int) (init v : α) (buf : List α) (hlo : 1 ≤ ds.length)
    (hhi : ds.length ≤ 7) (hP : ds.prod ≤ INT_MAX) (hc : in_range ds c)
    (hbuf : buf.length = ds.prod.toNat) :
    ∃ a b, orca.new ds init = some (.ok a) ∧
      orca.write ARRAY_BOUNDS_CHECK FORTRAN_ORDER (orca.with_internal_array buf a) c v =
        some b ∧
      orca.read ARRAY_BOUNDS_CHECK FORTRAN_ORDER b c = some v ∧
      orca.read_const ARRAY_BOUNDS_CHECK FORTRAN_ORDER b c = some v ∧
      ∀ e, in_range ds e → e ≠ c →
        orca.read ARRAY_BOUNDS_CHECK FORTRAN_ORDER b e =
          orca.read ARRAY_BOUNDS_CHECK FORTRAN_ORDER (orca.with_internal_array buf a) e ∧
        orca.read_const ARRAY_BOUNDS_CHECK FORTRAN_ORDER b e =
          orca.read_const ARRAY_BOUNDS_CHECK FORTRAN_ORDER (orca.with_internal_array buf a) e := by
  obtain ⟨a, hnew, _, _, hat⟩ := new_at_in_range ds init hlo hhi (in_range_pos hc) hP
  have hatc := (hat ARRAY_BOUNDS_CHECK FORTRAN_ORDER c hc).1
  have hb := offs_bounds FORTRAN_ORDER hc
  have hlt : (offs FORTRAN_ORDER ds c).toNat < buf.length := by rw [hbuf]; omega
  refine ⟨a, orca.with_internal_array (buf.set (offs FORTRAN_ORDER ds c).toNat v) a, hnew,
    ?_, ?_, ?_, ?_⟩
  · simp [orca.write, with_internal_array_at, hatc, with_internal_array_buf, assign, hb.1, hlt,
      with_internal_array_twice]
  · simp only [orca.read, with_internal_array_at, hatc, with_internal_array_buf]
    exact subscript_set_same buf _ v hb.1 hlt
  · simp only [orca.read_const, at_const_eq_at, with_internal_array_at, hatc,
      with_internal_array_buf]
    exact subscript_set_same buf _ v hb.1 hlt
  · intro e he hne
    have hate := (hat ARRAY_BOUNDS_CHECK FORTRAN_ORDER e he).1
    have hbe := offs_bounds FORTRAN_ORDER he
    have hoff : offs FORTRAN_ORDER ds e ≠ offs FORTRAN_ORDER ds c :=
      fun h => hne (offs_inj FORTRAN_ORDER he hc h)
    have hsub := subscript_set_other buf _ _ v hb.1 hbe.1 hoff
    constructor
    · simp only [orca.read, with_internal_array_at, hate, with_internal_array_buf]
      exact hsub
    · simp only [orca.read_const, at_const_eq_at, with_internal_array_at, hate,
        with_internal_array_buf]
      exact hsub

theorem write_changes_one_cell_witness :
    ∃ a b, orca.new [2, 3] (0 : Nat) = some (.ok a) ∧
      orca.write 1 1 (orca.with_internal_array [10, 11, 12, 13, 14, 15] a) [1, 2] 7 = some b ∧
      orca.read 1 1 b [1, 2] = some 7 ∧
      orca.read_const 1 1 b [1, 2] = some 7 ∧
      ∀ e, in_range [2, 3] e → e ≠ [1, 2] →
        orca.read 1 1 b e =
          orca.read 1 1 (orca.with_internal_array [10, 11, 12, 13, 14, 15] a) e ∧
        orca.read_const 1 1 b e =
          orca.read_const 1 1 (orca.with_internal_array [10, 11, 12, 13, 14, 15] a) e :=
  write_changes_one_cell 1 1 [2, 3] [1, 2] 0 7 [10, 11, 12, 13, 14, 15] (by decide) (by decide)
    (by decide)
    (List.Forall₂.cons (by decide) (List.Forall₂.cons (by decide) List.Forall₂.nil))
    (by decide)

/-- C16 refuted as stated: the 65536 x 65537 array has positive extents and
65536 elements (its element count in `int` arithmetic); the valid tuples
(0,0) and (65535,1) both get the C-order offset 0, so writing 9 at (65535,1)
changes the value read at (0,0) from 0 to 9. -/
theorem write_changes_one_cell_overflow :
    ∃ a b, orca.new [65536, 65537] (0 : Nat) = some (.ok a) ∧
      in_range [65536, 65537] [0, 0] ∧ in_range [65536, 65537] [65535, 1] ∧
      ([0, 0] : List Int) ≠ [65535, 1] ∧
      orca.read 0 0 a [0, 0] = some 0 ∧
      orca.write 0 0 a [65535, 1] 9 = some b ∧
      orca.read 0 0 b [0, 0] = some 9 := by
  have hcount : imul 65536 65537 = 65536 := by decide
  have key : ∀ (L : List Nat), 0 < L.length → L[0]? = some 0 →
      orca.read 0 0 (orca.rank2 { size1 := 65536, size2 := 65537, internal_array := L })
        [0, 0] = some 0 ∧
      orca.write 0 0 (orca.rank2 { size1 := 65536, size2 := 65537, internal_array := L })
        [65535, 1] 9 =
        some (orca.rank2 { size1 := 65536, size2 := 65537, internal_array := L.set 0 9 }) ∧
      orca.read 0 0 (orca.rank2 { size1 := 65536, size2 := 65537, internal_array := L.set 0 9 })
        [0, 0] = some 9 := by
    intro L hL hget
    have e1 : iadd (imul 0 65537) 0 = 0 := by decide
    have e2 : iadd (imul 65535 65537) 1 = 0 := by decide
    refine ⟨?_, ?_, ?_⟩
    · simp [orca.read, orca.at, array2d.at, e1, orca.internal_array, subscript, hget]
    · simp [orca.write, orca.at, array2d.at, e2, orca.internal_array, assign, hL,
        orca.with_internal_array]
    · simp [orca.read, orca.at, array2d.at, e1, orca.internal_array, subscript, hL]
  have hrep : ∀ n : Nat, 0 < n →
      0 < (List.replicate n (0 : Nat)).length ∧ (List.replicate n (0 : Nat))[0]? = some 0 := by
    intro n hn
    refine ⟨by rw [List.length_replicate]; exact hn, ?_⟩
    rw [List.getElem?_replicate, if_pos hn]
  obtain ⟨hL, hget⟩ := hrep (65536 : Int).toNat (by decide)
  obtain ⟨k1, k2, k3⟩ := key _ hL hget
  refine ⟨orca.rank2
      { size1 := 65536, size2 := 65537, internal_array := List.replicate (65536 : Int).toNat 0 },
    _, ?_,
    List.Forall₂.cons (by decide) (List.Forall₂.cons (by decide) List.Forall₂.nil),
    List.Forall₂.cons (by decide) (List.Forall₂.cons (by decide) List.Forall₂.nil),
    by decide, k1, k2, k3⟩
  simp only [orca.new, array2d.array2d, new_array, hcount]
  rfl

/-! ## Sizes of the intermediate values -/

theorem mul_steps_bounds (ds : List Int) (acc : Int) (hacc : 0 < acc)
    (hpos : ∀ e ∈ ds, 0 < e) (hP : acc * ds.prod ≤ INT_MAX) :
    ∀ p ∈ mul_steps acc ds, 1 ≤ p ∧ p ≤ acc * ds.prod := by
  induction ds generalizing acc with
  | nil => simp [mul_steps]
  | cons e ds ih =>
    have he : 0 < e := hpos e (List.mem_cons_self e ds)
    have hrest : ∀ c ∈ ds, 0 < c := fun c hc => hpos c (List.mem_cons_of_mem e hc)
    have hp : 0 < ds.prod := prod_pos_of_pos hrest
    have hae : 0 < acc * e := Int.mul_pos hacc he
    rw [List.prod_cons] at hP ⊢
    have hassoc : acc * e * ds.prod = acc * (e * ds.prod) := by ring
    have hle : acc * e ≤ acc * e * ds.prod := by
      have := Int.mul_le_mul_of_nonneg_left (show 1 ≤ ds.prod by omega) (Int.le_of_lt hae)
      simpa using this
    have hw : imul acc e = acc * e := by
      unfold imul
      exact wrap_of_fits (by unfold INT_MIN; omega) (by omega)
    intro p hp2
    simp only [mul_steps, List.mem_cons] at hp2
    rcases hp2 with rfl | hp2
    · exact ⟨by omega, by omega⟩
    · rw [hw] at hp2
      have := ih (acc * e) hae hrest (by omega) p hp2
      exact ⟨this.1, by omega⟩

theorem chain_steps_bounds (ds : List Int) (hpos : ∀ e ∈ ds, 0 < e) (hP : ds.prod ≤ INT_MAX) :
    ∀ p ∈ chain_steps ds, 1 ≤ p ∧ p ≤ ds.prod := by
  cases ds with
  | nil => simp [chain_steps]
  | cons d ds =>
    rw [List.prod_cons] at hP ⊢
    exact mul_steps_bounds ds d (hpos d (List.mem_cons_self d ds))
      (fun c hc => hpos c (List.mem_cons_of_mem d hc)) hP

theorem new_steps_bounds (ds : List Int) (hpos : ∀ e ∈ ds, 0 < e) (hP : ds.prod ≤ INT_MAX) :
    ∀ p ∈ orca.new_steps ds, 1 ≤ p ∧ p ≤ ds.prod := by
  have htake : ∀ i, ∀ p ∈ chain_steps ((ds.take i).reverse), 1 ≤ p ∧ p ≤ ds.prod := by
    intro i p hp
    have hb := prod_take_le hpos i
    have := chain_steps_bounds ((ds.take i).reverse)
      (fun e he => hpos e (List.mem_of_mem_take (List.mem_reverse.1 he)))
      (by rw [List.prod_reverse]; omega) p hp
    rw [List.prod_reverse] at this
    exact ⟨this.1, by omega⟩
  have hdrop : ∀ i, ∀ p ∈ chain_steps (ds.drop i), 1 ≤ p ∧ p ≤ ds.prod := by
    intro i p hp
    have hb := prod_drop_le hpos i
    have := chain_steps_bounds (ds.drop i) (fun e he => hpos e (List.mem_of_mem_drop he))
      (by omega) p hp
    exact ⟨this.1, by omega⟩
  intro p hp
  unfold orca.new_steps at hp
  rcases List.mem_append.1 hp with h | h
  · split_ifs at h
    · rcases List.mem_append.1 h with h | h
      · obtain ⟨l, hl, hpl⟩ := List.mem_flatten.1 h
        obtain ⟨i, _, rfl⟩ := List.mem_map.1 hl
        exact htake i p hpl
      · obtain ⟨l, hl, hpl⟩ := List.mem_flatten.1 h
        obtain ⟨i, _, rfl⟩ := List.mem_map.1 hl
        exact hdrop (i + 1) p hpl
    · simp at h
  · exact chain_steps_bounds ds hpos hP p h

theorem sum_steps_bounds (ps : List (Int × Int)) (acc B : Int) (h0 : 0 ≤ acc)
    (hnn : ∀ p ∈ ps, 0 ≤ p.1 * p.2)
    (hB : acc + (ps.map (fun p => p.1 * p.2)).sum ≤ B) (hB2 : B ≤ INT_MAX) :
    ∀ t ∈ sum_steps acc ps, 0 ≤ t ∧ t ≤ B := by
  induction ps generalizing acc with
  | nil => simp [sum_steps]
  | cons q r ih =>
    obtain ⟨x, s⟩ := q
    have hq : 0 ≤ x * s := hnn (x, s) (List.mem_cons_self _ _)
    have hr : ∀ p ∈ r, 0 ≤ p.1 * p.2 := fun p hp => hnn p (List.mem_cons_of_mem _ hp)
    have hsum : 0 ≤ (r.map (fun p => p.1 * p.2)).sum := by
      apply List.sum_nonneg
      intro y hy
      obtain ⟨p, hp, rfl⟩ := List.mem_map.1 hy
      exact hr p hp
    simp only [List.map_cons, List.sum_cons] at hB
    have hw : imul x s = x * s := by
      unfold imul
      exact wrap_of_fits (by unfold INT_MIN; omega) (by omega)
    have hw2 : iadd acc (x * s) = acc + x * s := by
      unfold iadd
      exact wrap_of_fits (by unfold INT_MIN; omega) (by omega)
    intro t ht
    simp only [sum_steps, hw, hw2, List.mem_cons] at ht
    rcases ht with rfl | rfl | ht
    · exact ⟨hq, by omega⟩
    · exact ⟨by omega, by omega⟩
    · exact ih (acc + x * s) (by omega) hr (by omega) t ht

theorem expr_steps_bounds (ps : List (Int × Int)) (B : Int) (hnn : ∀ p ∈ ps, 0 ≤ p.1 * p.2)
    (hB : (ps.map (fun p => p.1 * p.2)).sum ≤ B) (hB2 : B ≤ INT_MAX) :
    ∀ t ∈ expr_steps ps, 0 ≤ t ∧ t ≤ B := by
  cases ps with
  | nil => simp [expr_steps]
  | cons q r =>
    obtain ⟨x, s⟩ := q
    have hq : 0 ≤ x * s := hnn (x, s) (List.mem_cons_self _ _)
    have hr : ∀ p ∈ r, 0 ≤ p.1 * p.2 := fun p hp => hnn p (List.mem_cons_of_mem _ hp)
    have hsum : 0 ≤ (r.map (fun p => p.1 * p.2)).sum := by
      apply List.sum_nonneg
      intro y hy
      obtain ⟨p, hp, rfl⟩ := List.mem_map.1 hy
      exact hr p hp
    simp only [List.map_cons, List.sum_cons] at hB
    have hw : imul x s = x * s := by
      unfold imul
      exact wrap_of_fits (by unfold INT_MIN; omega) (by omega)
    intro t ht
    simp only [expr_steps, hw, List.mem_cons] at ht
    rcases ht with rfl | ht
    · exact ⟨hq, by omega⟩
    · exact sum_steps_bounds r (x * s) B hq hr hB hB2 t ht

theorem list_eq_map_getD (xs : List Int) :
    xs = (List.range xs.length).map (fun i => xs.getD i 0) := by
  apply List.ext_getElem
  · simp
  · intro i h1 h2
    simp [List.getD_eq_getElem?_getD, List.getElem?_eq_getElem h1]

theorem in_range_nonneg {ds xs : List Int} (h : in_range ds xs) (i : Nat)
    (hi : i < ds.length) : 0 ≤ xs.getD i 0 := by
  by_contra hneg
  exact (not_in_range_iff ds xs (in_range_length h)).2 ⟨i, hi, Or.inl (by omega)⟩ h

/-- The terms of the subscript, for stored factors that are the exact strides:
each product is non-negative on coordinates within the extents and the
products add up to the nested offset. -/
theorem terms_facts {α : Type} (fo : Nat) (ds xs : List Int) (a : orca α)
    (hr : in_range ds xs)
    (hF : orca.F a = (List.range ds.length).map (fun i => stride 1 ds i))
    (hC : orca.C a = (List.range ds.length).map (fun i => stride 0 ds i)) :
    (∀ p ∈ orca.terms fo a xs, 0 ≤ p.1 * p.2) ∧
      ((orca.terms fo a xs).map (fun p => p.1 * p.2)).sum = offs fo ds xs := by
  have hpos := in_range_pos hr
  have hlen := in_range_length hr
  have hx : xs = (List.range ds.length).map (fun i => xs.getD i 0) := by
    rw [← hlen]; exact list_eq_map_getD xs
  have hnn : ∀ (g : Nat) (i : Nat), i < ds.length → 0 ≤ xs.getD i 0 * stride g ds i := by
    intro g i hi
    exact Int.mul_nonneg (in_range_nonneg hr i hi) (Int.le_of_lt (stride_bounds g hpos i).1)
  rw [← linear_index_eq_offs fo ds xs hlen.symm]
  by_cases hfo : fo = 1
  · subst hfo
    have key : orca.terms 1 a xs =
        (List.range ds.length).reverse.map (fun i => (xs.getD i 0, stride 1 ds i)) := by
      simp only [orca.terms, if_true, hF]
      nth_rewrite 1 [hx]
      rw [← List.map_reverse, ← List.map_reverse, List.zip_map']
    rw [key]
    constructor
    · intro p hp
      obtain ⟨i, hi, rfl⟩ := List.mem_map.1 hp
      exact hnn 1 i (List.mem_range.1 (List.mem_reverse.1 hi))
    · rw [List.map_map, List.map_reverse, List.sum_reverse]
      rfl
  · have key : orca.terms fo a xs =
        (List.range ds.length).map (fun i => (xs.getD i 0, stride 0 ds i)) := by
      simp only [orca.terms, hfo, if_false, hC]
      nth_rewrite 1 [hx]
      rw [List.zip_map']
    have hs : ∀ i, stride fo ds i = stride 0 ds i := by
      intro i; simp [stride, hfo]
    rw [key]
    constructor
    · intro p hp
      obtain ⟨i, hi, rfl⟩ := List.mem_map.1 hp
      exact hnn 0 i (List.mem_range.1 hi)
    · rw [List.map_map]
      unfold linear_index
      simp only [hs]
      rfl

theorem at_steps_of_rank {α : Type} (fo : Nat) (a : orca α) (xs : List Int)
    (h : 3 ≤ (orca.lengths a).length) :
    orca.at_steps fo a xs = expr_steps (orca.terms fo a xs) := by
  cases a <;> first
    | rfl
    | (simp [orca.lengths] at h)

theorem at_eq_expr_eval {α : Type} (fo : Nat) (a : orca α) (xs : List Int)
    (h : 3 ≤ (orca.lengths a).length) (hlen : xs.length = (orca.lengths a).length) :
    orca.at 0 fo a xs = some (.ok (expr_eval (orca.terms fo a xs))) := by
  cases a <;>
    rcases xs with _ | ⟨x1, _ | ⟨x2, _ | ⟨x3, _ | ⟨x4, _ | ⟨x5, _ | ⟨x6, _ | ⟨x7, _ | ⟨x8, xs⟩⟩⟩⟩⟩⟩⟩⟩ <;>
    simp [orca.lengths] at hlen h
  all_goals
    by_cases hfo : fo = 1 <;>
      simp [orca.at, array3d.at, array4d.at, array5d.at, array6d.at, array7d.at, orca.terms,
        orca.F, orca.C, expr_eval, hfo]

theorem low_rank_no_factors {α : Type} (a : orca α) (h : (orca.lengths a).length < 3) :
    orca.F a = [] ∧ orca.C a = [] := by
  cases a <;> first
    | exact ⟨rfl, rfl⟩
    | (simp [orca.lengths] at h)

theorem factors_exact {α : Type} (ds : List Int) (init : α) (a : orca α)
    (hnew : orca.new ds init = some (.ok a)) (h3 : 3 ≤ ds.length) (hP : ds.prod ≤ INT_MAX) :
    orca.F a = (List.range ds.length).map (fun i => stride 1 ds i) ∧
      orca.C a = (List.range ds.length).map (fun i => stride 0 ds i) := by
  obtain ⟨_, hhi, hpos⟩ := new_ok_inv ds init a hnew
  obtain ⟨b, hb, hF, hC⟩ := new_factors ds init h3 hhi hpos
  have hab : a = b := by
    rw [hnew] at hb
    injection hb with hb
    injection hb
  subst hab
  constructor
  · rw [hF]
    apply List.map_congr_left
    intro i _
    exact alloc_count_take hpos hP i
  · rw [hC]
    apply List.map_congr_left
    intro i _
    exact alloc_count_drop hpos hP i

theorem at_steps_bounds {α : Type} (fo : Nat) (ds xs : List Int) (init : α) (a : orca α)
    (hnew : orca.new ds init = some (.ok a)) (hl : orca.lengths a = ds)
    (hP : ds.prod ≤ INT_MAX) (hr : in_range ds xs) :
    ∀ t ∈ orca.at_steps fo a xs, 0 ≤ t ∧ t ≤ ds.prod - 1 := by
  have hb := offs_bounds fo hr
  by_cases h3 : 3 ≤ ds.length
  · obtain ⟨hF, hC⟩ := factors_exact ds init a hnew h3 hP
    obtain ⟨hnn, hsum⟩ := terms_facts fo ds xs a hr hF hC
    rw [at_steps_of_rank fo a xs (by rw [hl]; exact h3)]
    exact expr_steps_bounds _ _ hnn (by rw [hsum]; omega) (by omega)
  · cases a with
    | rank1 a => intro t ht; simp [orca.at_steps] at ht
    | rank2 a =>
      have hds : ds = [a.size1, a.size2] := hl.symm
      subst hds
      unfold in_range at hr
      cases hr with
      | @cons _ x1 _ xs1 h1 hr1 =>
        cases hr1 with
        | @cons _ x2 _ xs2 h2 hr2 =>
          cases hr2
          have e1 := Int.mul_nonneg h1.1 (show (0 : Int) ≤ a.size2 by omega)
          have e2 := Int.mul_nonneg h2.1 (show (0 : Int) ≤ a.size1 by omega)
          have e3 : a.size1 * x2 = x2 * a.size1 := mul_comm _ _
          simp only [List.prod_cons, List.prod_nil, mul_one] at hP ⊢
          by_cases hfo : fo = 1
          · simp only [offs, hfo, if_true, col_major, List.prod_cons, List.prod_nil, mul_one,
              mul_zero, add_zero] at hb
            have hw : imul x2 a.size1 = x2 * a.size1 := by
              unfold imul
              exact wrap_of_fits (by unfold INT_MIN; omega) (by omega)
            intro t ht
            simp only [orca.at_steps, hfo, if_true, hw, List.mem_cons, List.mem_singleton,
              List.not_mem_nil, or_false] at ht
            rcases ht with rfl | rfl <;> constructor <;> omega
          · simp only [offs, hfo, if_false, row_major, List.prod_cons, List.prod_nil, mul_one,
              mul_zero, add_zero] at hb
            have hw : imul x1 a.size2 = x1 * a.size2 := by
              unfold imul
              exact wrap_of_fits (by unfold INT_MIN; omega) (by omega)
            intro t ht
            simp only [orca.at_steps, hfo, if_false, hw, List.mem_cons, List.mem_singleton,
              List.not_mem_nil, or_false] at ht
            rcases ht with rfl | rfl <;> constructor <;> omega
    | rank3 a => exact absurd (by rw [← hl]; simp [orca.lengths]) h3
    | rank4 a => exact absurd (by rw [← hl]; simp [orca.lengths]) h3
    | rank5 a => exact absurd (by rw [← hl]; simp [orca.lengths]) h3
    | rank6 a => exact absurd (by rw [← hl]; simp [orca.lengths]) h3
    | rank7 a => exact absurd (by rw [← hl]; simp [orca.lengths]) h3

/-- C15. For every rank 1..7 and positive extents whose product `P` is at most
2^31 - 1, no signed 32-bit overflow occurs: every stored factor `F_i`, `C_i`
and every product the constructor computes lies in `[1, P]`, and for every
coordinate tuple within the extents every term `x_i * stride_i` and every
partial sum of the subscript of `at` lies in `[0, P - 1]`, in both layouts
(for ranks 3 to 7 the subscript is the `int` value of these terms). -/
theorem arithmetic_stays_in_range {α : Type} (ds : List Int) (init : α) (hlo : 1 ≤ ds.length)
    (hhi : ds.length ≤ 7) (hpos : ∀ d ∈ ds, 0 < d) (hP : ds.prod ≤ INT_MAX) :
    ∃ a, orca.new ds init = some (.ok a) ∧
      (∀ f ∈ orca.F a, 1 ≤ f ∧ f ≤ ds.prod) ∧
      (∀ c ∈ orca.C a, 1 ≤ c ∧ c ≤ ds.prod) ∧
      (∀ p ∈ orca.new_steps ds, 1 ≤ p ∧ p ≤ ds.prod) ∧
      ∀ (FORTRAN_ORDER : Nat) (xs : List Int), in_range ds xs →
        (∀ t ∈ orca.at_steps FORTRAN_ORDER a xs, 0 ≤ t ∧ t ≤ ds.prod - 1) ∧
        (3 ≤ ds.length → orca.at 0 FORTRAN_ORDER a xs =
          some (.ok (expr_eval (orca.terms FORTRAN_ORDER a xs)))) := by
  obtain ⟨a, hnew, hl, _⟩ := new_facts ds init hlo hhi hpos
  have hfac : (∀ f ∈ orca.F a, 1 ≤ f ∧ f ≤ ds.prod) ∧ (∀ c ∈ orca.C a, 1 ≤ c ∧ c ≤ ds.prod) := by
    by_cases h3 : 3 ≤ ds.length
    · obtain ⟨hF, hC⟩ := factors_exact ds init a hnew h3 hP
      rw [hF, hC]
      constructor
      · intro f hf
        obtain ⟨i, _, rfl⟩ := List.mem_map.1 hf
        have := stride_bounds 1 hpos i
        exact ⟨by omega, this.2⟩
      · intro c hc
        obtain ⟨i, _, rfl⟩ := List.mem_map.1 hc
        have := stride_bounds 0 hpos i
        exact ⟨by omega, this.2⟩
    · obtain ⟨hF, hC⟩ := low_rank_no_factors a (by rw [hl]; omega)
      rw [hF, hC]
      simp
  refine ⟨a, hnew, hfac.1, hfac.2, new_steps_bounds ds hpos hP, ?_⟩
  intro fo xs hr
  refine ⟨at_steps_bounds fo ds xs init a hnew hl hP hr, ?_⟩
  intro h3
  exact at_eq_expr_eval fo a xs (by rw [hl]; exact h3) (by rw [hl]; exact in_range_length hr)

theorem arithmetic_stays_in_range_witness :
    ∃ a, orca.new [2, 3, 4] (0 : Nat) = some (.ok a) ∧
      (∀ f ∈ orca.F a, 1 ≤ f ∧ f ≤ [2, 3, 4].prod) ∧
      (∀ c ∈ orca.C a, 1 ≤ c ∧ c ≤ [2, 3, 4].prod) ∧
      (∀ p ∈ orca.new_steps [2, 3, 4], 1 ≤ p ∧ p ≤ [2, 3, 4].prod) ∧
      ∀ (FORTRAN_ORDER : Nat) (xs : List Int), in_range [2, 3, 4] xs →
        (∀ t ∈ orca.at_steps FORTRAN_ORDER a xs, 0 ≤ t ∧ t ≤ [2, 3, 4].prod - 1) ∧
        (3 ≤ [2, 3, 4].length → orca.at 0 FORTRAN_ORDER a xs =
          some (.ok (expr_eval (orca.terms FORTRAN_ORDER a xs)))) :=
  arithmetic_stays_in_range [2, 3, 4] 0 (by decide) (by decide) (by decide) (by decide)

/-! ## Offsets of related tuples -/

/-- The subscript unchecked `at` computes on the constructed array: the nested
offset itself for rank 1 (no arithmetic), its 32-bit reduction for ranks 2 to
7. -/
theorem new_at_wrap {α : Type} (ds : List Int) (init : α) (hlo : 1 ≤ ds.length)
    (hhi : ds.length ≤ 7) (hpos : ∀ d ∈ ds, 0 < d) :
    ∃ a, orca.new ds init = some (.ok a) ∧
      ∀ fo xs, xs.length = ds.length →
        orca.at 0 fo a xs =
          some (.ok (if ds.length = 1 then offs fo ds xs else wrap (offs fo ds xs))) := by
  rcases ds with _ | ⟨d1, _ | ⟨d2, _ | ⟨d3, _ | ⟨d4, _ | ⟨d5, _ | ⟨d6, _ | ⟨d7, _ | ⟨d8, ds⟩⟩⟩⟩⟩⟩⟩⟩
  · simp at hlo
  · -- array1d
    have h1 : 0 < d1 := by simpa using hpos
    refine ⟨.rank1 { size1 := d1, internal_array := new_array d1 init }, ?_, ?_⟩
    · simp [orca.new, array1d.array1d, Except.map, not_le.2 h1]
    · intro fo xs hlen
      rcases xs with _ | ⟨x1, _ | ⟨x2, xs⟩⟩ <;> simp at hlen
      simp [orca.at, array1d.at, offs, row_major, col_major]
  · -- array2d
    obtain ⟨h1, h2⟩ : 0 < d1 ∧ 0 < d2 := by simpa using hpos
    refine ⟨.rank2 { size1 := d1, size2 := d2, internal_array := new_array (imul d1 d2) init }, ?_, ?_⟩
    · simp [orca.new, array2d.array2d, Except.map, not_le.2 h1, not_le.2 h2]
    · intro fo xs hlen
      rcases xs with _ | ⟨x1, _ | ⟨x2, _ | ⟨x3, xs⟩⟩⟩ <;> simp at hlen
      by_cases hfo : fo = 1 <;>
        simp [orca.at, array2d.at, offs, row_major, col_major, imul, iadd, hfo] <;>
        apply congrArg wrap <;> ring
  · -- array3d
    obtain ⟨h1, h2, h3⟩ : 0 < d1 ∧ 0 < d2 ∧ 0 < d3 := by simpa using hpos
    refine ⟨.rank3 { size1 := d1, size2 := d2, size3 := d3, internal_array := new_array (imul (imul d1 d2) d3) init, F1 := 1, F2 := d1, F3 := imul d2 d1, C1 := imul d2 d3, C2 := d3, C3 := 1 }, ?_, ?_⟩
    · simp [orca.new, array3d.array3d, Except.map, not_le.2 h1, not_le.2 h2, not_le.2 h3]
    · intro fo xs hlen
      rcases xs with _ | ⟨x1, _ | ⟨x2, _ | ⟨x3, _ | ⟨x4, xs⟩⟩⟩⟩ <;> simp at hlen
      by_cases hfo : fo = 1 <;>
        simp [orca.at, array3d.at, offs, row_major, col_major, imul, iadd, hfo] <;>
        apply congrArg wrap <;> ring
  · -- array4d
    obtain ⟨h1, h2, h3, h4⟩ : 0 < d1 ∧ 0 < d2 ∧ 0 < d3 ∧ 0 < d4 := by simpa using hpos
    refine ⟨.rank4 { size1 := d1, size2 := d2, size3 := d3, size4 := d4, internal_array := new_array (imul (imul (imul d1 d2) d3) d4) init, F1 := 1, F2 := d1, F3 := imul d2 d1, F4 := imul (imul d3 d2) d1, C1 := imul (imul d2 d3) d4, C2 := imul d3 d4, C3 := d4, C4 := 1 }, ?_, ?_⟩
    · simp [orca.new, array4d.array4d, Except.map, not_le.2 h1, not_le.2 h2, not_le.2 h3, not_le.2 h4]
    · intro fo xs hlen
      rcases xs with _ | ⟨x1, _ | ⟨x2, _ | ⟨x3, _ | ⟨x4, _ | ⟨x5, xs⟩⟩⟩⟩⟩ <;> simp at hlen
      by_cases hfo : fo = 1 <;>
        simp [orca.at, array4d.at, offs, row_major, col_major, imul, iadd, hfo] <;>
        apply congrArg wrap <;> ring
  · -- array5d
    obtain ⟨h1, h2, h3, h4, h5⟩ : 0 < d1 ∧ 0 < d2 ∧ 0 < d3 ∧ 0 < d4 ∧ 0 < d5 := by simpa using hpos
    refine ⟨.rank5 { size1 := d1, size2 := d2, size3 := d3, size4 := d4, size5 := d5, internal_array := new_array (imul (imul (imul (imul d1 d2) d3) d4) d5) init, F1 := 1, F2 := d1, F3 := imul d2 d1, F4 := imul (imul d3 d2) d1, F5 := imul (imul (imul d4 d3) d2) d1, C1 := imul (imul (imul d2 d3) d4) d5, C2 := imul (imul d3 d4) d5, C3 := imul d4 d5, C4 := d5, C5 := 1 }, ?_, ?_⟩
    · simp [orca.new, array5d.array5d, Except.map, not_le.2 h1, not_le.2 h2, not_le.2 h3, not_le.2 h4, not_le.2 h5]
    · intro fo xs hlen
      rcases xs with _ | ⟨x1, _ | ⟨x2, _ | ⟨x3, _ | ⟨x4, _ | ⟨x5, _ | ⟨x6, xs⟩⟩⟩⟩⟩⟩ <;> simp at hlen
      by_cases hfo : fo = 1 <;>
        simp [orca.at, array5d.at, offs, row_major, col_major, imul, iadd, hfo] <;>
        apply congrArg wrap <;> ring
  · -- array6d
    obtain ⟨h1, h2, h3, h4, h5, h6⟩ : 0 < d1 ∧ 0 < d2 ∧ 0 < d3 ∧ 0 < d4 ∧ 0 < d5 ∧ 0 < d6 := by simpa using hpos
    refine ⟨.rank6 { size1 := d1, size2 := d2, size3 := d3, size4 := d4, size5 := d5, size6 := d6, internal_array := new_array (imul (imul (imul (imul (imul d1 d2) d3) d4) d5) d6) init, F1 := 1, F2 := d1, F3 := imul d2 d1, F4 := imul (imul d3 d2) d1, F5 := imul (imul (imul d4 d3) d2) d1, F6 := imul (imul (imul (imul d5 d4) d3) d2) d1, C1 := imul (imul (imul (imul d2 d3) d4) d5) d6, C2 := imul (imul (imul d3 d4) d5) d6, C3 := imul (imul d4 d5) d6, C4 := imul d5 d6, C5 := d6, C6 := 1 }, ?_, ?_⟩
    · simp [orca.new, array6d.array6d, Except.map, not_le.2 h1, not_le.2 h2, not_le.2 h3, not_le.2 h4, not_le.2 h5, not_le.2 h6]
    · intro fo xs hlen
      rcases xs with _ | ⟨x1, _ | ⟨x2, _ | ⟨x3, _ | ⟨x4, _ | ⟨x5, _ | ⟨x6, _ | ⟨x7, xs⟩⟩⟩⟩⟩⟩⟩ <;> simp at hlen
      by_cases hfo : fo = 1 <;>
        simp [orca.at, array6d.at, offs, row_major, col_major, imul, iadd, hfo] <;>
        apply congrArg wrap <;> ring
  · -- array7d
    obtain ⟨h1, h2, h3, h4, h5, h6, h7⟩ : 0 < d1 ∧ 0 < d2 ∧ 0 < d3 ∧ 0 < d4 ∧ 0 < d5 ∧ 0 < d6 ∧ 0 < d7 := by simpa using hpos
    refine ⟨.rank7 { size1 := d1, size2 := d2, size3 := d3, size4 := d4, size5 := d5, size6 := d6, size7 := d7, internal_array := new_array (imul (imul (imul (imul (imul (imul d1 d2) d3) d4) d5) d6) d7) init, F1 := 1, F2 := d1, F3 := imul d2 d1, F4 := imul (imul d3 d2) d1, F5 := imul (imul (imul d4 d3) d2) d1, F6 := imul (imul (imul (imul d5 d4) d3) d2) d1, F7 := imul (imul (imul (imul (imul d6 d5) d4) d3) d2) d1, C1 := imul (imul (imul (imul (imul d2 d3) d4) d5) d6) d7, C2 := imul (imul (imul (imul d3 d4) d5) d6) d7, C3 := imul (imul (imul d4 d5) d6) d7, C4 := imul (imul d5 d6) d7, C5 := imul d6 d7, C6 := d7, C7 := 1 }, ?_, ?_⟩
    · simp [orca.new, array7d.array7d, Except.map, not_le.2 h1, not_le.2 h2, not_le.2 h3, not_le.2 h4, not_le.2 h5, not_le.2 h6, not_le.2 h7]
    · intro fo xs hlen
      rcases xs with _ | ⟨x1, _ | ⟨x2, _ | ⟨x3, _ | ⟨x4, _ | ⟨x5, _ | ⟨x6, _ | ⟨x7, _ | ⟨x8, xs⟩⟩⟩⟩⟩⟩⟩⟩ <;> simp at hlen
      by_cases hfo : fo = 1 <;>
        simp [orca.at, array7d.at, offs, row_major, col_major, imul, iadd, hfo] <;>
        apply congrArg wrap <;> ring
  · simp at hhi

theorem offs_bump (fo : Nat) (ds pre : List Int) (x : Int) (post : List Int)
    (hlen : ds.length = (pre ++ x :: post).length) :
    offs fo ds (pre ++ (x + 1) :: post) = offs fo ds (pre ++ x :: post) + stride fo ds pre.length := by
  unfold offs stride
  split
  · induction pre generalizing ds with
    | nil =>
      cases ds with
      | nil => simp at hlen
      | cons d ds => simp [col_major]; ring
    | cons p pre ih =>
      cases ds with
      | nil => simp at hlen
      | cons d ds =>
        have hl : ds.length = (pre ++ x :: post).length := by simpa using hlen
        simp only [List.cons_append, col_major, List.length_cons, List.take_succ_cons,
          List.prod_cons, List.append_eq]
        rw [ih ds hl]
        ring
  · induction pre generalizing ds with
    | nil =>
      cases ds with
      | nil => simp at hlen
      | cons d ds => simp [row_major]; ring
    | cons p pre ih =>
      cases ds with
      | nil => simp at hlen
      | cons d ds =>
        have hl : ds.length = (pre ++ x :: post).length := by simpa using hlen
        simp only [List.cons_append, row_major, List.length_cons, List.drop_succ_cons,
          List.append_eq]
        rw [ih ds hl]
        ring

theorem stride_last (fo : Nat) (ds : List Int) (h1 : fo ≠ 1) (hlo : 1 ≤ ds.length) :
    stride fo ds (ds.length - 1) = 1 := by
  have : ds.length - 1 + 1 = ds.length := by omega
  simp [stride, h1, this]

theorem stride_first (ds : List Int) : stride 1 ds 0 = 1 := by
  simp [stride]

/-- The subscript of unchecked `at` is the worded sum whenever the sum is
representable as an `int`. -/
theorem new_at_of_fits {α : Type} (ds : List Int) (init : α) (hlo : 1 ≤ ds.length)
    (hhi : ds.length ≤ 7) (hpos : ∀ d ∈ ds, 0 < d) :
    ∃ a, orca.new ds init = some (.ok a) ∧
      ∀ fo xs, xs.length = ds.length → INT_MIN ≤ offs fo ds xs → offs fo ds xs ≤ INT_MAX →
        orca.at 0 fo a xs = some (.ok (offs fo ds xs)) := by
  obtain ⟨a, hnew, hat⟩ := new_at_wrap ds init hlo hhi hpos
  refine ⟨a, hnew, ?_⟩
  intro fo xs hlen h1 h2
  rw [hat fo xs hlen, wrap_of_fits h1 h2]
  simp

/-- C21 (as amended). Fastest-varying axis: for every rank 1..7, positive
extents and integer coordinates, increasing `x_i` by 1 increases the offset of
unchecked `at` by exactly the stride of axis `i` (the product of the extents
after axis `i` in C order, before axis `i` in Fortran order), whenever the
offsets before and after are representable as a 32-bit `int`; the stride is 1
for the last axis in C order and for the first axis in Fortran order. -/
theorem bump_coordinate_adds_stride {α : Type} (FORTRAN_ORDER : Nat) (ds pre : List Int)
    (x : Int) (post : List Int) (init : α) (hlo : 1 ≤ ds.length) (hhi : ds.length ≤ 7)
    (hpos : ∀ d ∈ ds, 0 < d) (hlen : (pre ++ x :: post).length = ds.length)
    (hfit : INT_MIN ≤ linear_index FORTRAN_ORDER ds (pre ++ x :: post) ∧
      linear_index FORTRAN_ORDER ds (pre ++ x :: post) ≤ INT_MAX)
    (hfit2 : INT_MIN ≤ linear_index FORTRAN_ORDER ds (pre ++ (x + 1) :: post) ∧
      linear_index FORTRAN_ORDER ds (pre ++ (x + 1) :: post) ≤ INT_MAX) :
    ∃ a k, orca.new ds init = some (.ok a) ∧
      orca.at 0 FORTRAN_ORDER a (pre ++ x :: post) = some (.ok k) ∧
      orca.at 0 FORTRAN_ORDER a (pre ++ (x + 1) :: post) =
        some (.ok (k + stride FORTRAN_ORDER ds pre.length)) ∧
      (FORTRAN_ORDER ≠ 1 → post = [] → stride FORTRAN_ORDER ds pre.length = 1) ∧
      (FORTRAN_ORDER = 1 → pre = [] → stride FORTRAN_ORDER ds pre.length = 1) ∧
      (3 ≤ ds.length → ds.prod ≤ INT_MAX →
        (if FORTRAN_ORDER = 1 then orca.F a else orca.C a).getD pre.length 0 =
          stride FORTRAN_ORDER ds pre.length) := by
  obtain ⟨a, hnew, hat⟩ := new_at_of_fits ds init hlo hhi hpos
  have hlen2 : (pre ++ (x + 1) :: post).length = ds.length := by simpa using hlen
  rw [linear_index_eq_offs _ _ _ hlen.symm] at hfit
  rw [linear_index_eq_offs _ _ _ hlen2.symm] at hfit2
  have hi : pre.length < ds.length := by simp at hlen; omega
  refine ⟨a, offs FORTRAN_ORDER ds (pre ++ x :: post), hnew,
    hat _ _ hlen hfit.1 hfit.2, ?_, ?_, ?_, ?_⟩
  · rw [hat _ _ hlen2 hfit2.1 hfit2.2, offs_bump FORTRAN_ORDER ds pre x post hlen.symm]
  · intro h1 hp
    subst hp
    have : pre.length = ds.length - 1 := by simp at hlen; omega
    rw [this]
    exact stride_last FORTRAN_ORDER ds h1 hlo
  · intro h1 hp
    subst hp; subst h1
    exact stride_first ds
  · intro h3 hP
    obtain ⟨hF, hC⟩ := factors_exact ds init a hnew h3 hP
    split
    · rename_i h1
      subst h1
      rw [hF]
      simp [List.getD_eq_getElem?_getD, List.getElem?_range hi, hi]
    · rename_i h1
      rw [hC]
      simp [List.getD_eq_getElem?_getD, List.getElem?_range hi, hi, stride, h1]

theorem bump_coordinate_adds_stride_witness :
    ∃ a k, orca.new [2, 3, 4] (0 : Nat) = some (.ok a) ∧
      orca.at 0 0 a ([1] ++ 5 :: [2]) = some (.ok k) ∧
      orca.at 0 0 a ([1] ++ (5 + 1) :: [2]) = some (.ok (k + stride 0 [2, 3, 4] [1].length)) ∧
      ((0 : Nat) ≠ 1 → [2] = ([] : List Int) → stride 0 [2, 3, 4] [1].length = 1) ∧
      ((0 : Nat) = 1 → [1] = ([] : List Int) → stride 0 [2, 3, 4] [1].length = 1) ∧
      (3 ≤ [2, 3, 4].length → ([2, 3, 4] : List Int).prod ≤ INT_MAX →
        (if (0 : Nat) = 1 then orca.F a else orca.C a).getD [1].length 0 =
          stride 0 [2, 3, 4] [1].length) :=
  bump_coordinate_adds_stride 0 [2, 3, 4] [1] 5 [2] 0 (by decide) (by decide) (by decide)
    (by decide) (by decide) (by decide)

/-- C21 refuted as stated: in the 1 x 2 array, C order, the coordinates
(2^30 - 1, 1) have offset 2^31 - 1; increasing the last coordinate by 1 gives
offset -2^31, not 2^31 - 1 + 1. -/
theorem bump_coordinate_adds_stride_overflow :
    ∃ a, orca.new [1, 2] (0 : Nat) = some (.ok a) ∧
      orca.at 0 0 a [1073741823, 1] = some (.ok 2147483647) ∧
      orca.at 0 0 a [1073741823, 1 + 1] = some (.ok (-2147483648)) ∧
      orca.at 0 0 a [1073741823, 1 + 1] ≠ some (.ok (2147483647 + 1)) :=
  ⟨_, rfl, by decide, by decide, by decide⟩

theorem row_major_spill (dpre xpre : List Int) (dm dn xm : Int)
    (hlen : xpre.length = dpre.length) :
    row_major (dpre ++ [dm, dn]) (xpre ++ [xm, dn]) =
      row_major (dpre ++ [dm, dn]) (xpre ++ [xm + 1, 0]) := by
  induction dpre generalizing xpre with
  | nil =>
    cases xpre with
    | nil => simp [row_major]; ring
    | cons x xs => simp at hlen
  | cons d ds ih =>
    cases xpre with
    | nil => simp at hlen
    | cons x xs =>
      have hl : xs.length = ds.length := by simpa using hlen
      simp only [List.cons_append, row_major, List.append_eq]
      rw [ih xs hl]

theorem col_major_spill (d1 d2 x2 : Int) (dpost xpost : List Int) :
    col_major (d1 :: d2 :: dpost) (d1 :: x2 :: xpost) =
      col_major (d1 :: d2 :: dpost) (0 :: (x2 + 1) :: xpost) := by
  simp only [col_major]
  ring

theorem in_range_append {ds1 xs1 ds2 xs2 : List Int} (h1 : in_range ds1 xs1)
    (h2 : in_range ds2 xs2) : in_range (ds1 ++ ds2) (xs1 ++ xs2) := by
  unfold in_range at *
  induction h1 with
  | nil => exact h2
  | cons h _ ih => exact List.Forall₂.cons h ih

theorem in_range_append_inv {ds1 xs1 ds2 xs2 : List Int} (hlen : xs1.length = ds1.length)
    (h : in_range (ds1 ++ ds2) (xs1 ++ xs2)) : in_range ds2 xs2 := by
  induction ds1 generalizing xs1 with
  | nil =>
    cases xs1 with
    | nil => exact h
    | cons x xs => simp at hlen
  | cons d ds ih =>
    cases xs1 with
    | nil => simp at hlen
    | cons x xs =>
      have hl : xs.length = ds.length := by simpa using hlen
      unfold in_range at h
      cases h with
      | cons _ h2 => exact ih hl h2

/-- C22. Unchecked-mode aliasing: for every rank 2..7 and positive extents, in
C order the out-of-range tuple `(x1, .., x_(N-1), extents[N])`, with the other
coordinates in range and `x_(N-1) + 1 < extents[N-1]`, gets the same offset as
the valid tuple `(x1, .., x_(N-1) + 1, 0)`; in Fortran order
`(extents[1], x2, .., xN)` with `x2 + 1 < extents[2]` gets the same offset as
the valid tuple `(0, x2 + 1, .., xN)`. -/
theorem unchecked_out_of_range_aliases {α : Type} (init : α) :
    (∀ (dpre xpre : List Int) (dm dn xm : Int), (dpre ++ [dm, dn]).length ≤ 7 →
      (∀ d ∈ dpre ++ [dm, dn], 0 < d) → in_range dpre xpre → 0 ≤ xm → xm + 1 < dm →
      ∃ a, orca.new (dpre ++ [dm, dn]) init = some (.ok a) ∧
        orca.at 0 0 a (xpre ++ [xm, dn]) = orca.at 0 0 a (xpre ++ [xm + 1, 0]) ∧
        (∃ k, orca.at 0 0 a (xpre ++ [xm, dn]) = some (.ok k)) ∧
        in_range (dpre ++ [dm, dn]) (xpre ++ [xm + 1, 0]) ∧
        ¬ in_range (dpre ++ [dm, dn]) (xpre ++ [xm, dn])) ∧
    (∀ (d1 d2 x2 : Int) (dpost xpost : List Int), (d1 :: d2 :: dpost).length ≤ 7 →
      (∀ d ∈ d1 :: d2 :: dpost, 0 < d) → in_range dpost xpost → 0 ≤ x2 → x2 + 1 < d2 →
      ∃ a, orca.new (d1 :: d2 :: dpost) init = some (.ok a) ∧
        orca.at 0 1 a (d1 :: x2 :: xpost) = orca.at 0 1 a (0 :: (x2 + 1) :: xpost) ∧
        (∃ k, orca.at 0 1 a (d1 :: x2 :: xpost) = some (.ok k)) ∧
        in_range (d1 :: d2 :: dpost) (0 :: (x2 + 1) :: xpost) ∧
        ¬ in_range (d1 :: d2 :: dpost) (d1 :: x2 :: xpost)) := by
  constructor
  · intro dpre xpre dm dn xm hhi hpos hr h0 h1
    have hlen := in_range_length hr
    obtain ⟨a, hnew, hat⟩ := new_at_wrap (dpre ++ [dm, dn]) init (by simp) hhi hpos
    have hdn : 0 < dn := hpos dn (by simp)
    refine ⟨a, hnew, ?_, ⟨_, hat 0 _ (by simp [hlen])⟩, ?_, ?_⟩
    · rw [hat 0 _ (by simp [hlen]), hat 0 _ (by simp [hlen])]
      simp only [offs, zero_ne_one, if_false, row_major_spill dpre xpre dm dn xm hlen]
    · exact in_range_append hr
        (List.Forall₂.cons ⟨by omega, by omega⟩
          (List.Forall₂.cons ⟨le_refl 0, hdn⟩ List.Forall₂.nil))
    · intro hin
      have h2 := in_range_append_inv hlen hin
      unfold in_range at h2
      cases h2 with
      | cons _ h3 =>
        cases h3 with
        | cons h4 _ => omega
  · intro d1 d2 x2 dpost xpost hhi hpos hr h0 h1
    have hlen := in_range_length hr
    obtain ⟨a, hnew, hat⟩ := new_at_wrap (d1 :: d2 :: dpost) init (by simp) hhi hpos
    have hd1 : 0 < d1 := hpos d1 (by simp)
    refine ⟨a, hnew, ?_, ⟨_, hat 1 _ (by simp [hlen])⟩, ?_, ?_⟩
    · rw [hat 1 _ (by simp [hlen]), hat 1 _ (by simp [hlen])]
      simp only [offs, if_true, col_major_spill d1 d2 x2 dpost xpost]
    · exact List.Forall₂.cons ⟨le_refl 0, hd1⟩ (List.Forall₂.cons ⟨by omega, by omega⟩ hr)
    · intro hin
      unfold in_range at hin
      cases hin with
      | cons h _ => omega

theorem unchecked_out_of_range_aliases_witness :
    (∃ a, orca.new ([2] ++ [3, 4]) (0 : Nat) = some (.ok a) ∧
        orca.at 0 0 a ([1] ++ [1, 4]) = orca.at 0 0 a ([1] ++ [1 + 1, 0]) ∧
        (∃ k, orca.at 0 0 a ([1] ++ [1, 4]) = some (.ok k)) ∧
        in_range ([2] ++ [3, 4]) ([1] ++ [1 + 1, 0]) ∧
        ¬ in_range ([2] ++ [3, 4]) ([1] ++ [1, 4])) ∧
    (∃ a, orca.new (2 :: 3 :: [4]) (0 : Nat) = some (.ok a) ∧
        orca.at 0 1 a (2 :: 1 :: [3]) = orca.at 0 1 a (0 :: (1 + 1) :: [3]) ∧
        (∃ k, orca.at 0 1 a (2 :: 1 :: [3]) = some (.ok k)) ∧
        in_range (2 :: 3 :: [4]) (0 :: (1 + 1) :: [3]) ∧
        ¬ in_range (2 :: 3 :: [4]) (2 :: 1 :: [3])) :=
  ⟨(unchecked_out_of_range_aliases (0 : Nat)).1 [2] [1] 3 4 1 (by decide) (by decide)
      (List.Forall₂.cons (by decide) List.Forall₂.nil) (by decide) (by decide),
    (unchecked_out_of_range_aliases (0 : Nat)).2 2 3 1 [4] [3] (by decide) (by decide)
      (List.Forall₂.cons (by decide) List.Forall₂.nil) (by decide) (by decide)⟩

theorem col_major_append (ds xs : List Int) (d x : Int) (hlen : xs.length = ds.length) :
    col_major (ds ++ [d]) (xs ++ [x]) = col_major ds xs + ds.prod * x := by
  induction ds generalizing xs with
  | nil =>
    cases xs with
    | nil => simp [col_major]
    | cons y ys => simp at hlen
  | cons e ds ih =>
    cases xs with
    | nil => simp at hlen
    | cons y ys =>
      have hl : ys.length = ds.length := by simpa using hlen
      simp only [List.cons_append, col_major, List.append_eq, List.prod_cons]
      rw [ih ys hl]
      ring

theorem row_major_append (ds xs : List Int) (d x : Int) (hlen : xs.length = ds.length) :
    row_major (ds ++ [d]) (xs ++ [x]) = row_major ds xs * d + x := by
  induction ds generalizing xs with
  | nil =>
    cases xs with
    | nil => simp [row_major]
    | cons y ys => simp at hlen
  | cons e ds ih =>
    cases xs with
    | nil => simp at hlen
    | cons y ys =>
      have hl : ys.length = ds.length := by simpa using hlen
      simp only [List.cons_append, row_major, List.append_eq, List.prod_append, List.prod_cons,
        List.prod_nil, mul_one]
      rw [ih ys hl]
      ring

theorem row_major_eq_col_major_reverse (ds xs : List Int) (hlen : xs.length = ds.length) :
    row_major ds xs = col_major ds.reverse xs.reverse := by
  induction ds generalizing xs with
  | nil =>
    cases xs with
    | nil => simp [row_major, col_major]
    | cons y ys => simp at hlen
  | cons e ds ih =>
    cases xs with
    | nil => simp at hlen
    | cons y ys =>
      have hl : ys.length = ds.length := by simpa using hlen
      rw [List.reverse_cons, List.reverse_cons,
        col_major_append _ _ _ _ (by simp [hl]), List.prod_reverse, ← ih ys hl]
      simp only [row_major]
      ring

/-- C23 (as amended). Unchecked-mode offsets outside the buffer: for every rank
1..7 and positive extents, with the slowest-varying coordinate (`x_1` in C
order, `x_N` in Fortran order) equal to its extent and the other coordinates in
range, the computed offset is at least the product of the extents whenever the
sum `Σ x_i * s_i` does not exceed 2^31 - 1; with that coordinate equal to -1,
the computed offset is negative whenever the sum is not below -2^31 (as it is
when the product of the extents is at most 2^31 - 1). -/
theorem slowest_axis_out_of_buffer {α : Type} (init : α) (d : Int) (ds xs : List Int)
    (hhi : ds.length + 1 ≤ 7) (hd : 0 < d) (hr : in_range ds xs) :
    (∃ a, orca.new (d :: ds) init = some (.ok a) ∧
      (linear_index 0 (d :: ds) (d :: xs) ≤ INT_MAX →
        ∃ k, orca.at 0 0 a (d :: xs) = some (.ok k) ∧ (d :: ds).prod ≤ k) ∧
      (INT_MIN ≤ linear_index 0 (d :: ds) (-1 :: xs) →
        ∃ k, orca.at 0 0 a (-1 :: xs) = some (.ok k) ∧ k < 0) ∧
      ((d :: ds).prod ≤ INT_MAX → INT_MIN ≤ linear_index 0 (d :: ds) (-1 :: xs))) ∧
    (∃ a, orca.new (ds ++ [d]) init = some (.ok a) ∧
      (linear_index 1 (ds ++ [d]) (xs ++ [d]) ≤ INT_MAX →
        ∃ k, orca.at 0 1 a (xs ++ [d]) = some (.ok k) ∧ (ds ++ [d]).prod ≤ k) ∧
      (INT_MIN ≤ linear_index 1 (ds ++ [d]) (xs ++ [-1]) →
        ∃ k, orca.at 0 1 a (xs ++ [-1]) = some (.ok k) ∧ k < 0) ∧
      ((ds ++ [d]).prod ≤ INT_MAX → INT_MIN ≤ linear_index 1 (ds ++ [d]) (xs ++ [-1]))) := by
  have hpos := in_range_pos hr
  have hlen := in_range_length hr
  have hP := prod_pos_of_pos hpos
  have hrm := row_major_bounds hr
  have hcm := col_major_bounds hr
  have hdP : ds.prod ≤ d * ds.prod := by
    have := Int.mul_le_mul_of_nonneg_right (show 1 ≤ d by omega) (Int.le_of_lt hP)
    simpa using this
  constructor
  · have hpos2 : ∀ e ∈ d :: ds, 0 < e := by
      intro e he
      rcases List.mem_cons.1 he with rfl | he
      · exact hd
      · exact hpos e he
    obtain ⟨a, hnew, hat⟩ := new_at_of_fits (d :: ds) init (by simp) (by simpa using hhi) hpos2
    have e1 : offs 0 (d :: ds) (d :: xs) = d * ds.prod + row_major ds xs := by
      simp [offs, row_major]
    have e2 : offs 0 (d :: ds) (-1 :: xs) = -ds.prod + row_major ds xs := by
      simp [offs, row_major]
    refine ⟨a, hnew, ?_, ?_, ?_⟩
    · rw [linear_index_eq_offs 0 _ _ (by simp [hlen]), e1]
      intro hfit
      refine ⟨_, hat 0 (d :: xs) (by simp [hlen]) (by rw [e1]; unfold INT_MIN; omega)
        (by rw [e1]; exact hfit), ?_⟩
      rw [e1, List.prod_cons]
      omega
    · rw [linear_index_eq_offs 0 _ _ (by simp [hlen]), e2]
      intro hfit
      refine ⟨_, hat 0 (-1 :: xs) (by simp [hlen]) (by rw [e2]; exact hfit)
        (by rw [e2]; unfold INT_MAX; omega), ?_⟩
      rw [e2]
      omega
    · rw [linear_index_eq_offs 0 _ _ (by simp [hlen]), e2, List.prod_cons]
      intro hfit
      unfold INT_MIN
      unfold INT_MAX at hfit
      omega
  · have hpos2 : ∀ e ∈ ds ++ [d], 0 < e := by
      intro e he
      rcases List.mem_append.1 he with he | he
      · exact hpos e he
      · simp at he; omega
    obtain ⟨a, hnew, hat⟩ := new_at_of_fits (ds ++ [d]) init (by simp) (by simpa using hhi) hpos2
    have e1 : offs 1 (ds ++ [d]) (xs ++ [d]) = col_major ds xs + ds.prod * d := by
      simp [offs, col_major_append _ _ _ _ hlen]
    have e2 : offs 1 (ds ++ [d]) (xs ++ [-1]) = col_major ds xs + ds.prod * (-1) := by
      simp only [offs, if_true, col_major_append _ _ _ _ hlen]
    have e3 : ds.prod * d = d * ds.prod := mul_comm _ _
    have e4 : (ds ++ [d]).prod = d * ds.prod := by simp [mul_comm]
    refine ⟨a, hnew, ?_, ?_, ?_⟩
    · rw [linear_index_eq_offs 1 _ _ (by simp [hlen]), e1]
      intro hfit
      refine ⟨_, hat 1 (xs ++ [d]) (by simp [hlen]) (by rw [e1]; unfold INT_MIN; omega)
        (by rw [e1]; exact hfit), ?_⟩
      rw [e1, e4]
      omega
    · rw [linear_index_eq_offs 1 _ _ (by simp [hlen]), e2]
      intro hfit
      refine ⟨_, hat 1 (xs ++ [-1]) (by simp [hlen]) (by rw [e2]; exact hfit)
        (by rw [e2]; unfold INT_MAX; omega), ?_⟩
      rw [e2]
      omega
    · rw [linear_index_eq_offs 1 _ _ (by simp [hlen]), e2, e4]
      intro hfit
      unfold INT_MIN
      unfold INT_MAX at hfit
      omega

theorem slowest_axis_out_of_buffer_witness :
    (∃ a, orca.new (2 :: [3]) (0 : Nat) = some (.ok a) ∧
      (linear_index 0 (2 :: [3]) (2 :: [1]) ≤ INT_MAX →
        ∃ k, orca.at 0 0 a (2 :: [1]) = some (.ok k) ∧ (2 :: [3]).prod ≤ k) ∧
      (INT_MIN ≤ linear_index 0 (2 :: [3]) (-1 :: [1]) →
        ∃ k, orca.at 0 0 a (-1 :: [1]) = some (.ok k) ∧ k < 0) ∧
      ((2 :: [3]).prod ≤ INT_MAX → INT_MIN ≤ linear_index 0 (2 :: [3]) (-1 :: [1]))) ∧
    (∃ a, orca.new ([3] ++ [2]) (0 : Nat) = some (.ok a) ∧
      (linear_index 1 ([3] ++ [2]) ([1] ++ [2]) ≤ INT_MAX →
        ∃ k, orca.at 0 1 a ([1] ++ [2]) = some (.ok k) ∧ ([3] ++ [2]).prod ≤ k) ∧
      (INT_MIN ≤ linear_index 1 ([3] ++ [2]) ([1] ++ [-1]) →
        ∃ k, orca.at 0 1 a ([1] ++ [-1]) = some (.ok k) ∧ k < 0) ∧
      (([3] ++ [2]).prod ≤ INT_MAX → INT_MIN ≤ linear_index 1 ([3] ++ [2]) ([1] ++ [-1]))) :=
  slowest_axis_out_of_buffer (0 : Nat) 2 [3] [1] (by decide) (by decide)
    (List.Forall₂.cons (by decide) List.Forall₂.nil)

/-- C23 refuted as stated: in the 1 x 2147483647 array, C order, the
coordinates (1, 5) have the slowest coordinate equal to its extent and the
other in range, yet the computed offset is -2147483644, below the product of
the extents; in the 2 x 65536 x 65536 array the coordinates (-1, 0, 0) get
offset 0, which is not negative. -/
theorem slowest_axis_out_of_buffer_overflow :
    (∃ a, orca.new [1, 2147483647] (0 : Nat) = some (.ok a) ∧
      in_range [2147483647] [5] ∧
      orca.at 0 0 a [1, 5] = some (.ok (-2147483644)) ∧
      ¬ (([1, 2147483647] : List Int).prod ≤ -2147483644)) ∧
    (∃ a, orca.new [2, 65536, 65536] (0 : Nat) = some (.ok a) ∧
      in_range [65536, 65536] [0, 0] ∧
      orca.at 0 0 a [-1, 0, 0] = some (.ok 0) ∧ ¬ ((0 : Int) < 0)) :=
  ⟨⟨_, rfl, List.Forall₂.cons (by decide) List.Forall₂.nil, by decide, by decide⟩,
    ⟨_, rfl, List.Forall₂.cons (by decide) (List.Forall₂.cons (by decide) List.Forall₂.nil),
      by decide, by decide⟩⟩

/-- C24. Checked and unchecked modes agree on valid input: for every rank 1..7,
both layouts, positive extents and coordinates with `0 ≤ x_i < extents[i]` on
every axis, checked `at` succeeds and addresses the same buffer offset as
unchecked `at` (and so does `at const`). -/
theorem checked_agrees_with_unchecked {α : Type} (FORTRAN_ORDER : Nat) (ds xs : List Int)
    (init : α) (hlo : 1 ≤ ds.length) (hhi : ds.length ≤ 7) (hr : in_range ds xs) :
    ∃ a k, orca.new ds init = some (.ok a) ∧
      orca.at 1 FORTRAN_ORDER a xs = some (.ok k) ∧
      orca.at 0 FORTRAN_ORDER a xs = some (.ok k) ∧
      orca.at_const 1 FORTRAN_ORDER a xs = some (.ok k) ∧
      orca.at_const 0 FORTRAN_ORDER a xs = some (.ok k) := by
  obtain ⟨a, hnew, hl, _, _, hchk⟩ := new_facts ds init hlo hhi (in_range_pos hr)
  obtain ⟨k, hk⟩ := at_unchecked_ok FORTRAN_ORDER a xs (by rw [hl]; exact in_range_length hr)
  have h1 : orca.at 1 FORTRAN_ORDER a xs = some (.ok k) := by
    rw [hchk 1 FORTRAN_ORDER xs hr, hk]
  exact ⟨a, k, hnew, h1, hk, by rw [at_const_eq_at, h1], by rw [at_const_eq_at, hk]⟩

theorem checked_agrees_with_unchecked_witness :
    ∃ a k, orca.new [2, 3, 4] (0 : Nat) = some (.ok a) ∧
      orca.at 1 1 a [1, 2, 3] = some (.ok k) ∧
      orca.at 0 1 a [1, 2, 3] = some (.ok k) ∧
      orca.at_const 1 1 a [1, 2, 3] = some (.ok k) ∧
      orca.at_const 0 1 a [1, 2, 3] = some (.ok k) :=
  checked_agrees_with_unchecked 1 [2, 3, 4] [1, 2, 3] 0 (by decide) (by decide)
    (List.Forall₂.cons (by decide) (List.Forall₂.cons (by decide)
      (List.Forall₂.cons (by decide) List.Forall₂.nil)))

/-- C25. For every rank 1..7, both layouts and both access modes, the const
overload of `at` gives the same outcome as the writable overload on every
array and every coordinate tuple: the same report from the same check when a
check fails, the same offset otherwise. -/
theorem at_const_same_as_at {α : Type} :
    (∀ (bc : Nat) (a : array1d α) (x1 : Int),
      array1d.at_const bc a x1 = array1d.at bc a x1) ∧
    (∀ (bc fo : Nat) (a : array2d α) (x1 x2 : Int),
      array2d.at_const bc fo a x1 x2 = array2d.at bc fo a x1 x2) ∧
    (∀ (bc fo : Nat) (a : array3d α) (x1 x2 x3 : Int),
      array3d.at_const bc fo a x1 x2 x3 = array3d.at bc fo a x1 x2 x3) ∧
    (∀ (bc fo : Nat) (a : array4d α) (x1 x2 x3 x4 : Int),
      array4d.at_const bc fo a x1 x2 x3 x4 = array4d.at bc fo a x1 x2 x3 x4) ∧
    (∀ (bc fo : Nat) (a : array5d α) (x1 x2 x3 x4 x5 : Int),
      array5d.at_const bc fo a x1 x2 x3 x4 x5 = array5d.at bc fo a x1 x2 x3 x4 x5) ∧
    (∀ (bc fo : Nat) (a : array6d α) (x1 x2 x3 x4 x5 x6 : Int),
      array6d.at_const bc fo a x1 x2 x3 x4 x5 x6 = array6d.at bc fo a x1 x2 x3 x4 x5 x6) ∧
    (∀ (bc fo : Nat) (a : array7d α) (x1 x2 x3 x4 x5 x6 x7 : Int),
      array7d.at_const bc fo a x1 x2 x3 x4 x5 x6 x7 = array7d.at bc fo a x1 x2 x3 x4 x5 x6 x7) ∧
    (∀ (bc fo : Nat) (a : orca α) (xs : List Int),
      orca.at_const bc fo a xs = orca.at bc fo a xs) :=
  ⟨fun _ _ _ => rfl, fun _ _ _ _ _ => rfl, fun _ _ _ _ _ _ => rfl,
    fun _ _ _ _ _ _ _ => rfl, fun _ _ _ _ _ _ _ _ => rfl, fun _ _ _ _ _ _ _ _ _ => rfl,
    fun _ _ _ _ _ _ _ _ _ _ => rfl, fun bc fo a xs => at_const_eq_at bc fo a xs⟩

/-- C26. Layout duality: for every rank 1..7, positive extents `(d1..dN)` and
integer coordinates `(x1..xN)`, the row-major offset of `(x1..xN)` in the array
with extents `(d1..dN)` equals the column-major offset of `(xN..x1)` in the
array with extents `(dN..d1)`. -/
theorem layout_duality {α : Type} (ds xs : List Int) (init : α) (hlo : 1 ≤ ds.length)
    (hhi : ds.length ≤ 7) (hpos : ∀ d ∈ ds, 0 < d) (hlen : xs.length = ds.length) :
    ∃ a b, orca.new ds init = some (.ok a) ∧ orca.new ds.reverse init = some (.ok b) ∧
      orca.at 0 0 a xs = orca.at 0 1 b xs.reverse ∧
      (∃ k, orca.at 0 0 a xs = some (.ok k)) := by
  obtain ⟨a, hnew, hat⟩ := new_at_wrap ds init hlo hhi hpos
  obtain ⟨b, hnewb, hatb⟩ := new_at_wrap ds.reverse init (by simpa using hlo)
    (by simpa using hhi) (fun d hd => hpos d (List.mem_reverse.1 hd))
  refine ⟨a, b, hnew, hnewb, ?_, ⟨_, hat 0 xs hlen⟩⟩
  rw [hat 0 xs hlen, hatb 1 xs.reverse (by simp [hlen])]
  simp only [offs, zero_ne_one, if_false, if_true, List.length_reverse,
    row_major_eq_col_major_reverse ds xs hlen]

theorem layout_duality_witness :
    ∃ a b, orca.new [2, 3, 4] (0 : Nat) = some (.ok a) ∧
      orca.new [2, 3, 4].reverse (0 : Nat) = some (.ok b) ∧
      orca.at 0 0 a [1, 2, 3] = orca.at 0 1 b [1, 2, 3].reverse ∧
      (∃ k, orca.at 0 0 a [1, 2, 3] = some (.ok k)) :=
  layout_duality [2, 3, 4] [1, 2, 3] 0 (by decide) (by decide) (by decide) (by decide)

theorem offs_append_unit (fo : Nat) (ds xs : List Int) (hlen : xs.length = ds.length) :
    offs fo (ds ++ [1]) (xs ++ [0]) = offs fo ds xs := by
  unfold offs
  split
  · rw [col_major_append ds xs 1 0 hlen]; ring
  · rw [row_major_append ds xs 1 0 hlen]; ring

theorem offs_cons_unit (fo : Nat) (ds xs : List Int) :
    offs fo (1 :: ds) (0 :: xs) = offs fo ds xs := by
  unfold offs
  split <;> simp [col_major, row_major]

/-- C27. Cross-rank consistency of the seven classes: for every `N` in 1..6,
positive extents `(d1..dN)`, `int` coordinates `(x1..xN)` and each layout, the
rank-`(N+1)` array with extents `(d1..dN, 1)` computes at `(x1..xN, 0)`, and
the rank-`(N+1)` array with extents `(1, d1..dN)` computes at `(0, x1..xN)`,
the same offset as the rank-`N` array with extents `(d1..dN)` at `(x1..xN)`. -/
theorem cross_rank_consistency {α : Type} (ds xs : List Int) (init : α) (hlo : 1 ≤ ds.length)
    (hhi : ds.length ≤ 6) (hpos : ∀ d ∈ ds, 0 < d) (hlen : xs.length = ds.length)
    (hint : ∀ x ∈ xs, INT_MIN ≤ x ∧ x ≤ INT_MAX) :
    ∃ a b c, orca.new ds init = some (.ok a) ∧ orca.new (ds ++ [1]) init = some (.ok b) ∧
      orca.new (1 :: ds) init = some (.ok c) ∧
      ∀ FORTRAN_ORDER : Nat,
        orca.at 0 FORTRAN_ORDER b (xs ++ [0]) = orca.at 0 FORTRAN_ORDER a xs ∧
        orca.at 0 FORTRAN_ORDER c (0 :: xs) = orca.at 0 FORTRAN_ORDER a xs ∧
        ∃ k, orca.at 0 FORTRAN_ORDER a xs = some (.ok k) := by
  obtain ⟨a, hnew, hat⟩ := new_at_wrap ds init hlo (by omega) hpos
  obtain ⟨b, hnewb, hatb⟩ := new_at_wrap (ds ++ [1]) init (by simp) (by simp; omega)
    (by
      intro d hd
      rcases List.mem_append.1 hd with hd | hd
      · exact hpos d hd
      · simp at hd; omega)
  obtain ⟨c, hnewc, hatc⟩ := new_at_wrap (1 :: ds) init (by simp) (by simp; omega)
    (by
      intro d hd
      rcases List.mem_cons.1 hd with rfl | hd
      · decide
      · exact hpos d hd)
  refine ⟨a, b, c, hnew, hnewb, hnewc, ?_⟩
  intro fo
  have hb : (ds ++ [1]).length ≠ 1 := by
    rw [List.length_append, List.length_singleton]; omega
  have hc : (1 :: ds).length ≠ 1 := by
    rw [List.length_cons]; omega
  have key : (if ds.length = 1 then offs fo ds xs else wrap (offs fo ds xs)) =
      wrap (offs fo ds xs) := by
    split
    · rename_i h1
      rcases ds with _ | ⟨d1, _ | ⟨d2, ds⟩⟩ <;> simp at h1
      rcases xs with _ | ⟨x1, _ | ⟨x2, xs⟩⟩ <;> simp at hlen
      have hx := hint x1 (by simp)
      have : offs fo [d1] [x1] = x1 := by
        unfold offs; split <;> simp [col_major, row_major]
      rw [this, wrap_of_fits hx.1 hx.2]
    · rfl
  refine ⟨?_, ?_, ⟨_, hat fo xs hlen⟩⟩
  · rw [hatb fo (xs ++ [0]) (by simp [hlen]), hat fo xs hlen, if_neg hb, key,
      offs_append_unit fo ds xs hlen]
  · rw [hatc fo (0 :: xs) (by simp [hlen]), hat fo xs hlen, if_neg hc, key,
      offs_cons_unit fo ds xs]

theorem cross_rank_consistency_witness :
    ∃ a b c, orca.new [2, 3] (0 : Nat) = some (.ok a) ∧
      orca.new ([2, 3] ++ [1]) (0 : Nat) = some (.ok b) ∧
      orca.new (1 :: [2, 3]) (0 : Nat) = some (.ok c) ∧
      ∀ FORTRAN_ORDER : Nat,
        orca.at 0 FORTRAN_ORDER b ([7, -2] ++ [0]) = orca.at 0 FORTRAN_ORDER a [7, -2] ∧
        orca.at 0 FORTRAN_ORDER c (0 :: [7, -2]) = orca.at 0 FORTRAN_ORDER a [7, -2] ∧
        ∃ k, orca.at 0 FORTRAN_ORDER a [7, -2] = some (.ok k) :=
  cross_rank_consistency [2, 3] [7, -2] 0 (by decide) (by decide) (by decide) (by decide)
    (by decide)

/-! ## Order of the offsets and recovery of the coordinates -/

theorem row_major_lt_of_lex {ds xs ys : List Int} (hx : in_range ds xs) (hy : in_range ds ys)
    (h : lex_lt xs ys) : row_major ds xs < row_major ds ys := by
  unfold in_range at hx hy
  induction hx generalizing ys with
  | nil => cases hy; simp [lex_lt] at h
  | @cons d x ds xs hx0 hr ih =>
    cases hy with
    | @cons _ y _ ys hy0 hs =>
      have bx := row_major_bounds hr
      have bz := row_major_bounds hs
      have hP : 0 ≤ ds.prod := by omega
      simp only [lex_lt] at h
      simp only [row_major]
      rcases h with h | ⟨h, h2⟩
      · have h1 : (x + 1) * ds.prod ≤ y * ds.prod :=
          Int.mul_le_mul_of_nonneg_right (by omega) hP
        have h3 : (x + 1) * ds.prod = x * ds.prod + ds.prod := by ring
        omega
      · subst h
        have := ih hs h2
        omega

theorem lex_trichotomy {ds xs ys : List Int} (hx : in_range ds xs) (hy : in_range ds ys) :
    lex_lt xs ys ∨ xs = ys ∨ lex_lt ys xs := by
  unfold in_range at hx hy
  induction hx generalizing ys with
  | nil => cases hy; right; left; rfl
  | @cons d x ds xs hx0 hr ih =>
    cases hy with
    | @cons _ y _ ys hy0 hs =>
      simp only [lex_lt]
      rcases lt_trichotomy x y with h | h | h
      · left; left; exact h
      · subst h
        rcases ih hs with h2 | h2 | h2
        · left; right; exact ⟨rfl, h2⟩
        · right; left; rw [h2]
        · right; right; right; exact ⟨rfl, h2⟩
      · right; right; left; exact h

theorem row_major_lt_iff {ds xs ys : List Int} (hx : in_range ds xs) (hy : in_range ds ys) :
    row_major ds xs < row_major ds ys ↔ lex_lt xs ys := by
  constructor
  · intro h
    rcases lex_trichotomy hx hy with h2 | h2 | h2
    · exact h2
    · rw [h2] at h; omega
    · have := row_major_lt_of_lex hy hx h2; omega
  · exact row_major_lt_of_lex hx hy

theorem in_range_reverse {ds xs : List Int} (h : in_range ds xs) :
    in_range ds.reverse xs.reverse := by
  unfold in_range at *
  exact List.forall₂_reverse_iff.2 h

theorem col_major_eq_row_major_reverse (ds xs : List Int) (hlen : xs.length = ds.length) :
    col_major ds xs = row_major ds.reverse xs.reverse := by
  have := row_major_eq_col_major_reverse ds.reverse xs.reverse (by simp [hlen])
  simpa using this.symm

theorem col_major_lt_iff {ds xs ys : List Int} (hx : in_range ds xs) (hy : in_range ds ys) :
    col_major ds xs < col_major ds ys ↔ lex_lt xs.reverse ys.reverse := by
  rw [col_major_eq_row_major_reverse ds xs (in_range_length hx),
    col_major_eq_row_major_reverse ds ys (in_range_length hy)]
  exact row_major_lt_iff (in_range_reverse hx) (in_range_reverse hy)

/-- C28 (as amended). Order preservation: for every rank 1..7, both access
modes, positive extents whose product is at most 2^31 - 1 and valid coordinate
tuples `xs`, `ys`: in C order `offset(xs) < offset(ys)` if and only if `xs`
precedes `ys` lexicographically with axis 1 most significant; in Fortran order
if and only if `xs` precedes `ys` lexicographically with axis `N` most
significant. -/
theorem offset_order_is_lexicographic {α : Type} (ARRAY_BOUNDS_CHECK : Nat)
    (ds xs ys : List Int) (init : α) (hlo : 1 ≤ ds.length) (hhi : ds.length ≤ 7)
    (hP : ds.prod ≤ INT_MAX) (hx : in_range ds xs) (hy : in_range ds ys) :
    ∃ a, orca.new ds init = some (.ok a) ∧
      (∃ k m, orca.at ARRAY_BOUNDS_CHECK 0 a xs = some (.ok k) ∧
        orca.at ARRAY_BOUNDS_CHECK 0 a ys = some (.ok m) ∧ (k < m ↔ lex_lt xs ys)) ∧
      (∃ k m, orca.at ARRAY_BOUNDS_CHECK 1 a xs = some (.ok k) ∧
        orca.at ARRAY_BOUNDS_CHECK 1 a ys = some (.ok m) ∧
        (k < m ↔ lex_lt xs.reverse ys.reverse)) := by
  obtain ⟨a, hnew, _, _, hat⟩ := new_at_in_range ds init hlo hhi (in_range_pos hx) hP
  refine ⟨a, hnew, ⟨_, _, (hat ARRAY_BOUNDS_CHECK 0 xs hx).1, (hat ARRAY_BOUNDS_CHECK 0 ys hy).1, ?_⟩,
    ⟨_, _, (hat ARRAY_BOUNDS_CHECK 1 xs hx).1, (hat ARRAY_BOUNDS_CHECK 1 ys hy).1, ?_⟩⟩
  · simp only [offs, zero_ne_one, if_false]
    exact row_major_lt_iff hx hy
  · simp only [offs, if_true]
    exact col_major_lt_iff hx hy

theorem offset_order_is_lexicographic_witness :
    ∃ a, orca.new [2, 3] (0 : Nat) = some (.ok a) ∧
      (∃ k m, orca.at 1 0 a [0, 2] = some (.ok k) ∧
        orca.at 1 0 a [1, 0] = some (.ok m) ∧ (k < m ↔ lex_lt [0, 2] [1, 0])) ∧
      (∃ k m, orca.at 1 1 a [0, 2] = some (.ok k) ∧
        orca.at 1 1 a [1, 0] = some (.ok m) ∧
        (k < m ↔ lex_lt [0, 2].reverse [1, 0].reverse)) :=
  offset_order_is_lexicographic 1 [2, 3] [0, 2] [1, 0] 0 (by decide) (by decide) (by decide)
    (List.Forall₂.cons (by decide) (List.Forall₂.cons (by decide) List.Forall₂.nil))
    (List.Forall₂.cons (by decide) (List.Forall₂.cons (by decide) List.Forall₂.nil))

/-- C28 refuted as stated: in the 65536 x 65536 array, C order, the valid
tuple (0, 1) precedes the valid tuple (32768, 0) lexicographically, but their
offsets are 1 and -2^31. -/
theorem offset_order_is_lexicographic_overflow :
    ∃ a, orca.new [65536, 65536] (0 : Nat) = some (.ok a) ∧
      in_range [65536, 65536] [0, 1] ∧ in_range [65536, 65536] [32768, 0] ∧
      lex_lt [0, 1] [32768, 0] ∧
      orca.at 0 0 a [0, 1] = some (.ok 1) ∧
      orca.at 0 0 a [32768, 0] = some (.ok (-2147483648)) ∧
      ¬ ((1 : Int) < -2147483648) :=
  ⟨_, rfl, List.Forall₂.cons (by decide) (List.Forall₂.cons (by decide) List.Forall₂.nil),
    List.Forall₂.cons (by decide) (List.Forall₂.cons (by decide) List.Forall₂.nil),
    Or.inl (by decide), by decide, by decide, by decide⟩

theorem ediv_mul_add {x d c T : Int} (hx0 : 0 ≤ x) (hxd : x < d) (hT : 0 < T) :
    (x + d * c) / (d * T) = c / T := by
  have hd : 0 < d := by omega
  have hr0 := Int.emod_nonneg c (ne_of_gt hT)
  have hr1 := Int.emod_lt_of_pos c hT
  have hc := Int.ediv_add_emod c T
  have hdT : 0 < d * T := Int.mul_pos hd hT
  have e : x + d * c = (x + d * (c % T)) + (c / T) * (d * T) := by
    have : d * c = d * (T * (c / T) + c % T) := by rw [hc]
    rw [this]; ring
  have h1 : 0 ≤ d * (c % T) := Int.mul_nonneg (Int.le_of_lt hd) hr0
  have h2 : d * (c % T + 1) ≤ d * T := Int.mul_le_mul_of_nonneg_left (by omega) (Int.le_of_lt hd)
  have h3 : d * (c % T + 1) = d * (c % T) + d := by ring
  rw [e, Int.add_mul_ediv_right _ _ (ne_of_gt hdT),
    Int.ediv_eq_zero_of_lt (by omega) (by omega)]
  simp

theorem col_major_digit {ds xs : List Int} (h : in_range ds xs) (i : Nat)
    (hi : i < ds.length) :
    xs.getD i 0 = (col_major ds xs / (ds.take i).prod) % ds.getD i 0 := by
  unfold in_range at h
  induction h generalizing i with
  | nil => simp at hi
  | @cons d x ds xs hx hr ih =>
    cases i with
    | zero =>
      simp only [List.getD_cons_zero, List.take_zero, List.prod_nil, col_major, Int.ediv_one,
        Int.add_mul_emod_self_left]
      exact (Int.emod_eq_of_lt hx.1 hx.2).symm
    | succ j =>
      have hj : j < ds.length := by simpa using hi
      have hT : 0 < (ds.take j).prod := (prod_take_le (in_range_pos hr) j).1
      simp only [List.getD_cons_succ, List.take_succ_cons, List.prod_cons, col_major]
      rw [ediv_mul_add hx.1 hx.2 hT]
      exact ih j hj

theorem prod_split (ds : List Int) (j : Nat) (hj : j < ds.length) :
    ds.prod = (ds.take j).prod * ds.getD j 0 * (ds.drop (j + 1)).prod := by
  induction ds generalizing j with
  | nil => simp at hj
  | cons d ds ih =>
    cases j with
    | zero => simp
    | succ j =>
      have hj2 : j < ds.length := by simpa using hj
      simp only [List.prod_cons, List.take_succ_cons, List.getD_cons_succ, List.drop_succ_cons]
      rw [ih j hj2]
      ring

theorem row_major_digit {ds xs : List Int} (h : in_range ds xs) (i : Nat)
    (hi : i < ds.length) :
    xs.getD i 0 = (row_major ds xs / (ds.drop (i + 1)).prod) % ds.getD i 0 := by
  unfold in_range at h
  induction h generalizing i with
  | nil => simp at hi
  | @cons d x ds xs hx hr ih =>
    have hb := row_major_bounds hr
    have hP : 0 < ds.prod := prod_pos_of_pos (in_range_pos hr)
    cases i with
    | zero =>
      simp only [List.getD_cons_zero, row_major, List.drop_succ_cons, List.drop_zero]
      rw [Int.add_comm, Int.add_mul_ediv_right _ _ (ne_of_gt hP),
        Int.ediv_eq_zero_of_lt hb.1 hb.2, Int.zero_add]
      exact (Int.emod_eq_of_lt hx.1 hx.2).symm
    | succ j =>
      have hj : j < ds.length := by simpa using hi
      have hs : 0 < (ds.drop (j + 1)).prod := (prod_drop_le (in_range_pos hr) (j + 1)).1
      simp only [List.getD_cons_succ, row_major, List.drop_succ_cons]
      have e : x * ds.prod + row_major ds xs =
          row_major ds xs + (x * (ds.take j).prod * ds.getD j 0) * (ds.drop (j + 1)).prod := by
        rw [prod_split ds j hj]; ring
      rw [e, Int.add_mul_ediv_right _ _ (ne_of_gt hs), Int.add_mul_emod_self]
      exact ih j hj

theorem offs_digit (fo : Nat) {ds xs : List Int} (h : in_range ds xs) (i : Nat)
    (hi : i < ds.length) :
    xs.getD i 0 = (offs fo ds xs / stride fo ds i) % ds.getD i 0 := by
  unfold offs stride
  split
  · exact col_major_digit h i hi
  · exact row_major_digit h i hi

/-- C29 (as amended). Coordinates are recoverable from the offset: for every
rank 1..7, both layouts, both access modes, positive extents whose product is
at most 2^31 - 1 and every valid coordinate tuple with offset `k`, every axis
`i` satisfies `x_i = (k div s_i) mod extents[i]`, with `s_i` the stride of axis
`i`, which for ranks 3 to 7 is the stored factor (`C_i` in C order, `F_i` in
Fortran order). -/
theorem coordinates_from_offset {α : Type} (ARRAY_BOUNDS_CHECK FORTRAN_ORDER : Nat)
    (ds xs : List Int) (init : α) (hlo : 1 ≤ ds.length) (hhi : ds.length ≤ 7)
    (hP : ds.prod ≤ INT_MAX) (hr : in_range ds xs) :
    ∃ a k, orca.new ds init = some (.ok a) ∧
      orca.at ARRAY_BOUNDS_CHECK FORTRAN_ORDER a xs = some (.ok k) ∧
      (∀ i, i < ds.length → xs.getD i 0 = (k / stride FORTRAN_ORDER ds i) % ds.getD i 0) ∧
      (3 ≤ ds.length → (if FORTRAN_ORDER = 1 then orca.F a else orca.C a) =
        (List.range ds.length).map (fun i => stride FORTRAN_ORDER ds i)) := by
  obtain ⟨a, hnew, _, _, hat⟩ := new_at_in_range ds init hlo hhi (in_range_pos hr) hP
  refine ⟨a, _, hnew, (hat ARRAY_BOUNDS_CHECK FORTRAN_ORDER xs hr).1,
    fun i hi => offs_digit FORTRAN_ORDER hr i hi, ?_⟩
  intro h3
  obtain ⟨hF, hC⟩ := factors_exact ds init a hnew h3 hP
  split
  · rename_i h1
    subst h1
    exact hF
  · rename_i h1
    rw [hC]
    apply List.map_congr_left
    intro i _
    simp [stride, h1]

theorem coordinates_from_offset_witness :
    ∃ a k, orca.new [2, 3, 4] (0 : Nat) = some (.ok a) ∧
      orca.at 0 1 a [1, 2, 3] = some (.ok k) ∧
      (∀ i, i < [2, 3, 4].length →
        ([1, 2, 3] : List Int).getD i 0 = (k / stride 1 [2, 3, 4] i) % ([2, 3, 4] : List Int).getD i 0) ∧
      (3 ≤ [2, 3, 4].length → (if (1 : Nat) = 1 then orca.F a else orca.C a) =
        (List.range [2, 3, 4].length).map (fun i => stride 1 [2, 3, 4] i)) :=
  coordinates_from_offset 0 1 [2, 3, 4] [1, 2, 3] 0 (by decide) (by decide) (by decide)
    (List.Forall₂.cons (by decide) (List.Forall₂.cons (by decide)
      (List.Forall₂.cons (by decide) List.Forall₂.nil)))

/-- C29 refuted as stated: in the 65536 x 65537 array, C order, the valid
tuple (65535, 1) has offset 0, and `(0 div s_1) mod 65536` is 0, not 65535. -/
theorem coordinates_from_offset_overflow :
    ∃ a, orca.new [65536, 65537] (0 : Nat) = some (.ok a) ∧
      in_range [65536, 65537] [65535, 1] ∧
      orca.at 0 0 a [65535, 1] = some (.ok 0) ∧
      stride 0 [65536, 65537] 0 = 65537 ∧
      ([65535, 1] : List Int).getD 0 0 ≠
        (0 / stride 0 [65536, 65537] 0) % ([65536, 65537] : List Int).getD 0 0 :=
  ⟨_, rfl, List.Forall₂.cons (by decide) (List.Forall₂.cons (by decide) List.Forall₂.nil),
    by decide, by decide, by decide⟩

theorem offs_zeros (fo : Nat) (ds : List Int) :
    offs fo ds (List.replicate ds.length 0) = 0 := by
  unfold offs
  split
  · induction ds with
    | nil => simp [col_major]
    | cons d ds ih => simp [List.replicate_succ, col_major, ih]
  · induction ds with
    | nil => simp [row_major]
    | cons d ds ih => simp [List.replicate_succ, row_major, ih]

theorem offs_corner (fo : Nat) (ds : List Int) :
    offs fo ds (ds.map (fun d => d - 1)) = ds.prod - 1 := by
  unfold offs
  split
  · induction ds with
    | nil => simp [col_major]
    | cons d ds ih => simp only [List.map_cons, col_major, ih, List.prod_cons]; ring
  · induction ds with
    | nil => simp [row_major]
    | cons d ds ih => simp only [List.map_cons, row_major, ih, List.prod_cons]; ring

theorem in_range_zeros {ds : List Int} (hpos : ∀ d ∈ ds, 0 < d) :
    in_range ds (List.replicate ds.length 0) := by
  unfold in_range
  induction ds with
  | nil => exact List.Forall₂.nil
  | cons d ds ih =>
    exact List.Forall₂.cons ⟨le_refl 0, hpos d (List.mem_cons_self d ds)⟩
      (ih (fun e he => hpos e (List.mem_cons_of_mem d he)))

theorem in_range_corner {ds : List Int} (hpos : ∀ d ∈ ds, 0 < d) :
    in_range ds (ds.map (fun d => d - 1)) := by
  unfold in_range
  induction ds with
  | nil => exact List.Forall₂.nil
  | cons d ds ih =>
    have := hpos d (List.mem_cons_self d ds)
    have hd : 0 ≤ d - 1 ∧ d - 1 < d := ⟨by omega, by omega⟩
    exact List.Forall₂.cons hd
      (ih (fun e he => hpos e (List.mem_cons_of_mem d he)))

/-- C30 (as amended). Corner offsets: for every rank 1..7, each layout, each
access mode and positive extents `(d1..dN)`, the all-zero coordinate tuple has
offset 0; when the product of the extents is at most 2^31 - 1, the tuple
`(d1 - 1, .., dN - 1)` has offset `(product of extents) - 1`, the last element
of the buffer. -/
theorem corner_offsets {α : Type} (ARRAY_BOUNDS_CHECK FORTRAN_ORDER : Nat) (ds : List Int)
    (init : α) (hlo : 1 ≤ ds.length) (hhi : ds.length ≤ 7) (hpos : ∀ d ∈ ds, 0 < d) :
    ∃ a, orca.new ds init = some (.ok a) ∧
      orca.at ARRAY_BOUNDS_CHECK FORTRAN_ORDER a (List.replicate ds.length 0) = some (.ok 0) ∧
      (ds.prod ≤ INT_MAX →
        orca.at ARRAY_BOUNDS_CHECK FORTRAN_ORDER a (ds.map (fun d => d - 1)) =
          some (.ok (ds.prod - 1)) ∧
        ((orca.internal_array a).length : Int) = ds.prod) := by
  obtain ⟨a, hnew, _, _, _, hchk⟩ := new_facts ds init hlo hhi hpos
  obtain ⟨b, hb, hat⟩ := new_at_of_fits ds init hlo hhi hpos
  have hab : a = b := by
    rw [hnew] at hb
    injection hb with hb
    injection hb
  subst hab
  refine ⟨a, hnew, ?_, ?_⟩
  · rw [hchk _ _ _ (in_range_zeros hpos),
      hat FORTRAN_ORDER _ (by simp) (by rw [offs_zeros]; decide) (by rw [offs_zeros]; decide),
      offs_zeros]
  · intro hP
    obtain ⟨c, hc, _, hbuf, hat2⟩ := new_at_in_range ds init hlo hhi hpos hP
    have hac : a = c := by
      rw [hnew] at hc
      injection hc with hc
      injection hc
    subst hac
    have hp := prod_pos_of_pos hpos
    constructor
    · rw [(hat2 ARRAY_BOUNDS_CHECK FORTRAN_ORDER _ (in_range_corner hpos)).1, offs_corner]
    · rw [hbuf, List.length_replicate]; omega

theorem corner_offsets_witness :
    ∃ a, orca.new [2, 3, 4] (0 : Nat) = some (.ok a) ∧
      orca.at 1 0 a (List.replicate [2, 3, 4].length 0) = some (.ok 0) ∧
      (([2, 3, 4] : List Int).prod ≤ INT_MAX →
        orca.at 1 0 a (([2, 3, 4] : List Int).map (fun d => d - 1)) =
          some (.ok (([2, 3, 4] : List Int).prod - 1)) ∧
        ((orca.internal_array a).length : Int) = ([2, 3, 4] : List Int).prod) :=
  corner_offsets 1 0 [2, 3, 4] 0 (by decide) (by decide) (by decide)

/-- C30 refuted as stated: in the 65536 x 65536 array, C order, the tuple
(65535, 65535) has offset -1, not `65536 * 65536 - 1`. -/
theorem corner_offsets_overflow :
    ∃ a, orca.new [65536, 65536] (0 : Nat) = some (.ok a) ∧
      orca.at 0 0 a (([65536, 65536] : List Int).map (fun d => d - 1)) = some (.ok (-1)) ∧
      ([65536, 65536] : List Int).prod - 1 = 4294967295 ∧
      orca.at 0 0 a (([65536, 65536] : List Int).map (fun d => d - 1)) ≠
        some (.ok (([65536, 65536] : List Int).prod - 1)) :=
  ⟨_, rfl, by decide, by decide, by decide⟩

/-! ## Relations between neighbouring factors -/

theorem foldl_imul_wrap (ds : List Int) (d : Int) (hd : wrap d = d) :
    ds.foldl imul d = wrap (d * ds.prod) := by
  induction ds generalizing d with
  | nil => simp [hd]
  | cons e ds ih =>
    rw [List.foldl_cons, ih (imul d e) (by unfold imul; exact wrap_wrap _), List.prod_cons]
    unfold imul
    rw [wrap_mul_left, Int.mul_assoc]

theorem alloc_count_wrap {ds : List Int} (hint : ∀ d ∈ ds, INT_MIN ≤ d ∧ d ≤ INT_MAX) :
    alloc_count ds = wrap ds.prod := by
  cases ds with
  | nil => simp [alloc_count, wrap]
  | cons d ds =>
    have hd := hint d (List.mem_cons_self d ds)
    simp only [alloc_count, List.prod_cons]
    exact foldl_imul_wrap ds d (wrap_of_fits hd.1 hd.2)

theorem prod_take_succ (ds : List Int) (i : Nat) (hi : i < ds.length) :
    (ds.take (i + 1)).prod = (ds.take i).prod * ds.getD i 0 := by
  induction ds generalizing i with
  | nil => simp at hi
  | cons d ds ih =>
    cases i with
    | zero => simp
    | succ j =>
      have hj : j < ds.length := by simpa using hi
      simp only [List.take_succ_cons, List.prod_cons, List.getD_cons_succ]
      rw [ih j hj, Int.mul_assoc]

theorem prod_drop_succ (ds : List Int) (i : Nat) (hi : i < ds.length) :
    (ds.drop i).prod = (ds.drop (i + 1)).prod * ds.getD i 0 := by
  induction ds generalizing i with
  | nil => simp at hi
  | cons d ds ih =>
    cases i with
    | zero => simp [Int.mul_comm]
    | succ j =>
      have hj : j < ds.length := by simpa using hi
      simp only [List.drop_succ_cons, List.getD_cons_succ]
      exact ih j hj

theorem map_range_getD (f : Nat → Int) (n i : Nat) (hi : i < n) :
    ((List.range n).map f).getD i 0 = f i := by
  simp [List.getD_eq_getElem?_getD, List.getElem?_eq_getElem, hi]

/-- C31 (as amended). Stride-table consistency: for every rank 3..7 and
positive `int` extents, the stored factors satisfy `F_(i+1) = F_i * size_i` and
`C_i = C_(i+1) * size_(i+1)` for every `i` in `1..N-1`, and
`F_N * size_N = C_1 * size_1 =` the element count handed to the allocation of
the buffer, each product taken in the program's `int` arithmetic; when the
product of the extents is at most 2^31 - 1 the same equalities hold for the
exact products. -/
theorem stride_table_consistency {α : Type} (ds : List Int) (init : α) (hlo : 3 ≤ ds.length)
    (hhi : ds.length ≤ 7) (hpos : ∀ d ∈ ds, 0 < d) (hint : ∀ d ∈ ds, d ≤ INT_MAX) :
    ∃ a, orca.new ds init = some (.ok a) ∧ orca.lengths a = ds ∧
      orca.internal_array a = new_array (alloc_count ds) init ∧
      (∀ i, i + 1 < ds.length →
        (orca.F a).getD (i + 1) 0 = imul ((orca.F a).getD i 0) ((orca.lengths a).getD i 0) ∧
        (orca.C a).getD i 0 =
          imul ((orca.C a).getD (i + 1) 0) ((orca.lengths a).getD (i + 1) 0)) ∧
      imul ((orca.F a).getD (ds.length - 1) 0) ((orca.lengths a).getD (ds.length - 1) 0) =
        alloc_count ds ∧
      imul ((orca.C a).getD 0 0) ((orca.lengths a).getD 0 0) = alloc_count ds ∧
      (ds.prod ≤ INT_MAX →
        (∀ i, i + 1 < ds.length →
          (orca.F a).getD (i + 1) 0 = (orca.F a).getD i 0 * (orca.lengths a).getD i 0 ∧
          (orca.C a).getD i 0 =
            (orca.C a).getD (i + 1) 0 * (orca.lengths a).getD (i + 1) 0) ∧
        (orca.F a).getD (ds.length - 1) 0 * (orca.lengths a).getD (ds.length - 1) 0 =
          alloc_count ds ∧
        (orca.C a).getD 0 0 * (orca.lengths a).getD 0 0 = alloc_count ds) := by
  obtain ⟨a, hnew, hF, hC⟩ := new_factors ds init hlo hhi hpos
  obtain ⟨b, hb, hlen, hbuf, _, _⟩ := new_facts ds init (by omega) hhi hpos
  have hab : a = b := by
    rw [hnew] at hb
    injection hb with hb
    injection hb
  subst hab
  have hfit : ∀ l : List Int, (∀ d ∈ l, d ∈ ds) → alloc_count l = wrap l.prod := by
    intro l hl
    apply alloc_count_wrap
    intro d hd
    have h1 := hpos d (hl d hd)
    have h2 := hint d (hl d hd)
    unfold INT_MIN
    omega
  have hT : ∀ i, alloc_count ((ds.take i).reverse) = wrap (ds.take i).prod := by
    intro i
    rw [hfit _ (fun d hd => List.mem_of_mem_take (List.mem_reverse.1 hd)), List.prod_reverse]
  have hD : ∀ i, alloc_count (ds.drop i) = wrap (ds.drop i).prod :=
    fun i => hfit _ (fun d hd => List.mem_of_mem_drop hd)
  have hall : alloc_count ds = wrap ds.prod := hfit ds (fun d hd => hd)
  have hFi : ∀ i, i < ds.length → (orca.F a).getD i 0 = wrap (ds.take i).prod := by
    intro i hi
    rw [hF, map_range_getD _ _ _ hi, hT]
  have hCi : ∀ i, i < ds.length → (orca.C a).getD i 0 = wrap (ds.drop (i + 1)).prod := by
    intro i hi
    rw [hC, map_range_getD _ _ _ hi, hD]
  have hstep : ∀ i, i + 1 < ds.length →
      (orca.F a).getD (i + 1) 0 = imul ((orca.F a).getD i 0) ((orca.lengths a).getD i 0) ∧
      (orca.C a).getD i 0 =
        imul ((orca.C a).getD (i + 1) 0) ((orca.lengths a).getD (i + 1) 0) := by
    intro i hi
    rw [hlen, hFi (i + 1) hi, hFi i (by omega), hCi i (by omega), hCi (i + 1) hi]
    unfold imul
    rw [wrap_mul_left, wrap_mul_left, prod_take_succ ds i (by omega),
      prod_drop_succ ds (i + 1) hi]
    exact ⟨rfl, rfl⟩
  have hlast : imul ((orca.F a).getD (ds.length - 1) 0)
      ((orca.lengths a).getD (ds.length - 1) 0) = alloc_count ds := by
    rw [hlen, hFi (ds.length - 1) (by omega), hall]
    unfold imul
    rw [wrap_mul_left, ← prod_take_succ ds (ds.length - 1) (by omega)]
    have e : ds.length - 1 + 1 = ds.length := by omega
    rw [e, List.take_length]
  have hfirst : imul ((orca.C a).getD 0 0) ((orca.lengths a).getD 0 0) = alloc_count ds := by
    rw [hlen, hCi 0 (by omega), hall]
    unfold imul
    rw [wrap_mul_left, ← prod_drop_succ ds 0 (by omega), List.drop_zero]
  refine ⟨a, hnew, hlen, hbuf, hstep, hlast, hfirst, ?_⟩
  intro hP
  obtain ⟨hFe, hCe⟩ := factors_exact ds init a hnew hlo hP
  have hFx : ∀ i, i < ds.length → (orca.F a).getD i 0 = (ds.take i).prod := by
    intro i hi
    rw [hFe, map_range_getD _ _ _ hi]
    simp [stride]
  have hCx : ∀ i, i < ds.length → (orca.C a).getD i 0 = (ds.drop (i + 1)).prod := by
    intro i hi
    rw [hCe, map_range_getD _ _ _ hi]
    simp [stride]
  refine ⟨?_, ?_, ?_⟩
  · intro i hi
    rw [hlen, hFx (i + 1) hi, hFx i (by omega), hCx i (by omega), hCx (i + 1) hi,
      prod_take_succ ds i (by omega), prod_drop_succ ds (i + 1) hi]
    exact ⟨rfl, rfl⟩
  · rw [hlen, hFx (ds.length - 1) (by omega), alloc_count_eq hpos hP,
      ← prod_take_succ ds (ds.length - 1) (by omega)]
    have e : ds.length - 1 + 1 = ds.length := by omega
    rw [e, List.take_length]
  · rw [hlen, hCx 0 (by omega), alloc_count_eq hpos hP,
      ← prod_drop_succ ds 0 (by omega), List.drop_zero]

theorem stride_table_consistency_witness :
    ∃ a, orca.new [2, 3, 4] (0 : Nat) = some (.ok a) ∧ orca.lengths a = [2, 3, 4] ∧
      orca.internal_array a = new_array (alloc_count [2, 3, 4]) 0 ∧
      (∀ i, i + 1 < [2, 3, 4].length →
        (orca.F a).getD (i + 1) 0 = imul ((orca.F a).getD i 0) ((orca.lengths a).getD i 0) ∧
        (orca.C a).getD i 0 =
          imul ((orca.C a).getD (i + 1) 0) ((orca.lengths a).getD (i + 1) 0)) ∧
      imul ((orca.F a).getD ([2, 3, 4].length - 1) 0)
          ((orca.lengths a).getD ([2, 3, 4].length - 1) 0) = alloc_count [2, 3, 4] ∧
      imul ((orca.C a).getD 0 0) ((orca.lengths a).getD 0 0) = alloc_count [2, 3, 4] ∧
      (([2, 3, 4] : List Int).prod ≤ INT_MAX →
        (∀ i, i + 1 < [2, 3, 4].length →
          (orca.F a).getD (i + 1) 0 = (orca.F a).getD i 0 * (orca.lengths a).getD i 0 ∧
          (orca.C a).getD i 0 =
            (orca.C a).getD (i + 1) 0 * (orca.lengths a).getD (i + 1) 0) ∧
        (orca.F a).getD ([2, 3, 4].length - 1) 0 *
            (orca.lengths a).getD ([2, 3, 4].length - 1) 0 = alloc_count [2, 3, 4] ∧
        (orca.C a).getD 0 0 * (orca.lengths a).getD 0 0 = alloc_count [2, 3, 4]) :=
  stride_table_consistency [2, 3, 4] 0 (by decide) (by decide) (by decide) (by decide)

/-- C31 refuted as stated: for extents 65536 x 65536 x 2 the constructor stores
`F = (1, 65536, 0)` and `C = (131072, 2, 1)` and hands the element count 0 to
the allocation; `F_2 * size_2` is 2^32, not the stored `F_3 = 0`, and
`C_1 * size_1` is 2^33, neither `F_3 * size_3 = 0` nor the element count. -/
theorem stride_table_consistency_overflow :
    ∃ a, orca.new [65536, 65536, 2] (0 : Nat) = some (.ok a) ∧
      orca.lengths a = [65536, 65536, 2] ∧
      orca.F a = [1, 65536, 0] ∧ orca.C a = [131072, 2, 1] ∧
      alloc_count [65536, 65536, 2] = 0 ∧
      (orca.F a).getD 2 0 ≠ (orca.F a).getD 1 0 * (orca.lengths a).getD 1 0 ∧
      (orca.F a).getD 2 0 * (orca.lengths a).getD 2 0 ≠
        (orca.C a).getD 0 0 * (orca.lengths a).getD 0 0 ∧
      (orca.C a).getD 0 0 * (orca.lengths a).getD 0 0 ≠ alloc_count [65536, 65536, 2] :=
  ⟨_, rfl, by decide, by decide, by decide, by decide, by decide, by decide, by decide⟩

end orca_array
